import Mathlib

/-!
Clon trade agent: analysis engine and signal constructor.

A shallow embedding of `src/backend/engine/taEngine.js`,
`src/backend/services/signalGenerator.js` and `src/backend/db/signals.js`.

Numbers.  A JavaScript number is an IEEE-754 binary64 value.  The finite ones
are rationals and the embedding writes them as such: `fl` rounds a rational to
the nearest binary64 number (a tie going to the even significand), and every
arithmetic operation of the program (`fadd`, `fsub`, `fmul`, `fdiv`) reads its
operands as binary64 numbers and rounds its exact result with `fl`.  A decimal
literal of the source (`0.99`, `1.025`, `0.6`) is the binary64 number nearest
to it, and so is a candle field or an argument that is written as a decimal.
`Math.round`, `Math.max`, `Math.min`, `Math.abs` and the comparisons are exact
on binary64 numbers.  Magnitudes of `2 ^ 1024` and above, where the program
overflows to `±Infinity`, are outside the model: the statements below concern
runs whose numbers stay below that bound.

`NaN` and `±Infinity` arise in the engine where the volume ratio divides by
zero and where the library leaves the signal line undefined: these two fields
of a report are a `JsNum`.  A value that is `null` or `undefined` in the
program is an `Option`.  Were the library to return an empty EMA or RSI
series, the program would round `undefined`; the embedding stops such a run
with `Failure.notFinite`.

The indicator library (`technicalindicators`) is an external dependency: the
engine is parameterised by it (`IndicatorLib`).
-/

namespace Clon

/-! ## Binary64 arithmetic -/

/-- `2 ^ k` as a rational, for an integer exponent. -/
def pow2 (k : ℤ) : ℚ :=
  if 0 ≤ k then ((2 ^ k.toNat : ℕ) : ℚ) else 1 / ((2 ^ (-k).toNat : ℕ) : ℚ)

/-- Helper of `floorLog2`: the number of halvings that bring `n` below `2`,
counted by structural recursion on a bound for `n`. -/
def floorLog2Aux : ℕ → ℕ → ℕ
  | 0, _ => 0
  | bound + 1, n => if n < 2 then 0 else floorLog2Aux bound (n / 2) + 1

/-- The position of the leading binary digit of `n`: `⌊log₂ n⌋`, and `0` for
`n = 0`. -/
def floorLog2 (n : ℕ) : ℕ := floorLog2Aux n n

/-- The binade of a positive rational `x`: the exponent `e` with
`2 ^ e ≤ x < 2 ^ (e + 1)`. -/
def binade (x : ℚ) : ℤ :=
  let k : ℤ := (floorLog2 x.num.natAbs : ℤ) - (floorLog2 x.den : ℤ)
  if pow2 k ≤ x then k else k - 1

/-- The integer nearest to `t`, a tie going to the even one. -/
def roundHalfEven (t : ℚ) : ℤ :=
  let f : ℤ := ⌊t⌋
  if t - f < 1 / 2 then f
  else if 1 / 2 < t - f then f + 1
  else if f % 2 = 0 then f else f + 1

/-- The spacing of the binary64 numbers around `x ≠ 0`: `2 ^ (e - 52)` with `e`
the binade of `|x|`, not below the subnormal spacing `2 ^ (-1074)`. -/
def ulp (x : ℚ) : ℚ :=
  pow2 (max (binade |x|) (-1022) - 52)

/-- The binary64 number nearest to `x`, a tie going to the even significand
(IEEE-754 round-to-nearest-even); overflow to `±Infinity` is not modelled. -/
def fl (x : ℚ) : ℚ :=
  if x = 0 then 0 else (roundHalfEven (x / ulp x) : ℚ) * ulp x

/-- JS `a + b` on finite numbers. -/
def fadd (a b : ℚ) : ℚ := fl (fl a + fl b)

/-- JS `a - b` on finite numbers. -/
def fsub (a b : ℚ) : ℚ := fl (fl a - fl b)

/-- JS `a * b` on finite numbers. -/
def fmul (a b : ℚ) : ℚ := fl (fl a * fl b)

/-- JS `a / b` on finite numbers, for a divisor that is not zero. -/
def fdiv (a b : ℚ) : ℚ := fl (fl a / fl b)

/-- The binary64 number nearest to `m / 100`: the number that JS writes as the
decimal `m / 100`. -/
def cent (m : ℤ) : ℚ := fl ((m : ℚ) / 100)

/-- A JavaScript number that need not be finite. -/
inductive JsNum where
  | num (q : ℚ)
  | nan
  | posInf
  | negInf
  deriving DecidableEq

/-- JS `a / b` on finite numbers, the divisor zero included: `0 / 0` is `NaN`,
and a non-zero number over zero is `±Infinity` (the zero divisors of the engine
are sums that start from `+0`, hence `+0`). -/
def jsDiv (a b : ℚ) : JsNum :=
  if fl b = 0 then
    if fl a = 0 then .nan else if 0 < fl a then .posInf else .negInf
  else .num (fdiv a b)

/-- JS `r > c` for a finite `c`: false on `NaN`. -/
def JsNum.gt (r : JsNum) (c : ℚ) : Bool :=
  match r with
  | .num q => decide (q > c)
  | .posInf => true
  | _ => false

/-- JS `r < c` for a finite `c`: false on `NaN`. -/
def JsNum.lt (r : JsNum) (c : ℚ) : Bool :=
  match r with
  | .num q => decide (q < c)
  | .negInf => true
  | _ => false

/-! ## JavaScript primitives -/

/-- JS `Math.round` on a finite number: the nearest integer, a tie going to the
larger one.  The result is exact: no rounding error enters here. -/
def mathRound (x : ℚ) : ℤ := ⌊x + 1 / 2⌋

/-- The helper `round(n, decimals)` of taEngine.js and signalGenerator.js:
`Math.round(n * Math.pow(10, decimals)) / Math.pow(10, decimals)`, the product
and the quotient being binary64 operations.  The source's default
`decimals = 2` is passed explicitly. -/
def round (n : ℚ) (decimals : ℕ) : ℚ :=
  fdiv (mathRound (fmul n ((10 : ℚ) ^ decimals))) ((10 : ℚ) ^ decimals)

/-- The helper `round` on a number that need not be finite: `NaN` and
`±Infinity` pass through unchanged. -/
def JsNum.round (r : JsNum) (decimals : ℕ) : JsNum :=
  match r with
  | .num q => .num (Clon.round q decimals)
  | other => other

/-- JS `a || b` on a nullable number: `null`, `undefined` and `0` are falsy. -/
def orElse (a : Option ℚ) (b : ℚ) : ℚ :=
  match a with
  | some v => if v = 0 then b else v
  | none => b

/-- JS `a || null` on a nullable number. -/
def orNull (a : Option ℚ) : Option ℚ :=
  match a with
  | some v => if v = 0 then none else some v
  | none => none

/-- JS `a > b` on possibly-undefined numbers: false when a side is undefined. -/
def jsGt (a b : Option ℚ) : Bool :=
  match a, b with
  | some x, some y => decide (x > y)
  | _, _ => false

/-- JS `a < b` on possibly-undefined numbers: false when a side is undefined. -/
def jsLt (a b : Option ℚ) : Bool :=
  match a, b with
  | some x, some y => decide (x < y)
  | _, _ => false

/-- JS `xs.slice(-n)`: the last `n` elements (all of them when there are fewer). -/
def sliceLast {α : Type} (n : ℕ) (xs : List α) : List α :=
  xs.drop (xs.length - n)

/-- JS `Math.max(...xs)`; `⊥` is `-Infinity`, the value on an empty list. -/
def jsMax (xs : List ℚ) : WithBot ℚ :=
  xs.foldl (fun (acc : WithBot ℚ) (x : ℚ) => max acc (x : WithBot ℚ)) ⊥

/-- JS `Math.min(...xs)`; `⊤` is `+Infinity`, the value on an empty list. -/
def jsMin (xs : List ℚ) : WithTop ℚ :=
  xs.foldl (fun (acc : WithTop ℚ) (x : ℚ) => min acc (x : WithTop ℚ)) ⊤

/-- JS `s.includes(sub)`: `sub` occurs in `s` as a contiguous block. -/
def includes (s sub : String) : Bool :=
  s.data.tails.any (fun t => sub.data.isPrefixOf t)

/-- Replace the first occurrence of the character `c` by `d`. -/
def replaceFirstChar (c d : Char) : List Char → List Char
  | [] => []
  | x :: xs => if x = c then d :: xs else x :: replaceFirstChar c d xs

/-- JS `s.replace(c, d)` for one-character strings: first occurrence only. -/
def replaceFirst (s : String) (c d : Char) : String :=
  String.mk (replaceFirstChar c d s.data)

/-- JS number-to-string conversion on the numbers the program prints, which
are results of `round`: the binary64 number nearest to a decimal with at most
two fractional digits is written as that decimal (`97.02`, `102.5`, `105`,
`-0.3`). -/
def numToString (q : ℚ) : String :=
  let n : ℤ := roundHalfEven (q * 100)
  let a : ℕ := n.natAbs
  let sign : String := if n < 0 then "-" else ""
  let ip : ℕ := a / 100
  let fp : ℕ := a % 100
  let frac : String :=
    if fp = 0 then ""
    else if fp % 10 = 0 then "." ++ toString (fp / 10)
    else if fp < 10 then ".0" ++ toString fp
    else "." ++ toString fp
  sign ++ toString ip ++ frac

/-- JS number-to-string conversion on a number that need not be finite. -/
def JsNum.toString (r : JsNum) : String :=
  match r with
  | .num q => numToString q
  | .nan => "NaN"
  | .posInf => "Infinity"
  | .negInf => "-Infinity"

/-! ## Data model -/

/-- One OHLCV bar as `fetchCandles` returns it. -/
structure Candle where
  time : ℤ
  open_ : ℚ
  high : ℚ
  low : ℚ
  close : ℚ
  volume : ℚ
  deriving DecidableEq

/-- The ways an execution leaves the rational model or throws. -/
inductive Failure where
  /-- The `Error` thrown by the length guard of `analyze`. -/
  | insufficientData
  /-- A `TypeError`: a property read on `undefined`. -/
  | typeError
  /-- A number became `NaN` or `±Infinity`; the program itself goes on. -/
  | notFinite
  /-- A collaborator (fetch, save) rejected. -/
  | collaborator (message : String)
  deriving DecidableEq

/-- Equality of results is decidable, so that a concrete run can be checked by
evaluation. -/
instance instDecidableEqExcept {ε α : Type} [DecidableEq ε] [DecidableEq α] :
    DecidableEq (Except ε α)
  | .ok a, .ok b => decidable_of_iff (a = b) (by simp)
  | .error e, .error f => decidable_of_iff (e = f) (by simp)
  | .ok _, .error _ => isFalse (by simp)
  | .error _, .ok _ => isFalse (by simp)

/-- One row of `ti.MACD.calculate`, as read by `calcMACD`.  The library leaves
`signal` undefined on a row whose signal line is 0 or not yet available. -/
structure MACDRow where
  MACD : ℚ
  signal : Option ℚ
  histogram : ℚ
  deriving DecidableEq

/-- The three calculators of the indicator library that the engine calls. -/
structure IndicatorLib where
  /-- `ti.EMA.calculate({ period, values })`. -/
  EMA : ℕ → List ℚ → List ℚ
  /-- `ti.RSI.calculate({ period, values })`. -/
  RSI : ℕ → List ℚ → List ℚ
  /-- `ti.MACD.calculate({ values, fastPeriod, slowPeriod, signalPeriod, ... })`. -/
  MACD : ℕ → ℕ → ℕ → List ℚ → List MACDRow

/-- The four moving averages of a report. -/
structure EMASet where
  ema9 : ℚ
  ema21 : ℚ
  ema50 : ℚ
  ema200 : ℚ
  deriving DecidableEq

/-- Result of `calcRSI`. -/
structure RSIResult where
  value : ℚ
  signal : String
  deriving DecidableEq

/-- Result of `calcMACD`; `signal` is `NaN` when the row carries no signal. -/
structure MACDResult where
  macd : ℚ
  signal : JsNum
  histogram : ℚ
  crossover : String
  deriving DecidableEq

/-- Result of `analyzeVolume`; `ratio` is `NaN` or `±Infinity` when the trailing
mean is zero. -/
structure VolumeResult where
  current : ℚ
  avg20 : ℚ
  ratio : JsNum
  signal : String
  deriving DecidableEq

/-- A detected pivot level `{ type, price }`. -/
structure Level where
  type : String
  price : ℚ
  deriving DecidableEq

/-- Result of `detectSupportResistance`. -/
structure SRResult where
  nearestSupport : Option ℚ
  nearestResistance : Option ℚ
  allLevels : List Level
  deriving DecidableEq

/-- The `indicators` block of a report. -/
structure Indicators where
  ema : EMASet
  rsi : RSIResult
  macd : MACDResult
  volume : VolumeResult
  deriving DecidableEq

/-- The `structure` block of a report. -/
structure StructureSet where
  trend : String
  supportResistance : SRResult
  deriving DecidableEq

/-- The report returned by `analyze`; `struct` is the source's `structure`. -/
structure TAReport where
  timeframe : String
  currentPrice : ℚ
  indicators : Indicators
  struct : StructureSet
  bias : String
  summary : List String
  deriving DecidableEq

/-! ## taEngine.js -/

/-- `calcEMA(closes, period)`: the rounded last value of the library's series.
An empty series makes the source round `undefined`, which is `NaN`. -/
def calcEMA (lib : IndicatorLib) (closes : List ℚ) (period : ℕ) : Except Failure ℚ :=
  let results := lib.EMA period closes
  match results.getLast? with
  | some v => .ok (round v 2)
  | none => .error .notFinite

/-- The label of `calcRSI`: `value > 70 ? overbought : value < 30 ? oversold : neutral`. -/
def rsiSignal (value : ℚ) : String :=
  if value > 70 then "overbought" else if value < 30 then "oversold" else "neutral"

/-- `calcRSI(closes, period)`. -/
def calcRSI (lib : IndicatorLib) (closes : List ℚ) (period : ℕ) : Except Failure RSIResult :=
  let results := lib.RSI period closes
  match results.getLast? with
  | some v =>
    let value := round v 2
    .ok { value := value, signal := rsiSignal value }
  | none => .error .notFinite

/-- The crossover label of `calcMACD` from `last.histogram` and `prev`, the row
before the last (`undefined` when the library returned a single row).  The
conditions are evaluated left to right as in the source, so `prev.histogram`
throws a `TypeError` only where the source reads it. -/
def macdCrossover (lastH : ℚ) (prev : Option MACDRow) : Except Failure String :=
  if lastH > 0 then
    match prev with
    | none => .error .typeError
    | some p => if p.histogram ≤ 0 then .ok "bullish_crossover" else .ok "bullish"
  else if lastH < 0 then
    match prev with
    | none => .error .typeError
    | some p => if p.histogram ≥ 0 then .ok "bearish_crossover" else .ok "bearish"
  else .ok "bearish"

/-- `calcMACD(closes)`: periods 12, 26, 9. -/
def calcMACD (lib : IndicatorLib) (closes : List ℚ) : Except Failure MACDResult :=
  let results := lib.MACD 12 26 9 closes
  match results.getLast? with
  | none => .error .typeError
  | some last =>
    let prev := results.dropLast.getLast?
    match macdCrossover last.histogram prev with
    | .error e => .error e
    | .ok crossover =>
      .ok { macd := round last.MACD 2,
            signal := match last.signal with
              | some s => .num (round s 2)
              | none => .nan,
            histogram := round last.histogram 2, crossover := crossover }

/-- The label of `analyzeVolume`:
`ratio > 1.5 ? high : ratio < 0.6 ? low : average`. -/
def volumeSignal (ratio : JsNum) : String :=
  if ratio.gt (fl (3 / 2)) then "high — strong conviction"
  else if ratio.lt (fl (3 / 5)) then "low — weak conviction"
  else "average"

/-- `analyzeVolume(vols)`.  With a zero trailing mean the ratio is `NaN` or
`±Infinity` and the source goes on.  With no volume at all `current` is
`undefined`; `analyze` never calls the function so, and the embedding leaves
the model there. -/
def analyzeVolume (vols : List ℚ) : Except Failure VolumeResult :=
  let avg20 := fdiv ((sliceLast 20 vols).foldl fadd 0) 20
  match vols.getLast? with
  | none => .error .notFinite
  | some current =>
    let ratio := (jsDiv current avg20).round 2
    .ok { current := round current 2, avg20 := round avg20 2, ratio := ratio,
          signal := volumeSignal ratio }

/-- The test of the first `if` in the pivot loop: `xs[i]` strictly above its four
neighbours. -/
def isPivotHigh (xs : List ℚ) (i : ℕ) : Bool :=
  jsGt xs[i]? xs[i - 1]? && jsGt xs[i]? xs[i - 2]? &&
  jsGt xs[i]? xs[i + 1]? && jsGt xs[i]? xs[i + 2]?

/-- The test of the second `if` in the pivot loop: `xs[i]` strictly below its four
neighbours. -/
def isPivotLow (xs : List ℚ) (i : ℕ) : Bool :=
  jsLt xs[i]? xs[i - 1]? && jsLt xs[i]? xs[i - 2]? &&
  jsLt xs[i]? xs[i + 1]? && jsLt xs[i]? xs[i + 2]?

/-- The levels pushed by one iteration `i` of the pivot loop, in push order. -/
def levelsAt (recentHighs recentLows : List ℚ) (i : ℕ) : List Level :=
  (match recentHighs[i]? with
   | some h => if isPivotHigh recentHighs i then [{ type := "resistance", price := round h 2 }] else []
   | none => []) ++
  (match recentLows[i]? with
   | some l => if isPivotLow recentLows i then [{ type := "support", price := round l 2 }] else []
   | none => [])

/-- The array `levels` after the loop `for (i = 2; i < recentHighs.length - 2; i++)`. -/
def pivotLevels (recentHighs recentLows : List ℚ) : List Level :=
  ((List.range (recentHighs.length - 2)).drop 2).foldl
    (fun levels i => levels ++ levelsAt recentHighs recentLows i) []

/-- `detectSupportResistance(highs, lows, closes)`. -/
def detectSupportResistance (highs lows closes : List ℚ) : SRResult :=
  let recentHighs := sliceLast 50 highs
  let recentLows := sliceLast 50 lows
  let currentPrice := closes.getLast?
  let levels := pivotLevels recentHighs recentLows
  let supports :=
    (levels.filter (fun l => l.type == "support" && jsLt (some l.price) currentPrice)).insertionSort
      (fun a b => b.price ≤ a.price)
  let resistances :=
    (levels.filter (fun l => l.type == "resistance" && jsGt (some l.price) currentPrice)).insertionSort
      (fun a b => a.price ≤ b.price)
  { nearestSupport := orNull (supports.head?.map (fun l => l.price)),
    nearestResistance := orNull (resistances.head?.map (fun l => l.price)),
    allLevels := levels.take 10 }

/-- `detectTrendStructure(highs, lows)`. -/
def detectTrendStructure (highs lows : List ℚ) : String :=
  let n := 20
  let h := sliceLast n highs
  let l := sliceLast n lows
  let midH := h.take (n / 2)
  let latH := h.drop (n / 2)
  let midL := l.take (n / 2)
  let latL := l.drop (n / 2)
  let higherHighs : Bool := decide (jsMax latH > jsMax midH)
  let higherLows : Bool := decide (jsMin latL > jsMin midL)
  let lowerHighs : Bool := decide (jsMax latH < jsMax midH)
  let lowerLows : Bool := decide (jsMin latL < jsMin midL)
  if higherHighs && higherLows then "uptrend (HH + HL)"
  else if lowerHighs && lowerLows then "downtrend (LH + LL)"
  else if higherHighs && lowerLows then "volatile / expanding"
  else "ranging / consolidation"

/-- The argument object of `classifyBias` as `analyze` builds it. -/
structure BiasInput where
  price : ℚ
  ema9 : ℚ
  ema21 : ℚ
  ema50 : ℚ
  ema200 : ℚ
  rsi : RSIResult
  macd : MACDResult
  trend : String
  volume : VolumeResult

/-- The counters `(bullScore, bearScore)` of `classifyBias` after its five votes,
updated statement by statement. -/
def biasScores (a : BiasInput) : ℕ × ℕ :=
  let s0 : ℕ × ℕ := (0, 0)
  let s1 := if a.price > a.ema50 then (s0.1 + 1, s0.2) else (s0.1, s0.2 + 1)
  let s2 := if a.price > a.ema200 then (s1.1 + 1, s1.2) else (s1.1, s1.2 + 1)
  let s3 :=
    if a.rsi.value > 50 ∧ a.rsi.signal ≠ "overbought" then (s2.1 + 1, s2.2)
    else if a.rsi.value < 50 ∧ a.rsi.signal ≠ "oversold" then (s2.1, s2.2 + 1)
    else s2
  let s4 := if a.macd.histogram > 0 then (s3.1 + 1, s3.2) else (s3.1, s3.2 + 1)
  let s5 := if includes a.trend "uptrend" then (s4.1 + 1, s4.2) else s4
  let s6 := if includes a.trend "downtrend" then (s5.1, s5.2 + 1) else s5
  s6

/-- `classifyBias({ price, ema50, ema200, rsi, macd, trend })`. -/
def classifyBias (a : BiasInput) : String :=
  let s := biasScores a
  if s.1 ≥ 4 then "Bullish"
  else if s.2 ≥ 4 then "Bearish"
  else "Neutral / Wait"

/-- JS `v || 'N/A'` inside a template string. -/
def orNA (v : Option ℚ) : String :=
  match v with
  | some p => if p = 0 then "N/A" else numToString p
  | none => "N/A"

/-- `buildSummary({ currentPrice, ema50, ema200, rsi, macd, trend, volume, bias, sr })`. -/
def buildSummary (currentPrice ema50 ema200 : ℚ) (rsi : RSIResult) (macd : MACDResult)
    (trend : String) (volume : VolumeResult) (bias : String) (sr : SRResult) : List String :=
  [ "Trend: " ++ trend,
    "EMA: Price " ++ (if currentPrice > ema200 then "above" else "below") ++ " 200 EMA (" ++
      numToString ema200 ++ "), " ++ (if currentPrice > ema50 then "above" else "below") ++
      " 50 EMA (" ++ numToString ema50 ++ ")",
    "RSI: " ++ numToString rsi.value ++ " (" ++ rsi.signal ++ ")",
    "MACD: " ++ replaceFirst macd.crossover '_' ' ' ++ " | Histogram " ++
      (if macd.histogram > 0 then "+" else "") ++ numToString macd.histogram,
    "Volume: " ++ volume.signal ++ " (" ++ volume.ratio.toString ++ "x avg)",
    "Nearest Support: " ++ orNA sr.nearestSupport,
    "Nearest Resistance: " ++ orNA sr.nearestResistance,
    "Bias: " ++ bias ]

/-- `analyze(candles, timeframe)`; `none` is a `null` or `undefined` argument. -/
def analyze (lib : IndicatorLib) (candles : Option (List Candle)) (timeframe : String) :
    Except Failure TAReport :=
  match candles with
  | none => .error .insufficientData
  | some candles =>
    if candles.length < 200 then .error .insufficientData
    else do
      let closes := candles.map (fun c => c.close)
      let highs := candles.map (fun c => c.high)
      let lows := candles.map (fun c => c.low)
      let vols := candles.map (fun c => c.volume)
      let ema9 ← calcEMA lib closes 9
      let ema21 ← calcEMA lib closes 21
      let ema50 ← calcEMA lib closes 50
      let ema200 ← calcEMA lib closes 200
      let rsi ← calcRSI lib closes 14
      let macd ← calcMACD lib closes
      let volume ← analyzeVolume vols
      let sr := detectSupportResistance highs lows closes
      let trend := detectTrendStructure highs lows
      match closes.getLast? with
      | none => .error .notFinite
      | some currentPrice =>
        let bias := classifyBias
          { price := currentPrice, ema9 := ema9, ema21 := ema21, ema50 := ema50,
            ema200 := ema200, rsi := rsi, macd := macd, trend := trend, volume := volume }
        pure
          { timeframe := timeframe,
            currentPrice := currentPrice,
            indicators :=
              { ema := { ema9 := ema9, ema21 := ema21, ema50 := ema50, ema200 := ema200 },
                rsi := rsi, macd := macd, volume := volume },
            struct := { trend := trend, supportResistance := sr },
            bias := bias,
            summary := buildSummary currentPrice ema50 ema200 rsi macd trend volume bias sr }

/-! ## signalGenerator.js -/

/-- The ticker snapshot `{ symbol, price, change24h, volume24h }` of `fetchTicker`. -/
structure Ticker where
  symbol : String
  price : ℚ
  change24h : ℚ
  volume24h : ℚ
  deriving DecidableEq

/-- The entry zone `{ low, mid, high }`. -/
structure EntryZone where
  low : ℚ
  mid : ℚ
  high : ℚ
  deriving DecidableEq

/-- The signal object returned by `generateSignalForAsset`. -/
structure Signal where
  asset : String
  direction : String
  entryLow : ℚ
  entryHigh : ℚ
  stopLoss : ℚ
  targets : List ℚ
  timeframe : String
  rrRatio : String
  status : String
  timestamp : String
  reasoning : String
  disclaimer : String
  deriving DecidableEq

/-- `calcEntryZone(price, ta)`: a 0.3% buffer on each side; `ta` is not read. -/
def calcEntryZone (price : ℚ) (_ta : TAReport) : EntryZone :=
  let buffer := fmul price (3 / 1000)
  { low := round (fsub price buffer) 2, mid := round price 2,
    high := round (fadd price buffer) 2 }

/-- `calcStopLoss(direction, ta)`. -/
def calcStopLoss (direction : String) (ta : TAReport) : ℚ :=
  let nearestSupport := ta.struct.supportResistance.nearestSupport
  let nearestResistance := ta.struct.supportResistance.nearestResistance
  let ema50 := ta.indicators.ema.ema50
  let ema200 := ta.indicators.ema.ema200
  if direction = "Long" then
    round (max (orElse nearestSupport (fmul ema200 (99 / 100))) (fmul ema50 (99 / 100))) 2
  else
    round (min (orElse nearestResistance (fmul ema200 (101 / 100))) (fmul ema50 (101 / 100))) 2

/-- `calcTargets(direction, ta)`: the array `[t1, t2]`. -/
def calcTargets (direction : String) (ta : TAReport) : List ℚ :=
  let nearestResistance := ta.struct.supportResistance.nearestResistance
  let nearestSupport := ta.struct.supportResistance.nearestSupport
  let price := ta.currentPrice
  if direction = "Long" then
    let t1 := orElse nearestResistance (round (fmul price (1025 / 1000)) 2)
    let t2 := round (fmul price (105 / 100)) 2
    [t1, t2]
  else
    let t1 := orElse nearestSupport (round (fmul price (975 / 1000)) 2)
    let t2 := round (fmul price (95 / 100)) 2
    [t1, t2]

/-- JS `a / b` where the result must be a finite number: `none` stands for the
`NaN` or `±Infinity` that a zero divisor yields. -/
def divide (a b : ℚ) : Option ℚ :=
  if fl b = 0 then none else some (fdiv a b)

/-- `calcRiskReward(entry, sl, target)`; `none` when the ratio is not a finite
number. -/
def calcRiskReward (entry sl target : ℚ) : Option String :=
  let risk := |fsub entry sl|
  let reward := |fsub target entry|
  if risk = 0 then some "0"
  else (divide reward risk).map (fun q => "1:" ++ numToString (round q 1))

/-- The part of `generateSignalForAsset` that follows the analysis step (the
spec's `buildSignal`): `none` is the returned `null`.  `now` is
`new Date().toISOString()` and `disclaimer` the constant `DISCLAIMER`. -/
def buildSignal (symbol timeframe : String) (ticker : Ticker) (ta : TAReport)
    (now disclaimer : String) : Except Failure (Option Signal) :=
  if ta.bias = "Neutral / Wait" then .ok none
  else
    let direction := if ta.bias = "Bullish" then "Long" else "Short"
    let entry := calcEntryZone ticker.price ta
    let sl := calcStopLoss direction ta
    let targets := calcTargets direction ta
    match targets[0]?.bind (fun t => calcRiskReward entry.mid sl t) with
    | none => .error .notFinite
    | some rr =>
      .ok (some
        { asset := symbol, direction := direction, entryLow := entry.low,
          entryHigh := entry.high, stopLoss := sl, targets := targets,
          timeframe := timeframe, rrRatio := rr, status := "Open", timestamp := now,
          reasoning := " | ".intercalate ta.summary, disclaimer := disclaimer })

/-- The collaborators and ambient values of signalGenerator.js. -/
structure Env where
  lib : IndicatorLib
  /-- `fetchCandles(symbol, timeframe, limit)`. -/
  fetchCandles : String → String → ℕ → Except Failure (Option (List Candle))
  /-- `fetchTicker(symbol)`. -/
  fetchTicker : String → Except Failure Ticker
  /-- `new Date().toISOString()`. -/
  now : String
  /-- The constant `DISCLAIMER`. -/
  disclaimer : String

/-- `generateSignalForAsset(symbol, timeframe)`. -/
def generateSignalForAsset (env : Env) (symbol timeframe : String) :
    Except Failure (Option Signal) := do
  let candles ← env.fetchCandles symbol timeframe 300
  let ticker ← env.fetchTicker symbol
  let ta ← analyze env.lib candles timeframe
  buildSignal symbol timeframe ticker ta env.now env.disclaimer

/-- The argument object that `analyze` passes to `classifyBias`, read back from
the report it returns. -/
def biasInputOf (rep : TAReport) : BiasInput :=
  { price := rep.currentPrice, ema9 := rep.indicators.ema.ema9,
    ema21 := rep.indicators.ema.ema21, ema50 := rep.indicators.ema.ema50,
    ema200 := rep.indicators.ema.ema200, rsi := rep.indicators.rsi,
    macd := rep.indicators.macd, trend := rep.struct.trend,
    volume := rep.indicators.volume }

/-! ## Vote counts of the bias classifier, as the specification lists them -/

/-- Number of bull votes among the five: price above ema50, price above ema200,
momentum (above 50 and not overbought), positive histogram, trend label
containing uptrend. -/
def bullVotes (a : BiasInput) : ℕ :=
  (if a.price > a.ema50 then 1 else 0) + (if a.price > a.ema200 then 1 else 0) +
  (if a.rsi.value > 50 ∧ a.rsi.signal ≠ "overbought" then 1 else 0) +
  (if a.macd.histogram > 0 then 1 else 0) +
  (if includes a.trend "uptrend" = true then 1 else 0)

/-- Number of bear votes among the five: price not above ema50, price not above
ema200, momentum (below 50 and not oversold), histogram not positive, trend
label containing downtrend. -/
def bearVotes (a : BiasInput) : ℕ :=
  (if a.price > a.ema50 then 0 else 1) + (if a.price > a.ema200 then 0 else 1) +
  (if a.rsi.value < 50 ∧ a.rsi.signal ≠ "oversold" then 1 else 0) +
  (if a.macd.histogram > 0 then 0 else 1) +
  (if includes a.trend "downtrend" = true then 1 else 0)

/-- The verdict of `classifyBias` with the two threshold tests in the opposite
order: the Bearish test first. -/
def classifyBiasSwapped (a : BiasInput) : String :=
  let s := biasScores a
  if s.2 ≥ 4 then "Bearish"
  else if s.1 ≥ 4 then "Bullish"
  else "Neutral / Wait"

/-! ## Pivot levels, as the specification words them -/

/-- The levels that index `i` of a window contributes according to the
specification: a resistance at the rounded high when the high is strictly
above its two neighbours on each side, then a support at the rounded low when
the low is strictly below its two neighbours on each side. -/
def specLevelsAt (highs lows : List ℚ) (i : ℕ) : List Level :=
  (if highs.getD (i - 2) 0 < highs.getD i 0 ∧ highs.getD (i - 1) 0 < highs.getD i 0 ∧
      highs.getD (i + 1) 0 < highs.getD i 0 ∧ highs.getD (i + 2) 0 < highs.getD i 0
    then [{ type := "resistance", price := round (highs.getD i 0) 2 }] else []) ++
  (if lows.getD i 0 < lows.getD (i - 2) 0 ∧ lows.getD i 0 < lows.getD (i - 1) 0 ∧
      lows.getD i 0 < lows.getD (i + 1) 0 ∧ lows.getD i 0 < lows.getD (i + 2) 0
    then [{ type := "support", price := round (lows.getD i 0) 2 }] else [])

/-- The pivots of a 50-candle window, scanned in increasing index order over
the indices 2 to 47. -/
def specLevels (highs lows : List ℚ) : List Level :=
  (List.range' 2 46).flatMap (specLevelsAt highs lows)

/-- The prices of the detected support pivots strictly below the price `cp`. -/
def supportPricesBelow (levels : List Level) (cp : ℚ) : List ℚ :=
  (levels.filter (fun l => l.type = "support" ∧ l.price < cp)).map (fun l => l.price)

/-- The prices of the detected resistance pivots strictly above the price `cp`. -/
def resistancePricesAbove (levels : List Level) (cp : ℚ) : List ℚ :=
  (levels.filter (fun l => l.type = "resistance" ∧ cp < l.price)).map (fun l => l.price)

/-- A series is strictly increasing: every value is above the one before it. -/
def strictlyIncreasing : List ℚ → Bool
  | a :: b :: rest => decide (a < b) && strictlyIncreasing (b :: rest)
  | _ => true

/-! ## Rounding, as the specification words it -/

/-- Round-half-away-from-zero at the `d`-th decimal, the rounding rule named by
the specification: the magnitude is rounded half-up and the sign restored. -/
def roundHalfAwayFromZero (n : ℚ) (d : ℕ) : ℚ :=
  if 0 ≤ n then (⌊n * (10 : ℚ) ^ d + 1 / 2⌋ : ℚ) / (10 : ℚ) ^ d
  else -((⌊-n * (10 : ℚ) ^ d + 1 / 2⌋ : ℚ) / (10 : ℚ) ^ d)

/-- A number rounded to two decimals: the binary64 number nearest to an integer
multiple of 0.01, which JS writes with at most two fractional digits. -/
def IsTwoDecimal (q : ℚ) : Prop := ∃ k : ℤ, q = cent k

/-! ## Concrete inputs -/

/-- A stand-in for the indicator library on which the engine can be run: the
moving average is the plain mean of the last `period` values, the momentum
series is the constant 55 and the MACD series has two fixed rows. -/
def sampleLib : IndicatorLib :=
  { EMA := fun period xs => [(sliceLast period xs).foldl (fun a b => a + b) 0 / period],
    RSI := fun _ _ => [55],
    MACD := fun _ _ _ _ => [⟨0, some 0, 0⟩, ⟨1, some (1 / 2), 1 / 2⟩] }

/-- A series of 200 candles whose close cycles through `100 + off, ..., 106 + off`,
with high and low one unit above and below the close and a constant volume. -/
def waveCandles (off : ℚ) : List Candle :=
  (List.range 200).map (fun (i : ℕ) =>
    { time := (i : ℤ), open_ := 100 + (i % 7 : ℕ) + off, high := 101 + (i % 7 : ℕ) + off,
      low := 99 + (i % 7 : ℕ) + off, close := 100 + (i % 7 : ℕ) + off, volume := 10 })

/-- The Long scenario of the specification: price 100, no detected support or
resistance, `ema50 = 98`, `ema200 = 95`. -/
def scenarioReport : TAReport :=
  { timeframe := "1H",
    currentPrice := 100,
    indicators :=
      { ema := { ema9 := 99, ema21 := 99, ema50 := 98, ema200 := 95 },
        rsi := { value := 60, signal := "neutral" },
        macd := { macd := 1, signal := .num (1 / 2), histogram := 1 / 2, crossover := "bullish" },
        volume := { current := 10, avg20 := 10, ratio := .num 1, signal := "average" } },
    struct :=
      { trend := "uptrend (HH + HL)",
        supportResistance := { nearestSupport := none, nearestResistance := none, allLevels := [] } },
    bias := "Bullish",
    summary := [] }

/-- The report of the engine on `waveCandles 0` with `sampleLib`. -/
def sampleReport : TAReport :=
  { timeframe := "1H",
    currentPrice := 103,
    indicators :=
      { ema := { ema9 := cent 10289, ema21 := 103, ema50 := 103, ema200 := cent 10297 },
        rsi := { value := 55, signal := "neutral" },
        macd := { macd := 1, signal := .num (1 / 2), histogram := 1 / 2,
                  crossover := "bullish_crossover" },
        volume := { current := 10, avg20 := 10, ratio := .num 1, signal := "average" } },
    struct :=
      { trend := "ranging / consolidation",
        supportResistance :=
          { nearestSupport := some 99, nearestResistance := some 107,
            allLevels :=
              [⟨"resistance", 107⟩, ⟨"support", 99⟩, ⟨"resistance", 107⟩, ⟨"support", 99⟩,
               ⟨"resistance", 107⟩, ⟨"support", 99⟩, ⟨"resistance", 107⟩, ⟨"support", 99⟩,
               ⟨"resistance", 107⟩, ⟨"support", 99⟩] } },
    bias := "Neutral / Wait",
    summary :=
      ["Trend: ranging / consolidation",
       "EMA: Price above 200 EMA (102.97), below 50 EMA (103)",
       "RSI: 55 (neutral)",
       "MACD: bullish crossover | Histogram +0.5",
       "Volume: average (1x avg)",
       "Nearest Support: 99",
       "Nearest Resistance: 107",
       "Bias: Neutral / Wait"] }

/-! ## The indicator library, as the specification describes it -/

/-- Modelled from the spec: the recursive part of the exponential moving
average, `ema = (value - prev) * k + prev`, run over the values that follow the
seed.  What is missing is the `technicalindicators` package. -/
def emaFrom (k prev : ℚ) : List ℚ → List ℚ
  | [] => []
  | v :: vs => ((v - prev) * k + prev) :: emaFrom k ((v - prev) * k + prev) vs

/-- Modelled from the spec: the standard exponential moving average of period
`period`, seeded with the simple mean of the first `period` values and smoothed
with `k = 2 / (period + 1)`; one output per value from the `period`-th on.  What
is missing is `EMA.calculate` of the `technicalindicators` package. -/
def tiEMA (period : ℕ) (values : List ℚ) : List ℚ :=
  if period = 0 ∨ values.length < period then []
  else
    let seed := (values.take period).sum / period
    seed :: emaFrom (2 / ((period : ℚ) + 1)) seed (values.drop period)

/-- The changes `values[i+1] - values[i]` of a series. -/
def changes : List ℚ → List ℚ
  | a :: b :: rest => (b - a) :: changes (b :: rest)
  | _ => []

/-- Modelled from the spec: the recursive part of Wilder's smoothing,
`avg = (prev * (period - 1) + x) / period`. -/
def wilderFrom (period : ℕ) (prev : ℚ) : List ℚ → List ℚ
  | [] => []
  | x :: xs =>
    ((prev * ((period : ℚ) - 1) + x) / period) ::
      wilderFrom period ((prev * ((period : ℚ) - 1) + x) / period) xs

/-- Modelled from the spec: Wilder's smoothed average, seeded with the simple
mean of the first `period` entries. -/
def wilder (period : ℕ) (xs : List ℚ) : List ℚ :=
  if period = 0 ∨ xs.length < period then []
  else
    let seed := (xs.take period).sum / period
    seed :: wilderFrom period seed (xs.drop period)

/-- Modelled from the spec: the oscillator value `100 - 100 / (1 + RS)` with
`RS = avgGain / avgLoss`; with no loss in the window the value is 100 (Wilder's
convention, the value the formula tends to as `RS` grows). -/
def rsiValue (avgGain avgLoss : ℚ) : ℚ :=
  if avgLoss = 0 then 100 else 100 - 100 / (1 + avgGain / avgLoss)

/-- Modelled from the spec: the Wilder-style momentum oscillator over the gains
and losses of the series.  What is missing is `RSI.calculate` of the
`technicalindicators` package. -/
def tiRSI (period : ℕ) (values : List ℚ) : List ℚ :=
  List.zipWith rsiValue
    (wilder period ((changes values).map (fun d => max d 0)))
    (wilder period ((changes values).map (fun d => max (-d) 0)))

/-- Modelled from the spec: the standard convergence/divergence oscillator: the
main line is the fast minus the slow exponential average, the signal line the
exponential average of the main line, the histogram their difference.  Only
the rows whose signal line is available are listed (the first `signal - 1`
rows of the package have none yet; `calcMACD` reads the last two rows), and a
row whose signal line is 0 carries no `signal`, as the package writes
`signal ? signal : undefined`.  What is missing is `MACD.calculate` of the
`technicalindicators` package. -/
def tiMACD (fast slow signal : ℕ) (values : List ℚ) : List MACDRow :=
  let macdLine := List.zipWith (fun f s => f - s)
    ((tiEMA fast values).drop (slow - fast)) (tiEMA slow values)
  let signalLine := tiEMA signal macdLine
  List.zipWith
    (fun m s => { MACD := m, signal := if s = 0 then none else some s, histogram := m - s })
    (macdLine.drop (signal - 1)) signalLine

/-- Modelled from the spec: the indicator library of section 9 (standard
exponential moving average, Wilder-style momentum oscillator, standard
convergence/divergence oscillator). -/
def tiLib : IndicatorLib :=
  { EMA := tiEMA, RSI := tiRSI, MACD := tiMACD }

/-- A 220-candle ramp: the close rises by one unit per candle from 100, high and
low stay one unit above and below the close, the volume is constant. -/
def rampCandles : List Candle :=
  (List.range 220).map (fun (i : ℕ) =>
    { time := (i : ℤ), open_ := 100 + (i : ℚ), high := 101 + (i : ℚ), low := 99 + (i : ℚ),
      close := 100 + (i : ℚ), volume := 10 })

/-- A 220-candle flat series at price `c` with volume 10. -/
def flatCandles (c : ℚ) : List Candle :=
  (List.range 220).map (fun (i : ℕ) =>
    { time := (i : ℤ), open_ := c, high := c, low := c, close := c, volume := 10 })

/-- A 200-candle series closing at 99.996 except for the last candle, which
closes at `last`; the highs are 100.03 and the lows 99.98, ten candles from the
end both step down by 0.01; the volume is constant. -/
def driftCandles (last : ℚ) : List Candle :=
  (List.range 200).map (fun (i : ℕ) =>
    { time := (i : ℤ), open_ := 99996 / 1000,
      high := if i < 190 then 10003 / 100 else 10002 / 100,
      low := if i < 190 then 9998 / 100 else 9997 / 100,
      close := if i < 199 then 99996 / 1000 else last,
      volume := 10 })

/-- A 200-candle series of an asset trading below half a cent: the low cycles
through 0.0030, 0.0032, ..., 0.0042, the close is 0.0005 and the high 0.0010
above the low; the last close is 0.0041. -/
def subCentCandles : List Candle :=
  (List.range 200).map (fun (i : ℕ) =>
    { time := (i : ℤ), open_ := (35 + 2 * ((i % 7 : ℕ) : ℚ)) / 10000,
      high := (40 + 2 * ((i % 7 : ℕ) : ℚ)) / 10000,
      low := (30 + 2 * ((i % 7 : ℕ) : ℚ)) / 10000,
      close := (35 + 2 * ((i % 7 : ℕ) : ℚ)) / 10000, volume := 10 })

/-- A 220-candle series rising by one millionth per candle from 100.0049, high
and low 0.01 above and below the close. -/
def slowRampCandles : List Candle :=
  (List.range 220).map (fun (i : ℕ) =>
    { time := (i : ℤ), open_ := 1000049 / 10000 + (i : ℚ) / 1000000,
      high := 1000149 / 10000 + (i : ℚ) / 1000000,
      low := 999949 / 10000 + (i : ℚ) / 1000000,
      close := 1000049 / 10000 + (i : ℚ) / 1000000, volume := 10 })

/-- A 220-candle series rising ever faster: the close is `100 + i² / 100`, high
and low one unit above and below the close. -/
def accelCandles : List Candle :=
  (List.range 220).map (fun (i : ℕ) =>
    { time := (i : ℤ), open_ := 100 + (i : ℚ) * i / 100, high := 101 + (i : ℚ) * i / 100,
      low := 99 + (i : ℚ) * i / 100, close := 100 + (i : ℚ) * i / 100, volume := 10 })

/-- Fifty highs repeating the pattern 0, 1, 2: every third index from 2 to 47 is
strictly above its two neighbours on each side. -/
def zigzagHighs : List ℚ :=
  (List.range 50).map (fun i => ((i % 3 : ℕ) : ℚ))

/-- Fifty lows repeating the pattern 0, -1, -2: every third index from 2 to 47 is
strictly below its two neighbours on each side. -/
def zigzagLows : List ℚ :=
  (List.range 50).map (fun i => -((i % 3 : ℕ) : ℚ))

/-! ## The daily run of signalGenerator.js -/

/-- An awaited call of signalGenerator.js over a world of type `W` (market, clock,
database): it ends with a value or with a thrown failure, and in both cases
leaves a world behind. -/
abbrev Job (W : Type) (α : Type) : Type := ExceptT Failure (StateM W) α

/-- The constant `WATCHLIST`: pairs of `symbol` and `timeframe`. -/
def WATCHLIST : List (String × String) :=
  [("BTCUSDT", "1H"), ("ETHUSDT", "1H"), ("SOLUSDT", "4H"), ("BNBUSDT", "4H")]

/-- One iteration of the `for ... of` loop of `generateDailySignals`: the `try`
block awaits the generation, and for a non-null signal awaits `saveSignal` and
then pushes the signal; the `catch` block only logs. The result is the array
`signals` after the iteration. -/
def dailyIteration {W : Type} (generate : String → String → Job W (Option Signal))
    (saveSignal : Signal → Job W Unit) (signals : List Signal) (entry : String × String) :
    Job W (List Signal) :=
  tryCatch
    (do
      let signal ← generate entry.1 entry.2
      match signal with
      | some s => do
        saveSignal s
        pure (signals ++ [s])
      | none => pure signals)
    (fun _err => pure signals)

/-- The loop of `generateDailySignals` over a list of watchlist entries, from
the empty array `signals`. -/
def generateSignalsOver {W : Type} (generate : String → String → Job W (Option Signal))
    (saveSignal : Signal → Job W Unit) (entries : List (String × String)) : Job W (List Signal) :=
  entries.foldlM (dailyIteration generate saveSignal) []

/-- `generateDailySignals()`, with `generateSignalForAsset` and `saveSignal` as
the awaited steps; the two log lines are not modelled. -/
def generateDailySignals {W : Type} (generate : String → String → Job W (Option Signal))
    (saveSignal : Signal → Job W Unit) : Job W (List Signal) :=
  generateSignalsOver generate saveSignal WATCHLIST

/-- The signal that one watchlist entry contributes from world `w`, and the world
it leaves: the generated signal when generation returned a non-null signal and
the save succeeded, nothing otherwise. -/
def entryOutcome {W : Type} (generate : String → String → Job W (Option Signal))
    (saveSignal : Signal → Job W Unit) (entry : String × String) (w : W) : Option Signal × W :=
  match (generate entry.1 entry.2).run.run w with
  | (.ok (some s), w1) =>
    match (saveSignal s).run.run w1 with
    | (.ok _, w2) => (some s, w2)
    | (.error _, w2) => (none, w2)
  | (.ok none, w1) => (none, w1)
  | (.error _, w1) => (none, w1)

/-- The signals that the specification keeps for a run over `entries` from
world `w`, with the world the run leaves: first entry first, every entry being
processed in the world its predecessor left, whatever that predecessor's
outcome. -/
def keptSignals {W : Type} (generate : String → String → Job W (Option Signal))
    (saveSignal : Signal → Job W Unit) : List (String × String) → W → List Signal × W
  | [], w => ([], w)
  | entry :: rest, w =>
    let o := entryOutcome generate saveSignal entry w
    let r := keptSignals generate saveSignal rest o.2
    (o.1.toList ++ r.1, r.2)

/-- An awaited step whose outcome `x` does not depend on the world and leaves it
unchanged. -/
def settled {W α : Type} (x : Except Failure α) : Job W α :=
  ExceptT.mk (pure x)

/-- The signal kept for one watchlist entry when the outcomes of generation and
of saving are given by `gen` and `sv`: the generated signal when it is non-null
and its save succeeds. -/
def keptOf (gen : String → String → Except Failure (Option Signal))
    (sv : Signal → Except Failure Unit) (entry : String × String) : Option Signal :=
  match gen entry.1 entry.2 with
  | .ok (some s) =>
    match sv s with
    | .ok _ => some s
    | .error _ => none
  | .ok none => none
  | .error _ => none

/-! ## The signal table of db/signals.js -/

/-- The columns of a row of the table `signals` that `updateSignalStatus` reads
or writes. -/
structure SignalRow where
  id : ℕ
  status : String
  resultPct : Option ℚ
  closedAt : Option String
  deriving DecidableEq

/-- The array `allowedStatuses` of `updateSignalStatus`. -/
def allowedStatuses : List String :=
  ["Open", "TP1 Hit", "TP2 Hit", "SL Hit", "Closed", "Invalidated"]

/-- The array `closedStatuses` of `updateSignalStatus`. -/
def closedStatuses : List String :=
  ["TP2 Hit", "SL Hit", "Closed", "Invalidated"]

/-- `updateSignalStatus(id, status, resultPct)` on the table `signals`, at the
instant `now`: an `Error` with its message when the status is not an allowed
one, otherwise the table after the `UPDATE ... WHERE id = $4` together with
`rows[0]` of the updated rows. -/
def updateSignalStatus (now : String) (signals : List SignalRow) (id : ℕ) (status : String)
    (resultPct : Option ℚ) : Except String (Option SignalRow × List SignalRow) :=
  if ¬ allowedStatuses.contains status then
    .error ("Invalid status: " ++ status)
  else
    let closedAt := if closedStatuses.contains status then some now else none
    let updated := signals.map (fun row =>
      if row.id = id then { row with status := status, resultPct := resultPct, closedAt := closedAt }
      else row)
    .ok ((updated.filter (fun row => row.id = id)).head?, updated)

/-- The position of a status in the lifecycle order of the specification: Open,
TP1 Hit, TP2 Hit, SL Hit, Closed, Invalidated. -/
def statusRank (status : String) : ℕ :=
  allowedStatuses.indexOf status

/-- The status of the row `id` after a sequence of `updateSignalStatus` calls
(status and result each), a rejected call leaving the table as it was; with it
the number of calls that were accepted. -/
def statusAfter (signals : List SignalRow) (id : ℕ) (calls : List (String × Option ℚ)) :
    Option String × ℕ :=
  let r := calls.foldl
    (fun (acc : List SignalRow × ℕ) call =>
      match updateSignalStatus "2024-01-01T00:00:00.000Z" acc.1 id call.1 call.2 with
      | .ok (_, table) => (table, acc.2 + 1)
      | .error _ => acc)
    (signals, 0)
  ((r.1.find? (fun row => row.id = id)).map (fun row => row.status), r.2)

/-! ## A series for the position of the stop-loss -/

/-- The close of candle `i` of `pullbackCandles`: 30 for 130 candles, 300 for
the next 30, then a recovery from 60 that alternately gains 3 and loses 1. -/
def pullbackClose (i : ℕ) : ℚ :=
  if i < 130 then 30
  else if i < 160 then 300
  else 60 + ((i - 160 : ℕ) : ℚ) + (if (i - 160) % 2 = 0 then 0 else 2)

/-- A 200-candle series that recovers from a deep fall: the last close, 101, is
above the 200-period average and below the 50-period average; high and low
are one unit above and below the close. -/
def pullbackCandles : List Candle :=
  (List.range 200).map (fun (i : ℕ) =>
    { time := (i : ℤ), open_ := pullbackClose i, high := pullbackClose i + 1,
      low := pullbackClose i - 1, close := pullbackClose i, volume := 10 })

/-- The facts about a report and the signal built from it at the report's own
price that place the stop-loss against the entry. -/
structure StopFacts where
  bias : String
  price : ℚ
  ema50 : ℚ
  ema200 : ℚ
  nearestSupport : Option ℚ
  /-- The direction of the signal; `none` when no signal is built. -/
  direction : Option String
  /-- The stop-loss of the signal; `none` when no signal is built. -/
  stopLoss : Option ℚ
  /-- The `mid` of the entry zone at the report's price. -/
  entryMid : ℚ
  deriving DecidableEq

/-- The facts of `StopFacts` read from the report `r` and from the signal that
`buildSignal` returns for it when the ticker price is the report's price. -/
def stopFacts (r : TAReport) : StopFacts :=
  let sig :=
    (buildSignal "BTCUSDT" r.timeframe ⟨"BTCUSDT", r.currentPrice, 0, 0⟩ r "" "").toOption.join
  { bias := r.bias, price := r.currentPrice, ema50 := r.indicators.ema.ema50,
    ema200 := r.indicators.ema.ema200,
    nearestSupport := r.struct.supportResistance.nearestSupport,
    direction := sig.map (fun s => s.direction), stopLoss := sig.map (fun s => s.stopLoss),
    entryMid := (calcEntryZone r.currentPrice r).mid }

/-! ## Theorems -/

/-! ### Binary64 rounding -/

theorem pow2_eq (k : ℤ) : pow2 k = (2 : ℚ) ^ k := by
  unfold pow2
  split_ifs with h
  · obtain ⟨n, rfl⟩ := Int.eq_ofNat_of_zero_le h
    simp
  · obtain ⟨n, rfl⟩ : ∃ n : ℕ, k = -(n : ℤ) := ⟨(-k).toNat, by omega⟩
    simp

theorem pow2_pos (k : ℤ) : 0 < pow2 k := by
  rw [pow2_eq]
  exact zpow_pos (by norm_num) k

theorem pow2_le_iff (a b : ℤ) : pow2 a ≤ pow2 b ↔ a ≤ b := by
  rw [pow2_eq, pow2_eq]
  exact zpow_le_zpow_iff_right₀ (by norm_num)

theorem pow2_lt_iff (a b : ℤ) : pow2 a < pow2 b ↔ a < b := by
  rw [pow2_eq, pow2_eq]
  exact zpow_lt_zpow_iff_right₀ (by norm_num)

theorem pow2_add (a b : ℤ) : pow2 (a + b) = pow2 a * pow2 b := by
  rw [pow2_eq, pow2_eq, pow2_eq]
  exact zpow_add₀ (by norm_num) a b

theorem pow2_natCast (n : ℕ) : pow2 (n : ℤ) = (2 : ℚ) ^ n := by
  rw [pow2_eq, zpow_natCast]

theorem floorLog2Aux_eq (bound n : ℕ) (h : n ≤ bound) : floorLog2Aux bound n = Nat.log2 n := by
  induction bound generalizing n with
  | zero =>
    obtain rfl : n = 0 := by omega
    rw [floorLog2Aux, Nat.log2]
    simp
  | succ b ih =>
    rw [floorLog2Aux, Nat.log2]
    by_cases h2 : n < 2
    · rw [if_pos h2, if_neg (by omega)]
    · rw [if_neg h2, if_pos (by omega), ih (n / 2) (by omega)]

theorem floorLog2_eq (n : ℕ) : floorLog2 n = Nat.log2 n :=
  floorLog2Aux_eq n n le_rfl

theorem binade_spec (x : ℚ) (hx : 0 < x) : pow2 (binade x) ≤ x ∧ x < pow2 (binade x + 1) := by
  have hnum : 0 < x.num := Rat.num_pos.2 hx
  have hn0 : x.num.natAbs ≠ 0 := by omega
  have hd0 : x.den ≠ 0 := x.den_nz
  have hn1 : ((2 : ℚ) ^ Nat.log2 x.num.natAbs) ≤ (x.num.natAbs : ℚ) := by
    exact_mod_cast Nat.log2_self_le hn0
  have hn2 : (x.num.natAbs : ℚ) < (2 : ℚ) ^ (Nat.log2 x.num.natAbs + 1) := by
    exact_mod_cast (Nat.lt_log2_self : x.num.natAbs < _)
  have hd1 : ((2 : ℚ) ^ Nat.log2 x.den) ≤ (x.den : ℚ) := by
    exact_mod_cast Nat.log2_self_le hd0
  have hd2 : (x.den : ℚ) < (2 : ℚ) ^ (Nat.log2 x.den + 1) := by
    exact_mod_cast (Nat.lt_log2_self : x.den < _)
  have hxe : x = (x.num.natAbs : ℚ) / (x.den : ℚ) := by
    have h1 : ((x.num.natAbs : ℤ) : ℚ) = (x.num : ℚ) := by
      rw [Int.natAbs_of_nonneg (le_of_lt hnum)]
    have h2 : ((x.num.natAbs : ℕ) : ℚ) = ((x.num.natAbs : ℤ) : ℚ) := (Int.cast_natCast _).symm
    rw [h2, h1]
    exact (Rat.num_div_den x).symm
  have hdpos : (0 : ℚ) < x.den := by exact_mod_cast Nat.pos_of_ne_zero hd0
  set a := Nat.log2 x.num.natAbs with ha
  set b := Nat.log2 x.den with hb
  have hpa : (0 : ℚ) < 2 ^ a := by positivity
  have hpb : (0 : ℚ) < 2 ^ b := by positivity
  -- the two outer bounds
  have hlo : pow2 ((a : ℤ) - (b : ℤ) - 1) ≤ x := by
    have e : pow2 ((a : ℤ) - (b : ℤ) - 1) = (2 : ℚ) ^ a / (2 : ℚ) ^ (b + 1) := by
      rw [pow2_eq, show (a : ℤ) - (b : ℤ) - 1 = (a : ℤ) - ((b + 1 : ℕ) : ℤ) by push_cast; ring,
        zpow_sub₀ (by norm_num), zpow_natCast, zpow_natCast]
    rw [e, hxe, div_le_div_iff₀ (by positivity) hdpos]
    calc (2 : ℚ) ^ a * (x.den : ℚ) ≤ (x.num.natAbs : ℚ) * (x.den : ℚ) :=
          mul_le_mul_of_nonneg_right hn1 (le_of_lt hdpos)
      _ ≤ (x.num.natAbs : ℚ) * (2 : ℚ) ^ (b + 1) :=
          mul_le_mul_of_nonneg_left (le_of_lt hd2) (by positivity)
  have hhi : x < pow2 ((a : ℤ) - (b : ℤ) + 1) := by
    have e : pow2 ((a : ℤ) - (b : ℤ) + 1) = (2 : ℚ) ^ (a + 1) / (2 : ℚ) ^ b := by
      rw [pow2_eq, show (a : ℤ) - (b : ℤ) + 1 = ((a + 1 : ℕ) : ℤ) - (b : ℤ) by push_cast; ring,
        zpow_sub₀ (by norm_num), zpow_natCast, zpow_natCast]
    rw [e, hxe, div_lt_div_iff₀ hdpos hpb]
    calc (x.num.natAbs : ℚ) * (2 : ℚ) ^ b < (2 : ℚ) ^ (a + 1) * (2 : ℚ) ^ b :=
          mul_lt_mul_of_pos_right hn2 hpb
      _ ≤ (2 : ℚ) ^ (a + 1) * (x.den : ℚ) :=
          mul_le_mul_of_nonneg_left hd1 (by positivity)
  unfold binade
  simp only [floorLog2_eq, ← ha, ← hb]
  split_ifs with h
  · exact ⟨h, hhi⟩
  · push_neg at h
    refine ⟨hlo, ?_⟩
    rw [show (a : ℤ) - (b : ℤ) - 1 + 1 = (a : ℤ) - (b : ℤ) by ring]
    exact h

theorem binade_mono (x y : ℚ) (hx : 0 < x) (hxy : x ≤ y) : binade x ≤ binade y := by
  obtain ⟨s1, -⟩ := binade_spec x hx
  obtain ⟨-, t2⟩ := binade_spec y (lt_of_lt_of_le hx hxy)
  have : binade x < binade y + 1 := (pow2_lt_iff _ _).1 (lt_of_le_of_lt (le_trans s1 hxy) t2)
  omega

theorem roundHalfEven_cases (t : ℚ) :
    roundHalfEven t = ⌊t⌋ ∨ roundHalfEven t = ⌊t⌋ + 1 := by
  unfold roundHalfEven
  simp only
  split_ifs <;> simp

theorem abs_roundHalfEven_sub_le (t : ℚ) : |(roundHalfEven t : ℚ) - t| ≤ 1 / 2 := by
  have h1 := Int.floor_le t
  have h2 := Int.lt_floor_add_one t
  unfold roundHalfEven
  simp only
  rw [abs_le]
  split_ifs with a b c
  · constructor <;> linarith
  · push_cast
    constructor <;> linarith
  · constructor <;> linarith
  · push_cast
    constructor <;> linarith

theorem roundHalfEven_intCast (n : ℤ) : roundHalfEven (n : ℚ) = n := by
  unfold roundHalfEven
  simp

theorem roundHalfEven_mono {s t : ℚ} (h : s ≤ t) : roundHalfEven s ≤ roundHalfEven t := by
  have hf : ⌊s⌋ ≤ ⌊t⌋ := Int.floor_mono h
  rcases lt_or_eq_of_le hf with hlt | heq
  · rcases roundHalfEven_cases s with e1 | e1 <;> rcases roundHalfEven_cases t with e2 | e2 <;>
      omega
  · unfold roundHalfEven
    simp only [heq]
    have hs : s - (⌊t⌋ : ℚ) ≤ t - (⌊t⌋ : ℚ) := by linarith
    split_ifs <;> first | omega | (exfalso; linarith)

theorem roundHalfEven_le_of_le_int {t : ℚ} {n : ℤ} (h : t ≤ n) : roundHalfEven t ≤ n := by
  have := roundHalfEven_mono h
  rwa [roundHalfEven_intCast] at this

theorem le_roundHalfEven_of_int_le {t : ℚ} {n : ℤ} (h : (n : ℚ) ≤ t) : n ≤ roundHalfEven t := by
  have := roundHalfEven_mono h
  rwa [roundHalfEven_intCast] at this

theorem roundHalfEven_neg (t : ℚ) : roundHalfEven (-t) = -roundHalfEven t := by
  by_cases hint : (⌊t⌋ : ℚ) = t
  · rw [← hint, ← Int.cast_neg, roundHalfEven_intCast, roundHalfEven_intCast]
  · have h1 := Int.floor_le t
    have h2 := Int.lt_floor_add_one t
    have h1' : (⌊t⌋ : ℚ) < t := lt_of_le_of_ne h1 hint
    have hfl : ⌊-t⌋ = -⌊t⌋ - 1 := by
      rw [Int.floor_eq_iff]
      push_cast
      constructor <;> linarith
    unfold roundHalfEven
    simp only [hfl]
    push_cast
    split_ifs <;> first | omega | (exfalso; linarith)

theorem ulp_pos (x : ℚ) : 0 < ulp x := pow2_pos _

theorem ulp_neg (x : ℚ) : ulp (-x) = ulp x := by
  unfold ulp
  rw [abs_neg]

theorem fl_zero : fl 0 = 0 := by
  simp [fl]

theorem fl_neg (x : ℚ) : fl (-x) = -fl x := by
  unfold fl
  by_cases h : x = 0
  · simp [h]
  · have h' : -x ≠ 0 := neg_ne_zero.2 h
    rw [if_neg h, if_neg h', ulp_neg, neg_div, roundHalfEven_neg]
    push_cast
    ring

theorem fl_nonneg {x : ℚ} (h : 0 ≤ x) : 0 ≤ fl x := by
  unfold fl
  split_ifs
  · exact le_refl _
  · have h0 : ((0 : ℤ) : ℚ) ≤ x / ulp x := by
      rw [Int.cast_zero]
      exact div_nonneg h (le_of_lt (ulp_pos x))
    have := le_roundHalfEven_of_int_le h0
    exact mul_nonneg (by exact_mod_cast this) (le_of_lt (ulp_pos x))

theorem fl_nonpos {x : ℚ} (h : x ≤ 0) : fl x ≤ 0 := by
  have := fl_nonneg (neg_nonneg.2 h)
  rw [fl_neg] at this
  linarith

/-- Above: a positive `x` is rounded to at most the next power of two. -/
theorem fl_le_pow2 {x : ℚ} (hx : 0 < x) : fl x ≤ pow2 (max (binade x) (-1022) + 1) := by
  obtain ⟨-, h2⟩ := binade_spec x hx
  have hne : x ≠ 0 := ne_of_gt hx
  unfold fl ulp
  rw [if_neg hne, abs_of_pos hx]
  set E := max (binade x) (-1022) with hE
  have hb : binade x + 1 ≤ E + 1 := by
    have := le_max_left (binade x) (-1022)
    omega
  have hx2 : x < pow2 (E + 1) := lt_of_lt_of_le h2 ((pow2_le_iff _ _).2 hb)
  have hu : 0 < pow2 (E - 52) := pow2_pos _
  have e1 : pow2 (E + 1) = ((2 ^ 53 : ℤ) : ℚ) * pow2 (E - 52) := by
    rw [show E + 1 = (53 : ℕ) + (E - 52) by push_cast; ring, pow2_add, pow2_natCast]
    norm_num
  have h3 : x / pow2 (E - 52) ≤ ((2 ^ 53 : ℤ) : ℚ) := by
    rw [div_le_iff₀ hu, ← e1]
    exact le_of_lt hx2
  have h4 := roundHalfEven_le_of_le_int h3
  rw [e1]
  exact mul_le_mul_of_nonneg_right (by exact_mod_cast h4) (le_of_lt hu)

/-- Below: a positive `x` in the normal range is rounded to at least the power of
two of its binade. -/
theorem pow2_le_fl {x : ℚ} (hx : 0 < x) (hn : -1022 ≤ binade x) : pow2 (binade x) ≤ fl x := by
  obtain ⟨h1, -⟩ := binade_spec x hx
  have hne : x ≠ 0 := ne_of_gt hx
  unfold fl ulp
  rw [if_neg hne, abs_of_pos hx, max_eq_left hn]
  have hu : 0 < pow2 (binade x - 52) := pow2_pos _
  have e1 : pow2 (binade x) = ((2 ^ 52 : ℤ) : ℚ) * pow2 (binade x - 52) := by
    rw [show binade x = (52 : ℕ) + (binade x - 52) by push_cast; ring, pow2_add, pow2_natCast]
    norm_num
  have h3 : ((2 ^ 52 : ℤ) : ℚ) ≤ x / pow2 (binade x - 52) := by
    rw [le_div_iff₀ hu, ← e1]
    exact h1
  have h4 := le_roundHalfEven_of_int_le h3
  rw [e1]
  apply mul_le_mul_of_nonneg_right _ (le_of_lt hu)
  · exact_mod_cast h4

theorem fl_mono_pos {x y : ℚ} (hx : 0 < x) (hxy : x ≤ y) : fl x ≤ fl y := by
  have hy : 0 < y := lt_of_lt_of_le hx hxy
  have hb := binade_mono x y hx hxy
  rcases lt_or_eq_of_le (max_le_max hb (le_refl (-1022 : ℤ))) with hlt | heq
  · -- different exponents
    have hny : -1022 < binade y := by
      by_contra hc
      push_neg at hc
      rw [max_eq_right hc] at hlt
      have := le_max_right (binade x) (-1022)
      omega
    have hEy : max (binade y) (-1022) = binade y := max_eq_left (le_of_lt hny)
    rw [hEy] at hlt
    calc fl x ≤ pow2 (max (binade x) (-1022) + 1) := fl_le_pow2 hx
      _ ≤ pow2 (binade y) := (pow2_le_iff _ _).2 (by omega)
      _ ≤ fl y := pow2_le_fl hy (le_of_lt hny)
  · have hu : ulp x = ulp y := by
      unfold ulp
      rw [abs_of_pos hx, abs_of_pos hy, heq]
    unfold fl
    rw [if_neg (ne_of_gt hx), if_neg (ne_of_gt hy), hu]
    apply mul_le_mul_of_nonneg_right _ (le_of_lt (ulp_pos y))
    have : x / ulp y ≤ y / ulp y := div_le_div_of_nonneg_right hxy (le_of_lt (ulp_pos y))
    exact_mod_cast roundHalfEven_mono this

/-- Rounding to the nearest binary64 number is monotone. -/
theorem fl_mono {x y : ℚ} (hxy : x ≤ y) : fl x ≤ fl y := by
  rcases lt_trichotomy 0 x with hx | hx | hx
  · exact fl_mono_pos hx hxy
  · rw [← hx, fl_zero]
    exact fl_nonneg (by linarith)
  · rcases le_or_lt 0 y with hy | hy
    · exact le_trans (fl_nonpos (le_of_lt hx)) (fl_nonneg hy)
    · have := fl_mono_pos (neg_pos.2 hy) (neg_le_neg hxy)
      rw [fl_neg, fl_neg] at this
      linarith

theorem abs_fl_sub_le (x : ℚ) : |fl x - x| ≤ ulp x / 2 := by
  unfold fl
  split_ifs with h
  · rw [h]
    simp only [sub_self, abs_zero]
    exact le_of_lt (half_pos (ulp_pos 0))
  · have hu := ulp_pos x
    have h1 := abs_roundHalfEven_sub_le (x / ulp x)
    have e : (roundHalfEven (x / ulp x) : ℚ) * ulp x - x
        = ((roundHalfEven (x / ulp x) : ℚ) - x / ulp x) * ulp x := by
      field_simp
    rw [e, abs_mul, abs_of_pos hu]
    calc |(roundHalfEven (x / ulp x) : ℚ) - x / ulp x| * ulp x ≤ 1 / 2 * ulp x :=
          mul_le_mul_of_nonneg_right h1 (le_of_lt hu)
      _ = ulp x / 2 := by ring

/-- In the normal range the spacing is at most `|x| * 2 ^ (-52)`. -/
theorem ulp_le_of_normal {x : ℚ} (hx : x ≠ 0) (hn : -1022 ≤ binade |x|) :
    ulp x ≤ |x| * pow2 (-52) := by
  obtain ⟨h1, -⟩ := binade_spec |x| (abs_pos.2 hx)
  unfold ulp
  rw [max_eq_left hn, show binade |x| - 52 = binade |x| + (-52) by ring, pow2_add]
  exact mul_le_mul_of_nonneg_right h1 (le_of_lt (pow2_pos _))

/-- The relative error of one rounding, with the absolute error of the
subnormal range. -/
theorem abs_fl_sub_le_rel (x : ℚ) : |fl x - x| ≤ |x| * pow2 (-53) + pow2 (-1075) := by
  have h := abs_fl_sub_le x
  by_cases hx : x = 0
  · rw [hx, fl_zero]
    simp only [sub_self, abs_zero, zero_mul, zero_add]
    exact le_of_lt (pow2_pos _)
  · by_cases hn : -1022 ≤ binade |x|
    · have h2 := ulp_le_of_normal hx hn
      have e : |x| * pow2 (-53) = |x| * pow2 (-52) / 2 := by
        rw [show (-53 : ℤ) = -52 + -1 by norm_num, pow2_add]
        have : pow2 (-1) = 1 / 2 := by
          rw [pow2_eq]
          norm_num
        rw [this]
        ring
      have := pow2_pos (-1075)
      linarith
    · push_neg at hn
      have hu : ulp x = pow2 (-1074) := by
        unfold ulp
        rw [max_eq_right (le_of_lt hn)]
        norm_num
      have e : pow2 (-1074) / 2 = pow2 (-1075) := by
        rw [show (-1075 : ℤ) = -1074 + -1 by norm_num, pow2_add]
        have : pow2 (-1) = 1 / 2 := by
          rw [pow2_eq]
          norm_num
        rw [this]
        ring
      rw [hu, e] at h
      have := mul_nonneg (abs_nonneg x) (le_of_lt (pow2_pos (-53)))
      linarith

/-- A number `m * 2 ^ k` with `|m| < 2 ^ 53` and `k ≥ -1074` is a binary64 number:
rounding leaves it unchanged. -/
theorem fl_exact_lt (m k : ℤ) (hk : -1074 ≤ k) (hm : |m| < 2 ^ 53) :
    fl ((m : ℚ) * pow2 k) = (m : ℚ) * pow2 k := by
  by_cases hm0 : m = 0
  · rw [hm0]
    simp [fl_zero]
  have hpk := pow2_pos k
  have hx0 : (m : ℚ) * pow2 k ≠ 0 := mul_ne_zero (by exact_mod_cast hm0) (ne_of_gt hpk)
  have habs : |(m : ℚ) * pow2 k| = ((|m| : ℤ) : ℚ) * pow2 k := by
    rw [abs_mul, abs_of_pos hpk, Int.cast_abs]
  have hlt : |(m : ℚ) * pow2 k| < pow2 (k + 53) := by
    rw [habs, show k + 53 = (53 : ℕ) + k by push_cast; ring, pow2_add, pow2_natCast]
    apply mul_lt_mul_of_pos_right _ hpk
    exact_mod_cast hm
  obtain ⟨s1, -⟩ := binade_spec _ (abs_pos.2 hx0)
  have hb : binade |(m : ℚ) * pow2 k| < k + 53 := (pow2_lt_iff _ _).1 (lt_of_le_of_lt s1 hlt)
  set E := max (binade |(m : ℚ) * pow2 k|) (-1022) with hE
  have hEk : E - 52 ≤ k := by
    have : E ≤ k + 52 := max_le (by omega) (by omega)
    omega
  obtain ⟨j, hj⟩ : ∃ j : ℕ, k = (E - 52) + (j : ℤ) := ⟨(k - (E - 52)).toNat, by omega⟩
  have hu : ulp ((m : ℚ) * pow2 k) = pow2 (E - 52) := rfl
  have hq : (m : ℚ) * pow2 k / pow2 (E - 52) = ((m * 2 ^ j : ℤ) : ℚ) := by
    have hp := pow2_pos (E - 52)
    rw [hj, pow2_add, pow2_natCast]
    push_cast
    field_simp
    ring
  unfold fl
  rw [if_neg hx0, hu, hq, roundHalfEven_intCast, ← hq]
  have hp := pow2_pos (E - 52)
  field_simp

theorem fl_exact (m k : ℤ) (hk : -1074 ≤ k) (hm : |m| ≤ 2 ^ 53) :
    fl ((m : ℚ) * pow2 k) = (m : ℚ) * pow2 k := by
  rcases lt_or_eq_of_le hm with h | h
  · exact fl_exact_lt m k hk h
  · -- `m = ± 2 ^ 53`: the same number is `± 2 ^ 52 * 2 ^ (k + 1)`
    have e : (m : ℚ) * pow2 k = ((m / 2 : ℤ) : ℚ) * pow2 (k + 1) := by
      have h2 : m = 2 * (m / 2) := by
        rcases abs_cases m with ⟨ha, -⟩ | ⟨ha, -⟩ <;> omega
      rw [show k + 1 = (1 : ℕ) + k by push_cast; ring, pow2_add, pow2_natCast]
      conv_lhs => rw [h2]
      push_cast
      ring
    rw [e]
    apply fl_exact_lt
    · omega
    · rcases abs_cases m with ⟨ha, -⟩ | ⟨ha, -⟩ <;> rcases abs_cases (m / 2) with ⟨hb, -⟩ | ⟨hb, -⟩ <;>
        omega

/-- An integer of magnitude at most `2 ^ 53` is a binary64 number. -/
theorem fl_intCast (m : ℤ) (hm : |m| ≤ 2 ^ 53) : fl (m : ℚ) = m := by
  have := fl_exact m 0 (by norm_num) hm
  have e : pow2 0 = 1 := by
    rw [pow2_eq]
    norm_num
  rwa [e, mul_one] at this

theorem abs_roundHalfEven_le (x : ℚ) (hx : x ≠ 0) : |roundHalfEven (x / ulp x)| ≤ 2 ^ 53 := by
  obtain ⟨-, h2⟩ := binade_spec |x| (abs_pos.2 hx)
  have hu := ulp_pos x
  set E := max (binade |x|) (-1022) with hE
  have hul : ulp x = pow2 (E - 52) := rfl
  have hb : binade |x| + 1 ≤ E + 1 := by
    have := le_max_left (binade |x|) (-1022)
    omega
  have hx2 : |x| < pow2 (E + 1) := lt_of_lt_of_le h2 ((pow2_le_iff _ _).2 hb)
  have e1 : pow2 (E + 1) = ((2 ^ 53 : ℤ) : ℚ) * ulp x := by
    rw [hul, show E + 1 = (53 : ℕ) + (E - 52) by push_cast; ring, pow2_add, pow2_natCast]
    norm_num
  have hq : |x / ulp x| ≤ ((2 ^ 53 : ℤ) : ℚ) := by
    rw [abs_div, abs_of_pos hu, div_le_iff₀ hu, ← e1]
    exact le_of_lt hx2
  rw [abs_le] at hq ⊢
  constructor
  · have : (((-(2 ^ 53) : ℤ)) : ℚ) ≤ x / ulp x := by
      push_cast
      push_cast at hq
      exact hq.1
    exact le_roundHalfEven_of_int_le this
  · exact roundHalfEven_le_of_le_int hq.2

/-- Rounding is idempotent: `fl x` is a binary64 number. -/
theorem fl_idem (x : ℚ) : fl (fl x) = fl x := by
  by_cases hx : x = 0
  · rw [hx, fl_zero, fl_zero]
  · have e : fl x = (roundHalfEven (x / ulp x) : ℚ) * pow2 (max (binade |x|) (-1022) - 52) := by
      unfold fl
      rw [if_neg hx]
      rfl
    rw [e]
    apply fl_exact
    · have := le_max_right (binade |x|) (-1022)
      omega
    · exact abs_roundHalfEven_le x hx


theorem fl_abs (x : ℚ) : fl |x| = |fl x| := by
  rcases le_total 0 x with h | h
  · rw [abs_of_nonneg h, abs_of_nonneg (fl_nonneg h)]
  · rw [abs_of_nonpos h, abs_of_nonpos (fl_nonpos h), fl_neg]

/-- Every binary64 number is an integer multiple of `2 ^ (-1074)`. -/
theorem fl_eq_int_mul (x : ℚ) : ∃ n : ℤ, fl x = (n : ℚ) * pow2 (-1074) := by
  by_cases hx : x = 0
  · exact ⟨0, by rw [hx, fl_zero]; simp⟩
  · set E := max (binade |x|) (-1022) with hE
    have hE' : -1022 ≤ E := le_max_right _ _
    obtain ⟨j, hj⟩ : ∃ j : ℕ, E - 52 = (j : ℤ) + (-1074) := ⟨(E - 52 + 1074).toNat, by omega⟩
    refine ⟨roundHalfEven (x / ulp x) * 2 ^ j, ?_⟩
    have hu : ulp x = pow2 (E - 52) := rfl
    unfold fl
    rw [if_neg hx, hu, hj, pow2_add, pow2_natCast]
    push_cast
    ring

theorem fl_pow2_min : fl (pow2 (-1074)) = pow2 (-1074) := by
  have := fl_exact 1 (-1074) (by norm_num) (by norm_num)
  simpa using this

/-- The difference of two distinct binary64 numbers does not round to zero. -/
theorem fl_sub_ne_zero {a b : ℚ} (h : fl a ≠ fl b) : fl (fl a - fl b) ≠ 0 := by
  obtain ⟨n, hn⟩ := fl_eq_int_mul a
  obtain ⟨m, hm⟩ := fl_eq_int_mul b
  have hp := pow2_pos (-1074)
  have hnm : n ≠ m := by
    rintro rfl
    exact h (hn.trans hm.symm)
  have e : fl a - fl b = ((n - m : ℤ) : ℚ) * pow2 (-1074) := by
    rw [hn, hm]
    push_cast
    ring
  rcases lt_or_gt_of_ne hnm with hlt | hgt
  · have h1 : fl a - fl b ≤ -pow2 (-1074) := by
      rw [e]
      have : ((n - m : ℤ) : ℚ) ≤ -1 := by exact_mod_cast (by omega : n - m ≤ -1)
      nlinarith
    have h2 := fl_mono h1
    rw [fl_neg, fl_pow2_min] at h2
    linarith
  · have h1 : pow2 (-1074) ≤ fl a - fl b := by
      rw [e]
      have : (1 : ℚ) ≤ ((n - m : ℤ) : ℚ) := by exact_mod_cast (by omega : 1 ≤ n - m)
      nlinarith
    have h2 := fl_mono h1
    rw [fl_pow2_min] at h2
    linarith

theorem fsub_eq_zero_iff (a b : ℚ) : fsub a b = 0 ↔ fl a = fl b := by
  unfold fsub
  constructor
  · intro h
    by_contra hne
    exact fl_sub_ne_zero hne h
  · intro h
    rw [h, sub_self, fl_zero]

theorem pow2_fifty_two : pow2 52 = 4503599627370496 := by
  rw [pow2_eq]
  norm_num

theorem fl_of_ne_zero {y : ℚ} (hy : y ≠ 0) :
    fl y = (roundHalfEven (y / ulp y) : ℚ) * ulp y := by
  unfold fl
  rw [if_neg hy]

theorem isInt_of_large (y : ℚ) (hfl : fl y = y) (h : pow2 52 ≤ |y|) : ∃ n : ℤ, y = n := by
  have hy : y ≠ 0 := by
    intro h0
    rw [h0, abs_zero] at h
    exact absurd h (not_le.2 (pow2_pos 52))
  obtain ⟨-, h2⟩ := binade_spec |y| (abs_pos.2 hy)
  have hb : (52 : ℤ) < binade |y| + 1 := (pow2_lt_iff _ _).1 (lt_of_le_of_lt h h2)
  have hE' : binade |y| ≤ max (binade |y|) (-1022) := le_max_left _ _
  obtain ⟨j, hj⟩ : ∃ j : ℕ, max (binade |y|) (-1022) - 52 = (j : ℤ) :=
    ⟨(max (binade |y|) (-1022) - 52).toNat, by omega⟩
  have hu : ulp y = (2 : ℚ) ^ j := by
    unfold ulp
    rw [hj, pow2_natCast]
  refine ⟨roundHalfEven (y / ulp y) * 2 ^ j, ?_⟩
  have e := fl_of_ne_zero hy
  rw [hfl] at e
  push_cast
  rw [← hu]
  exact e

/-- A binary64 number of magnitude `2 ^ 52` or more is an integer. -/
theorem fl_isInt_of_large (x : ℚ) (h : pow2 52 ≤ |fl x|) : ∃ n : ℤ, fl x = n :=
  isInt_of_large (fl x) (fl_idem x) h

theorem mathRound_intCast (n : ℤ) : mathRound (n : ℚ) = n := by
  unfold mathRound
  rw [Int.floor_eq_iff]
  constructor <;> norm_num

theorem mathRound_mono {x y : ℚ} (h : x ≤ y) : mathRound x ≤ mathRound y := by
  unfold mathRound
  exact Int.floor_mono (by linarith)

/-- The value of `Math.round` on a binary64 number is a binary64 number. -/
theorem fl_mathRound_fl (x : ℚ) : fl ((mathRound (fl x) : ℤ) : ℚ) = (mathRound (fl x) : ℚ) := by
  by_cases h : pow2 52 ≤ |fl x|
  · obtain ⟨n, hn⟩ := fl_isInt_of_large x h
    rw [hn, mathRound_intCast, ← hn, fl_idem]
  · push_neg at h
    rw [pow2_fifty_two, abs_lt] at h
    apply fl_intCast
    unfold mathRound
    rw [abs_le]
    constructor
    · rw [Int.le_floor]
      push_cast
      linarith [h.1]
    · have h1 := Int.floor_le (fl x + 1 / 2)
      have h2 : ((⌊fl x + 1 / 2⌋ : ℤ) : ℚ) ≤ ((2 ^ 53 : ℤ) : ℚ) := by
        push_cast
        linarith [h.2]
      exact_mod_cast h2

theorem fl_ten : fl 10 = 10 := by
  have := fl_intCast 10 (by norm_num)
  simpa using this

theorem fl_hundred : fl 100 = 100 := by
  have := fl_intCast 100 (by norm_num)
  simpa using this

theorem fmul_eq_fl (a b : ℚ) : fmul a b = fl (fl a * fl b) := rfl

/-- The helper `round` at two decimals: the binary64 number nearest to `m / 100`,
with `m` the value of `Math.round` on the binary64 product `n * 100`. -/
theorem round_two_eq (n : ℚ) : round n 2 = cent (mathRound (fmul n 100)) := by
  have e : ((10 : ℚ) ^ 2) = 100 := by norm_num
  unfold round fdiv cent
  rw [e, fmul_eq_fl, fl_mathRound_fl, fl_hundred]

theorem cent_mono {m k : ℤ} (h : m ≤ k) : cent m ≤ cent k := by
  unfold cent
  apply fl_mono
  have : (m : ℚ) ≤ k := by exact_mod_cast h
  linarith

theorem fmul_hundred_mono {x y : ℚ} (h : fl x ≤ fl y) : fmul x 100 ≤ fmul y 100 := by
  unfold fmul
  apply fl_mono
  rw [fl_hundred]
  linarith

/-- The helper `round` is monotone in the binary64 number it reads. -/
theorem round_mono_fl {x y : ℚ} (h : fl x ≤ fl y) : round x 2 ≤ round y 2 := by
  rw [round_two_eq, round_two_eq]
  exact cent_mono (mathRound_mono (fmul_hundred_mono h))

theorem round_mono {x y : ℚ} (h : x ≤ y) : round x 2 ≤ round y 2 :=
  round_mono_fl (fl_mono h)

theorem round_isTwoDecimal (n : ℚ) : IsTwoDecimal (round n 2) :=
  ⟨_, round_two_eq n⟩

/-! ### The analysis engine -/

theorem bind_ne_insufficient {α β : Type} (x : Except Failure α) (f : α → Except Failure β)
    (hx : x ≠ .error .insufficientData) (hf : ∀ a, f a ≠ .error .insufficientData) :
    (x >>= f) ≠ .error .insufficientData := by
  cases x with
  | error e => simpa [bind, Except.bind] using hx
  | ok a => simpa [bind, Except.bind] using hf a

theorem calcEMA_ne_insufficient (lib : IndicatorLib) (closes : List ℚ) (period : ℕ) :
    calcEMA lib closes period ≠ .error .insufficientData := by
  simp only [calcEMA]
  split <;> simp

theorem calcRSI_ne_insufficient (lib : IndicatorLib) (closes : List ℚ) (period : ℕ) :
    calcRSI lib closes period ≠ .error .insufficientData := by
  simp only [calcRSI]
  split <;> simp

theorem macdCrossover_ne_insufficient (h : ℚ) (prev : Option MACDRow) :
    macdCrossover h prev ≠ .error .insufficientData := by
  unfold macdCrossover
  cases prev <;> simp <;> split_ifs <;> simp

theorem calcMACD_ne_insufficient (lib : IndicatorLib) (closes : List ℚ) :
    calcMACD lib closes ≠ .error .insufficientData := by
  simp only [calcMACD]
  split
  · simp
  · rename_i last _
    have := macdCrossover_ne_insufficient last.histogram (lib.MACD 12 26 9 closes).dropLast.getLast?
    split
    · rename_i e he
      rw [he] at this
      simpa using this
    · simp

theorem analyzeVolume_ne_insufficient (vols : List ℚ) :
    analyzeVolume vols ≠ .error .insufficientData := by
  simp only [analyzeVolume]
  split <;> simp

theorem getLast?_of_ne_nil {α : Type} (l : List α) (h : l ≠ []) : ∃ v, l.getLast? = some v := by
  cases hl : l.getLast? with
  | none => exact absurd (List.getLast?_eq_none_iff.1 hl) h
  | some v => exact ⟨v, rfl⟩

theorem calcMACD_ok_of_two_rows (lib : IndicatorLib) (closes : List ℚ)
    (h : 2 ≤ (lib.MACD 12 26 9 closes).length) : ∃ m, calcMACD lib closes = .ok m := by
  have hne : lib.MACD 12 26 9 closes ≠ [] := by
    intro h0
    rw [h0] at h
    simp at h
  have hne2 : (lib.MACD 12 26 9 closes).dropLast ≠ [] := by
    intro h0
    have := congrArg List.length h0
    simp only [List.length_dropLast, List.length_nil] at this
    omega
  obtain ⟨last, hlast⟩ := getLast?_of_ne_nil _ hne
  obtain ⟨prev, hprev⟩ := getLast?_of_ne_nil _ hne2
  simp only [calcMACD, hlast, hprev, macdCrossover]
  split_ifs <;> exact ⟨_, rfl⟩

/-- With at least 200 candles `analyze` returns a report as soon as the library
returns its series. -/
theorem analyze_ok_of_series (lib : IndicatorLib) (cs : List Candle) (timeframe : String)
    (hlen : 200 ≤ cs.length)
    (hema9 : lib.EMA 9 (cs.map (fun c => c.close)) ≠ [])
    (hema21 : lib.EMA 21 (cs.map (fun c => c.close)) ≠ [])
    (hema50 : lib.EMA 50 (cs.map (fun c => c.close)) ≠ [])
    (hema200 : lib.EMA 200 (cs.map (fun c => c.close)) ≠ [])
    (hrsi : lib.RSI 14 (cs.map (fun c => c.close)) ≠ [])
    (hmacd : 2 ≤ (lib.MACD 12 26 9 (cs.map (fun c => c.close))).length) :
    ∃ rep, analyze lib (some cs) timeframe = .ok rep := by
  have hlen' : ¬ cs.length < 200 := by omega
  have hcne : cs.map (fun c => c.close) ≠ [] := by
    intro h0
    have := congrArg List.length h0
    simp only [List.length_map, List.length_nil] at this
    omega
  have hvne : cs.map (fun c => c.volume) ≠ [] := by
    intro h0
    have := congrArg List.length h0
    simp only [List.length_map, List.length_nil] at this
    omega
  obtain ⟨e9, h9⟩ := getLast?_of_ne_nil _ hema9
  obtain ⟨e21, h21⟩ := getLast?_of_ne_nil _ hema21
  obtain ⟨e50, h50⟩ := getLast?_of_ne_nil _ hema50
  obtain ⟨e200, h200⟩ := getLast?_of_ne_nil _ hema200
  obtain ⟨r, hr⟩ := getLast?_of_ne_nil _ hrsi
  obtain ⟨m, hm⟩ := calcMACD_ok_of_two_rows lib _ hmacd
  obtain ⟨cp, hcp⟩ := getLast?_of_ne_nil _ hcne
  obtain ⟨cv, hcv⟩ := getLast?_of_ne_nil _ hvne
  simp only [analyze, hlen', if_false, calcEMA, calcRSI, analyzeVolume, h9, h21, h50, h200,
    hr, hm, hcp, hcv, bind, Except.bind, pure, Except.pure]
  exact ⟨_, rfl⟩

/-- C1: `analyze` throws the insufficient-data error exactly when the candle
sequence is absent or has fewer than 200 elements, whatever the indicator
library does (the guard precedes every computation); with 200 candles or more
the guard does not fire, and `analyze` returns a report as soon as the library
returns its series (an EMA value for the periods 9, 21, 50 and 200, an RSI
value, two MACD rows). -/
theorem analyze_insufficientData_iff (lib : IndicatorLib) (candles : Option (List Candle))
    (timeframe : String) :
    (analyze lib candles timeframe = .error .insufficientData ↔
      (candles = none ∨ ∃ cs, candles = some cs ∧ cs.length < 200)) ∧
    (∀ cs, candles = some cs → 200 ≤ cs.length →
      (∀ period ∈ [9, 21, 50, 200], lib.EMA period (cs.map (fun c => c.close)) ≠ []) →
      lib.RSI 14 (cs.map (fun c => c.close)) ≠ [] →
      2 ≤ (lib.MACD 12 26 9 (cs.map (fun c => c.close))).length →
      ∃ rep, analyze lib candles timeframe = .ok rep) := by
  constructor
  · cases candles with
    | none => simp [analyze]
    | some cs =>
      by_cases hlen : cs.length < 200
      · simp [analyze, hlen]
      · simp only [analyze, hlen, if_false, reduceCtorEq, false_or, Option.some.injEq,
          exists_eq_left', iff_false]
        refine bind_ne_insufficient _ _ (calcEMA_ne_insufficient _ _ _) (fun _ => ?_)
        refine bind_ne_insufficient _ _ (calcEMA_ne_insufficient _ _ _) (fun _ => ?_)
        refine bind_ne_insufficient _ _ (calcEMA_ne_insufficient _ _ _) (fun _ => ?_)
        refine bind_ne_insufficient _ _ (calcEMA_ne_insufficient _ _ _) (fun _ => ?_)
        refine bind_ne_insufficient _ _ (calcRSI_ne_insufficient _ _ _) (fun _ => ?_)
        refine bind_ne_insufficient _ _ (calcMACD_ne_insufficient _ _) (fun _ => ?_)
        refine bind_ne_insufficient _ _ (analyzeVolume_ne_insufficient _) (fun _ => ?_)
        cases (List.map (fun c => c.close) cs).getLast? <;> simp [pure, Except.pure]
  · intro cs hcs hlen hema hrsi hmacd
    subst hcs
    exact analyze_ok_of_series lib cs timeframe hlen (hema 9 (by simp)) (hema 21 (by simp))
      (hema 50 (by simp)) (hema 200 (by simp)) hrsi hmacd

/-- Witness for C1: the 200 sample candles pass the guard and are analysed. -/
theorem analyze_insufficientData_iff_witness :
    200 ≤ (waveCandles 0).length ∧
    ∃ rep, analyze sampleLib (some (waveCandles 0)) "1H" = .ok rep :=
  ⟨by simp [waveCandles],
    (analyze_insufficientData_iff sampleLib (some (waveCandles 0)) "1H").2 (waveCandles 0) rfl
      (by simp [waveCandles]) (by simp [sampleLib]) (by simp [sampleLib])
      (by simp [sampleLib])⟩

theorem calcTargets_eq_pair (direction : String) (ta : TAReport) :
    ∃ t1 t2, calcTargets direction ta = [t1, t2] := by
  unfold calcTargets
  split_ifs <;> exact ⟨_, _, rfl⟩

theorem calcRiskReward_isSome (entry sl target : ℚ) :
    ∃ r, calcRiskReward entry sl target = some r := by
  unfold calcRiskReward divide
  by_cases h : |fsub entry sl| = 0
  · exact ⟨"0", by simp [h]⟩
  · have e : fl (fsub entry sl) = fsub entry sl := fl_idem _
    have hfl : fl |fsub entry sl| ≠ 0 := by
      rw [fl_abs, e]
      exact h
    refine ⟨"1:" ++ numToString (round (fdiv |fsub target entry| |fsub entry sl|) 1), ?_⟩
    simp [h, hfl]

theorem buildSignal_eq (symbol timeframe : String) (ticker : Ticker) (ta : TAReport)
    (now disclaimer : String) (h : ta.bias ≠ "Neutral / Wait") :
    ∃ rr, buildSignal symbol timeframe ticker ta now disclaimer = .ok (some
        { asset := symbol, direction := if ta.bias = "Bullish" then "Long" else "Short",
          entryLow := (calcEntryZone ticker.price ta).low,
          entryHigh := (calcEntryZone ticker.price ta).high,
          stopLoss := calcStopLoss (if ta.bias = "Bullish" then "Long" else "Short") ta,
          targets := calcTargets (if ta.bias = "Bullish" then "Long" else "Short") ta,
          timeframe := timeframe, rrRatio := rr, status := "Open", timestamp := now,
          reasoning := " | ".intercalate ta.summary, disclaimer := disclaimer }) := by
  obtain ⟨t1, t2, ht⟩ := calcTargets_eq_pair (if ta.bias = "Bullish" then "Long" else "Short") ta
  obtain ⟨rr, hrr⟩ := calcRiskReward_isSome (calcEntryZone ticker.price ta).mid
    (calcStopLoss (if ta.bias = "Bullish" then "Long" else "Short") ta) t1
  refine ⟨rr, ?_⟩
  simp only [buildSignal, h, if_false, ht, List.getElem?_cons_zero, Option.some_bind, hrr]

/-- C2: the signal construction that follows the analysis step returns `null`
if and only if the bias of the report is `Neutral / Wait`; otherwise it returns
a signal with status `Open` whose direction is `Long` for a `Bullish` report
and `Short` for a `Bearish` one. -/
theorem buildSignal_null_iff_neutral (symbol timeframe : String) (ticker : Ticker)
    (ta : TAReport) (now disclaimer : String) :
    (buildSignal symbol timeframe ticker ta now disclaimer = .ok none ↔
        ta.bias = "Neutral / Wait") ∧
    (ta.bias ≠ "Neutral / Wait" →
      ∃ sig, buildSignal symbol timeframe ticker ta now disclaimer = .ok (some sig) ∧
        sig.status = "Open" ∧
        (ta.bias = "Bullish" → sig.direction = "Long") ∧
        (ta.bias = "Bearish" → sig.direction = "Short")) := by
  constructor
  · constructor
    · intro h
      by_contra hb
      obtain ⟨rr, hrr⟩ := buildSignal_eq symbol timeframe ticker ta now disclaimer hb
      rw [hrr] at h
      simp at h
    · intro hb
      simp [buildSignal, hb]
  · intro hb
    obtain ⟨rr, hrr⟩ := buildSignal_eq symbol timeframe ticker ta now disclaimer hb
    refine ⟨_, hrr, rfl, ?_, ?_⟩
    · intro h; simp [h]
    · intro h; simp [h]

theorem momentum_step (v : ℚ) (sig : String) (s : ℕ × ℕ) :
    (if v > 50 ∧ sig ≠ "overbought" then (s.1 + 1, s.2)
      else if v < 50 ∧ sig ≠ "oversold" then (s.1, s.2 + 1) else s) =
    (s.1 + (if v > 50 ∧ sig ≠ "overbought" then 1 else 0),
     s.2 + (if v < 50 ∧ sig ≠ "oversold" then 1 else 0)) := by
  by_cases h1 : v > 50 ∧ sig ≠ "overbought"
  · have h2 : ¬ (v < 50 ∧ sig ≠ "oversold") := fun h => by linarith [h1.1, h.1]
    rw [if_pos h1, if_pos h1, if_neg h2, add_zero]
  · by_cases h2 : v < 50 ∧ sig ≠ "oversold"
    · rw [if_neg h1, if_neg h1, if_pos h2, if_pos h2, add_zero]
    · rw [if_neg h1, if_neg h1, if_neg h2, if_neg h2, add_zero, add_zero]

theorem biasScores_eq (a : BiasInput) : biasScores a = (bullVotes a, bearVotes a) := by
  simp only [biasScores, bullVotes, bearVotes, momentum_step]
  by_cases h1 : a.price > a.ema50 <;> by_cases h2 : a.price > a.ema200 <;>
    by_cases h4 : a.macd.histogram > 0 <;> by_cases h5 : includes a.trend "uptrend" = true <;>
    by_cases h6 : includes a.trend "downtrend" = true <;>
    simp only [h1, h2, h4, h5, h6, if_true, if_false, zero_add, add_zero, Prod.mk.injEq,
      Bool.false_eq_true]

theorem votes_not_both (a : BiasInput) : ¬ (bullVotes a ≥ 4 ∧ bearVotes a ≥ 4) := by
  unfold bullVotes bearVotes
  split_ifs <;> omega

/-- C3: `classifyBias` returns exactly one of the three labels; it is `Bullish`
iff there are at least 4 bull votes, `Bearish` iff there are at least 4 bear
votes, and `Neutral / Wait` otherwise. -/
theorem classifyBias_spec (a : BiasInput) :
    (classifyBias a = "Bullish" ∨ classifyBias a = "Bearish" ∨
        classifyBias a = "Neutral / Wait") ∧
    (classifyBias a = "Bullish" ↔ bullVotes a ≥ 4) ∧
    (classifyBias a = "Bearish" ↔ bearVotes a ≥ 4) ∧
    (classifyBias a = "Neutral / Wait" ↔ ¬ bullVotes a ≥ 4 ∧ ¬ bearVotes a ≥ 4) := by
  have hnb := votes_not_both a
  simp only [classifyBias, biasScores_eq]
  by_cases h1 : bullVotes a ≥ 4
  · have h2 : ¬ bearVotes a ≥ 4 := fun h => hnb ⟨h1, h⟩
    simp [h1, h2]
  · by_cases h2 : bearVotes a ≥ 4
    · simp [h1, h2]
    · simp [h1, h2]

theorem orNull_eq_some {a : Option ℚ} {s : ℚ} (h : orNull a = some s) : a = some s ∧ s ≠ 0 := by
  unfold orNull at h
  split at h
  · split_ifs at h with h0
    simp only [Option.some.injEq] at h
    subst h
    exact ⟨rfl, h0⟩
  · simp at h

theorem head_insertionSort_mem {α : Type} (r : α → α → Prop) [DecidableRel r] (l : List α)
    (x : α) (h : (l.insertionSort r).head? = some x) : x ∈ l :=
  (List.perm_insertionSort r l).subset (List.mem_of_mem_head? h)

theorem jsLt_some_iff (x : ℚ) (b : Option ℚ) :
    jsLt (some x) b = true ↔ ∃ y, b = some y ∧ x < y := by
  cases b <;> simp [jsLt]

theorem jsGt_some_iff (x : ℚ) (b : Option ℚ) :
    jsGt (some x) b = true ↔ ∃ y, b = some y ∧ y < x := by
  cases b <;> simp [jsGt]

theorem nearestSupport_lt (highs lows closes : List ℚ) (s : ℚ)
    (h : (detectSupportResistance highs lows closes).nearestSupport = some s) :
    ∃ cp, closes.getLast? = some cp ∧ s < cp := by
  simp only [detectSupportResistance] at h
  obtain ⟨h1, -⟩ := orNull_eq_some h
  rw [Option.map_eq_some'] at h1
  obtain ⟨lv, hlv, rfl⟩ := h1
  have hmem := head_insertionSort_mem _ _ _ hlv
  rw [List.mem_filter] at hmem
  have := hmem.2
  simp only [Bool.and_eq_true] at this
  exact (jsLt_some_iff _ _).1 this.2

theorem nearestResistance_gt (highs lows closes : List ℚ) (r : ℚ)
    (h : (detectSupportResistance highs lows closes).nearestResistance = some r) :
    ∃ cp, closes.getLast? = some cp ∧ cp < r := by
  simp only [detectSupportResistance] at h
  obtain ⟨h1, -⟩ := orNull_eq_some h
  rw [Option.map_eq_some'] at h1
  obtain ⟨lv, hlv, rfl⟩ := h1
  have hmem := head_insertionSort_mem _ _ _ hlv
  rw [List.mem_filter] at hmem
  have := hmem.2
  simp only [Bool.and_eq_true] at this
  exact (jsGt_some_iff _ _).1 this.2

/-- What a successful run of `analyze` returns: the fields of the report in
terms of the calculators. -/
theorem analyze_ok_fields (lib : IndicatorLib) (candles : Option (List Candle))
    (timeframe : String) (rep : TAReport) (h : analyze lib candles timeframe = .ok rep) :
    ∃ cs, candles = some cs ∧ 200 ≤ cs.length ∧
      (cs.map (fun c => c.close)).getLast? = some rep.currentPrice ∧
      calcEMA lib (cs.map (fun c => c.close)) 9 = .ok rep.indicators.ema.ema9 ∧
      calcEMA lib (cs.map (fun c => c.close)) 21 = .ok rep.indicators.ema.ema21 ∧
      calcEMA lib (cs.map (fun c => c.close)) 50 = .ok rep.indicators.ema.ema50 ∧
      calcEMA lib (cs.map (fun c => c.close)) 200 = .ok rep.indicators.ema.ema200 ∧
      calcRSI lib (cs.map (fun c => c.close)) 14 = .ok rep.indicators.rsi ∧
      calcMACD lib (cs.map (fun c => c.close)) = .ok rep.indicators.macd ∧
      analyzeVolume (cs.map (fun c => c.volume)) = .ok rep.indicators.volume ∧
      rep.struct.supportResistance =
        detectSupportResistance (cs.map (fun c => c.high)) (cs.map (fun c => c.low))
          (cs.map (fun c => c.close)) ∧
      rep.struct.trend =
        detectTrendStructure (cs.map (fun c => c.high)) (cs.map (fun c => c.low)) ∧
      rep.timeframe = timeframe := by
  cases candles with
  | none => simp [analyze] at h
  | some cs =>
    refine ⟨cs, rfl, ?_⟩
    by_cases hlen : cs.length < 200
    · simp [analyze, hlen] at h
    · simp only [analyze, hlen, if_false] at h
      refine ⟨by omega, ?_⟩
      cases h9 : calcEMA lib (cs.map (fun c => c.close)) 9 with
      | error e => simp [h9, bind, Except.bind] at h
      | ok e9 =>
      cases h21 : calcEMA lib (cs.map (fun c => c.close)) 21 with
      | error e => simp [h9, h21, bind, Except.bind] at h
      | ok e21 =>
      cases h50 : calcEMA lib (cs.map (fun c => c.close)) 50 with
      | error e => simp [h9, h21, h50, bind, Except.bind] at h
      | ok e50 =>
      cases h200 : calcEMA lib (cs.map (fun c => c.close)) 200 with
      | error e => simp [h9, h21, h50, h200, bind, Except.bind] at h
      | ok e200 =>
      cases hr : calcRSI lib (cs.map (fun c => c.close)) 14 with
      | error e => simp [h9, h21, h50, h200, hr, bind, Except.bind] at h
      | ok rsi =>
      cases hm : calcMACD lib (cs.map (fun c => c.close)) with
      | error e => simp [h9, h21, h50, h200, hr, hm, bind, Except.bind] at h
      | ok macd =>
      cases hv : analyzeVolume (cs.map (fun c => c.volume)) with
      | error e => simp [h9, h21, h50, h200, hr, hm, hv, bind, Except.bind] at h
      | ok vol =>
      cases hc : (cs.map (fun c => c.close)).getLast? with
      | none => simp [h9, h21, h50, h200, hr, hm, hv, hc, bind, Except.bind] at h
      | some cp =>
        simp only [h9, h21, h50, h200, hr, hm, hv, hc, bind, Except.bind, pure, Except.pure,
          Except.ok.injEq] at h
        subst h
        simp

/-- C4: whenever a report of `analyze` carries both a nearest support and a
nearest resistance, the support is strictly below and the resistance strictly
above the current price, which is the close of the last candle. -/
theorem analyze_support_lt_price_lt_resistance (lib : IndicatorLib) (cs : List Candle)
    (timeframe : String) (rep : TAReport) (s r : ℚ)
    (h : analyze lib (some cs) timeframe = .ok rep)
    (hs : rep.struct.supportResistance.nearestSupport = some s)
    (hr : rep.struct.supportResistance.nearestResistance = some r) :
    (cs.getLast?.map (fun c => c.close) = some rep.currentPrice) ∧
      s < rep.currentPrice ∧ rep.currentPrice < r := by
  obtain ⟨cs', hcs, -, hcp, -, -, -, -, -, -, -, hsr, -, -⟩ := analyze_ok_fields _ _ _ _ h
  simp only [Option.some.injEq] at hcs
  subst hcs
  rw [hsr] at hs hr
  obtain ⟨cp1, h1, hlt⟩ := nearestSupport_lt _ _ _ _ hs
  obtain ⟨cp2, h2, hgt⟩ := nearestResistance_gt _ _ _ _ hr
  rw [hcp] at h1 h2
  simp only [Option.some.injEq] at h1 h2
  subst h1
  subst h2
  refine ⟨?_, hlt, hgt⟩
  rw [← hcp, List.getLast?_map]

/-- The engine run on the sample series, checked by evaluation. -/
theorem sampleReport_eq : analyze sampleLib (some (waveCandles 0)) "1H" = .ok sampleReport := by
  decide!

/-- Witness for C4 on the sample series: support 99, price 103, resistance 107. -/
theorem analyze_support_lt_price_lt_resistance_witness :
    analyze sampleLib (some (waveCandles 0)) "1H" = .ok sampleReport ∧
    sampleReport.struct.supportResistance.nearestSupport = some 99 ∧
    sampleReport.struct.supportResistance.nearestResistance = some 107 ∧
    ((waveCandles 0).getLast?.map (fun c => c.close) = some sampleReport.currentPrice ∧
      (99 : ℚ) < sampleReport.currentPrice ∧ sampleReport.currentPrice < 107) :=
  ⟨sampleReport_eq, rfl, rfl,
    analyze_support_lt_price_lt_resistance sampleLib (waveCandles 0) "1H" sampleReport 99 107
      sampleReport_eq rfl rfl⟩

/-- Witness for C2: the Bullish scenario report yields an open Long signal. -/
theorem buildSignal_null_iff_neutral_witness :
    ∃ sig, buildSignal "BTCUSDT" "1H" ⟨"BTCUSDT", 100, 0, 0⟩ scenarioReport "t" "d" =
        .ok (some sig) ∧ sig.status = "Open" ∧ sig.direction = "Long" := by
  obtain ⟨sig, h, hs, hl, -⟩ :=
    (buildSignal_null_iff_neutral "BTCUSDT" "1H" ⟨"BTCUSDT", 100, 0, 0⟩ scenarioReport
      "t" "d").2 (by decide)
  exact ⟨sig, h, hs, hl (by decide)⟩

theorem orNull_ne_some_zero (a : Option ℚ) : orNull a ≠ some 0 := by
  intro h
  exact (orNull_eq_some h).2 rfl

theorem orElse_eq_getD {a : Option ℚ} (h : a ≠ some 0) (d : ℚ) : orElse a d = a.getD d := by
  cases a with
  | none => rfl
  | some v =>
    have hv : v ≠ 0 := fun h0 => h (by rw [h0])
    simp [orElse, hv]

theorem analyze_levels_nonzero (lib : IndicatorLib) (candles : Option (List Candle))
    (timeframe : String) (rep : TAReport) (h : analyze lib candles timeframe = .ok rep) :
    rep.struct.supportResistance.nearestSupport ≠ some 0 ∧
    rep.struct.supportResistance.nearestResistance ≠ some 0 := by
  obtain ⟨cs, -, -, -, -, -, -, -, -, -, -, hsr, -, -⟩ := analyze_ok_fields _ _ _ _ h
  rw [hsr]
  exact ⟨orNull_ne_some_zero _, orNull_ne_some_zero _⟩

/-- C5: on a report of `analyze`, the Long stop-loss is
`round2 (max s (0.99 * ema50))` with `s` the nearest support when present and
`0.99 * ema200` when absent, and the Short stop-loss is
`round2 (min r (1.01 * ema50))` with `r` the nearest resistance when present
and `1.01 * ema200` when absent, the products and `round2` being the binary64
operations of the program; a signal built from the report carries that
stop-loss.  With `ema50 = 8.5`, `ema200 = 5` and no support the binary64
product `8.5 * 0.99` lies below 8.415 and the Long stop-loss is 8.41. -/
theorem calcStopLoss_spec (lib : IndicatorLib) (candles : Option (List Candle))
    (timeframe : String) (rep : TAReport) (h : analyze lib candles timeframe = .ok rep) :
    calcStopLoss "Long" rep =
      round (max (rep.struct.supportResistance.nearestSupport.getD
          (fmul rep.indicators.ema.ema200 (99 / 100)))
        (fmul rep.indicators.ema.ema50 (99 / 100))) 2 ∧
    calcStopLoss "Short" rep =
      round (min (rep.struct.supportResistance.nearestResistance.getD
          (fmul rep.indicators.ema.ema200 (101 / 100)))
        (fmul rep.indicators.ema.ema50 (101 / 100))) 2 ∧
    (∀ (symbol : String) (ticker : Ticker) (now disclaimer : String) (sig : Signal),
      buildSignal symbol timeframe ticker rep now disclaimer = .ok (some sig) →
        (sig.direction = "Long" → sig.stopLoss = calcStopLoss "Long" rep) ∧
        (sig.direction = "Short" → sig.stopLoss = calcStopLoss "Short" rep)) ∧
    (∀ ta : TAReport, ta.struct.supportResistance.nearestSupport = none →
      ta.indicators.ema.ema50 = 17 / 2 → ta.indicators.ema.ema200 = 5 →
      fmul (17 / 2) (99 / 100) < 8415 / 1000 ∧ calcStopLoss "Long" ta = cent 841) := by
  obtain ⟨hs, hr⟩ := analyze_levels_nonzero _ _ _ _ h
  refine ⟨?_, ?_, ?_, ?_⟩
  · simp only [calcStopLoss, if_true, orElse_eq_getD hs]
  · have hd : ¬ ("Short" = "Long") := by decide
    simp only [calcStopLoss, hd, if_false, orElse_eq_getD hr]
  · intro symbol ticker now disclaimer sig hsig
    by_cases hb : rep.bias = "Neutral / Wait"
    · simp [buildSignal, hb] at hsig
    · obtain ⟨rr, hrr⟩ := buildSignal_eq symbol timeframe ticker rep now disclaimer hb
      rw [hrr] at hsig
      simp only [Except.ok.injEq, Option.some.injEq] at hsig
      subst hsig
      by_cases hbull : rep.bias = "Bullish"
      · simp [hbull]
      · simp [hbull]
  · intro ta hs' h50 h200
    refine ⟨by decide!, ?_⟩
    simp only [calcStopLoss, if_true, hs', h50, h200, orElse]
    decide!

/-- Witness for C5 on the sample report (support 99, resistance 107). -/
theorem calcStopLoss_spec_witness :
    analyze sampleLib (some (waveCandles 0)) "1H" = .ok sampleReport ∧
    calcStopLoss "Long" sampleReport =
      round (max ((some (99 : ℚ)).getD (fmul (cent 10297) (99 / 100)))
        (fmul 103 (99 / 100))) 2 ∧
    calcStopLoss "Short" sampleReport =
      round (min ((some (107 : ℚ)).getD (fmul (cent 10297) (101 / 100)))
        (fmul 103 (101 / 100))) 2 :=
  ⟨sampleReport_eq,
    (calcStopLoss_spec sampleLib (some (waveCandles 0)) "1H" sampleReport sampleReport_eq).1,
    (calcStopLoss_spec sampleLib (some (waveCandles 0)) "1H" sampleReport sampleReport_eq).2.1⟩

/-- C6 (as the specification states it) fails: in the Long scenario the
stop-loss is not 96.02. -/
theorem scenario_stopLoss_ne : calcStopLoss "Long" scenarioReport ≠ cent 9602 := by
  decide!

/-- C6 (amended): in the Long scenario (no detected support, `ema50 = 98`,
`ema200 = 95`; the price of 100 and the absent resistance are not read) the
stop-loss is `round2 (max (95 * 0.99) (98 * 0.99)) = round2 (max 94.05 97.02)
= 97.02`, each value being the binary64 number that is written so. -/
theorem scenario_stopLoss (rep : TAReport)
    (hs : rep.struct.supportResistance.nearestSupport = none)
    (h50 : rep.indicators.ema.ema50 = 98) (h200 : rep.indicators.ema.ema200 = 95) :
    fmul 95 (99 / 100) = cent 9405 ∧ fmul 98 (99 / 100) = cent 9702 ∧
    calcStopLoss "Long" rep = cent 9702 := by
  refine ⟨by decide!, by decide!, ?_⟩
  simp only [calcStopLoss, if_true, hs, h50, h200, orElse]
  decide!

/-- Witness for C6 (amended) on the scenario report. -/
theorem scenario_stopLoss_witness :
    scenarioReport.struct.supportResistance.nearestSupport = none ∧
    scenarioReport.indicators.ema.ema50 = 98 ∧ scenarioReport.indicators.ema.ema200 = 95 ∧
    calcStopLoss "Long" scenarioReport = cent 9702 :=
  ⟨rfl, rfl, rfl, (scenario_stopLoss scenarioReport rfl rfl rfl).2.2⟩

/-- C7: on a report of `analyze`, `calcTargets` returns `[t1, t2]` where for
Long `t1` is the nearest resistance when present and `round2 (1.025 * price)`
otherwise and `t2 = round2 (1.05 * price)`, for Short `t1` is the nearest
support when present and `round2 (0.975 * price)` otherwise and
`t2 = round2 (0.95 * price)`, with `price` the current price of the report and
the products and `round2` the binary64 operations of the program; `t2` is the
same for any two reports with the same price, whatever their support and
resistance; at price 100 with no levels the Long targets are `[102.5, 105]`,
and at price 7 they are `[7.17, 7.35]`. -/
theorem calcTargets_spec (lib : IndicatorLib) (candles : Option (List Candle))
    (timeframe : String) (rep : TAReport) (h : analyze lib candles timeframe = .ok rep) :
    calcTargets "Long" rep =
      [rep.struct.supportResistance.nearestResistance.getD
          (round (fmul rep.currentPrice (1025 / 1000)) 2),
        round (fmul rep.currentPrice (105 / 100)) 2] ∧
    calcTargets "Short" rep =
      [rep.struct.supportResistance.nearestSupport.getD
          (round (fmul rep.currentPrice (975 / 1000)) 2),
        round (fmul rep.currentPrice (95 / 100)) 2] ∧
    (∀ (direction : String) (ta ta' : TAReport), ta.currentPrice = ta'.currentPrice →
      (calcTargets direction ta)[1]? = (calcTargets direction ta')[1]?) ∧
    calcTargets "Long" scenarioReport = [1025 / 10, 105] ∧
    (∀ ta : TAReport, ta.struct.supportResistance.nearestResistance = none →
      ta.currentPrice = 7 → calcTargets "Long" ta = [cent 717, cent 735]) := by
  obtain ⟨hs, hr⟩ := analyze_levels_nonzero _ _ _ _ h
  refine ⟨?_, ?_, ?_, ?_, ?_⟩
  · simp only [calcTargets, if_true, orElse_eq_getD hr]
  · have hd : ¬ ("Short" = "Long") := by decide
    simp only [calcTargets, hd, if_false, orElse_eq_getD hs]
  · intro direction ta ta' hp
    simp only [calcTargets, hp]
    split_ifs <;> rfl
  · decide!
  · intro ta hr' hp
    simp only [calcTargets, if_true, hr', hp, orElse]
    decide!

/-- Witness for C7 on the sample report (price 103, support 99, resistance 107). -/
theorem calcTargets_spec_witness :
    analyze sampleLib (some (waveCandles 0)) "1H" = .ok sampleReport ∧
    calcTargets "Long" sampleReport =
      [(some (107 : ℚ)).getD (round (fmul 103 (1025 / 1000)) 2),
        round (fmul 103 (105 / 100)) 2] ∧
    calcTargets "Short" sampleReport =
      [(some (99 : ℚ)).getD (round (fmul 103 (975 / 1000)) 2),
        round (fmul 103 (95 / 100)) 2] :=
  ⟨sampleReport_eq,
    (calcTargets_spec sampleLib (some (waveCandles 0)) "1H" sampleReport sampleReport_eq).1,
    (calcTargets_spec sampleLib (some (waveCandles 0)) "1H" sampleReport sampleReport_eq).2.1⟩

theorem ratio_string_ne_zero (s : String) : "1:" ++ s ≠ "0" := by
  intro h
  have := congrArg String.length h
  simp [String.length_append] at this
  have h2 : ("1:" : String).length = 2 := by decide
  have h1 : ("0" : String).length = 1 := by decide
  omega

theorem abs_fsub_eq_zero_iff (a b : ℚ) : |fsub a b| = 0 ↔ fl a = fl b := by
  rw [abs_eq_zero, fsub_eq_zero_iff]

theorem fl_abs_fsub (a b : ℚ) : fl |fsub a b| = |fsub a b| := by
  have e : fl (fsub a b) = fsub a b := fl_idem _
  rw [fl_abs, e]

/-- C8: `calcRiskReward` returns the string `0` if and only if the entry equals
the stop (as binary64 numbers); otherwise it returns `1:` followed by
`|target - entry| / |entry - stop|` rounded to one decimal, the differences,
the quotient and the rounding being the binary64 operations of the program; it
never divides by zero.  Entry 10,
stop 9 and target 10.35 give `1:0.3`: the binary64 difference `10.35 - 10` lies
below 0.35. -/
theorem calcRiskReward_spec (entry sl target : ℚ) :
    (calcRiskReward entry sl target = some "0" ↔ fl entry = fl sl) ∧
    (fl entry = entry → fl sl = sl →
      (calcRiskReward entry sl target = some "0" ↔ entry = sl)) ∧
    (fl entry ≠ fl sl → calcRiskReward entry sl target =
      some ("1:" ++ numToString (round (fdiv |fsub target entry| |fsub entry sl|) 1))) ∧
    (fl entry ≠ fl sl → divide |fsub target entry| |fsub entry sl| =
      some (fdiv |fsub target entry| |fsub entry sl|)) ∧
    calcRiskReward entry sl target ≠ none ∧
    calcRiskReward 10 9 (1035 / 100) = some "1:0.3" ∧
    calcRiskReward 100 (cent 9702) (1025 / 10) = some "1:0.8" := by
  have key : (calcRiskReward entry sl target = some "0" ↔ fl entry = fl sl) ∧
      (fl entry ≠ fl sl → calcRiskReward entry sl target =
        some ("1:" ++ numToString (round (fdiv |fsub target entry| |fsub entry sl|) 1))) ∧
      (fl entry ≠ fl sl → divide |fsub target entry| |fsub entry sl| =
        some (fdiv |fsub target entry| |fsub entry sl|)) ∧
      calcRiskReward entry sl target ≠ none := by
    by_cases he : fl entry = fl sl
    · have h0 : |fsub entry sl| = 0 := (abs_fsub_eq_zero_iff _ _).2 he
      simp [calcRiskReward, h0, he]
    · have hrisk : |fsub entry sl| ≠ 0 := fun h0 => he ((abs_fsub_eq_zero_iff _ _).1 h0)
      have hfl : fl |fsub entry sl| ≠ 0 := by
        rw [fl_abs_fsub]
        exact hrisk
      have hd : divide |fsub target entry| |fsub entry sl| =
          some (fdiv |fsub target entry| |fsub entry sl|) := by
        simp [divide, hfl]
      have hv : calcRiskReward entry sl target =
          some ("1:" ++ numToString (round (fdiv |fsub target entry| |fsub entry sl|) 1)) := by
        simp only [calcRiskReward, hrisk, if_false, hd, Option.map_some']
      refine ⟨?_, fun _ => hv, fun _ => hd, ?_⟩
      · rw [hv]
        simp only [Option.some.injEq, he, iff_false]
        exact ratio_string_ne_zero _
      · rw [hv]
        simp
  refine ⟨key.1, ?_, key.2.1, key.2.2.1, key.2.2.2, by decide!, by decide!⟩
  intro h1 h2
  rw [key.1, h1, h2]

theorem fmul_hundred (n : ℚ) : fmul n 100 = fl (fl n * 100) := by
  unfold fmul
  rw [fl_hundred]

theorem mathRound_bounds (x : ℚ) :
    (mathRound x : ℚ) - 1 / 2 ≤ x ∧ x < (mathRound x : ℚ) + 1 / 2 := by
  unfold mathRound
  have hle : (⌊x + 1 / 2⌋ : ℚ) ≤ x + 1 / 2 := Int.floor_le _
  have hlt : x + 1 / 2 < (⌊x + 1 / 2⌋ : ℚ) + 1 := Int.lt_floor_add_one _
  constructor <;> linarith

/-- Where `x` is farther than `δ` from every tie `k + 1/2`, a number within `δ`
of `x` has the same value of `Math.round`. -/
theorem mathRound_eq_of_near {x y δ : ℚ} (hxy : |y - x| ≤ δ)
    (hfar : ∀ k : ℤ, δ < |x - (k + 1 / 2)|) : mathRound y = mathRound x := by
  obtain ⟨h1, h2⟩ := mathRound_bounds x
  have ha := hfar (mathRound x - 1)
  have hb := hfar (mathRound x)
  rw [abs_of_nonneg (by push_cast; linarith)] at ha
  rw [abs_of_nonpos (by linarith)] at hb
  push_cast at ha
  obtain ⟨h3, h4⟩ := abs_le.1 hxy
  unfold mathRound
  rw [Int.floor_eq_iff]
  constructor
  · show ((mathRound x : ℤ) : ℚ) ≤ y + 1 / 2
    linarith
  · show y + 1 / 2 < ((mathRound x : ℤ) : ℚ) + 1
    linarith

/-- Away from ties, half-up and half-away-from-zero agree. -/
theorem mathRound_div_eq_halfAway (n : ℚ) (hnt : ∀ k : ℤ, n * 100 ≠ k + 1 / 2) :
    (mathRound (n * 100) : ℚ) / 100 = roundHalfAwayFromZero n 2 := by
  have hle : (⌊n * 100 + 1 / 2⌋ : ℚ) ≤ n * 100 + 1 / 2 := Int.floor_le _
  have hlt : n * 100 + 1 / 2 < (⌊n * 100 + 1 / 2⌋ : ℚ) + 1 := Int.lt_floor_add_one _
  by_cases h0 : 0 ≤ n
  · simp only [mathRound, roundHalfAwayFromZero, h0, if_true]
    norm_num
  · have hfl : ⌊-n * 100 + 1 / 2⌋ = -⌊n * 100 + 1 / 2⌋ := by
      rw [Int.floor_eq_iff]
      push_cast
      have hne : n * 100 + 1 / 2 ≠ (⌊n * 100 + 1 / 2⌋ : ℚ) := by
        intro heq
        apply hnt (⌊n * 100 + 1 / 2⌋ - 1)
        push_cast
        linarith
      have hlt2 : (⌊n * 100 + 1 / 2⌋ : ℚ) < n * 100 + 1 / 2 := lt_of_le_of_ne hle (Ne.symm hne)
      constructor <;> linarith
    simp only [mathRound, roundHalfAwayFromZero, h0, if_false]
    norm_num
    rw [show -(n * 100) + 1 / 2 = -n * 100 + 1 / 2 by ring, hfl]
    push_cast
    ring

/-- C9 (as the specification states it) fails.  `-0.125` is a tie between
`-0.13` and `-0.12`: half-away-from-zero gives `-0.13`, the helper `-0.12`.
And the helper need not return the nearest multiple of 0.01: the binary64
number 2.675 lies below the decimal 2.675, nearer to 2.67 than to 2.68, but its
binary64 product with 100 is 267.5 and the helper returns 2.68. -/
theorem round_not_half_away :
    (round (-1 / 8) 2 = cent (-12) ∧ roundHalfAwayFromZero (-1 / 8) 2 = -13 / 100 ∧
      cent (-12) ≠ cent (-13)) ∧
    (fl (2675 / 1000) < 2675 / 1000 ∧
      |fl (2675 / 1000) - 267 / 100| < |fl (2675 / 1000) - 268 / 100| ∧
      roundHalfAwayFromZero (fl (2675 / 1000)) 2 = 267 / 100 ∧
      fmul (fl (2675 / 1000)) 100 = 535 / 2 ∧
      round (fl (2675 / 1000)) 2 = cent 268 ∧ cent 268 ≠ cent 267) := by
  decide!

/-- C9 (amended): `round n` (2 decimals) is the binary64 number nearest to
`m / 100`, where `m` is the integer nearest to the binary64 product `n * 100`,
a tie going upward (towards `+∞`), for negative `n` too; the product differs
from the exact one by at most its rounding error, `2 ^ (-53)` relative; and
where `n * 100` is farther than that error from every tie `k + 1/2`, the result
is the binary64 number nearest to the round-half-away-from-zero of `n`.
So `0.125` gives `0.13`, `-0.125` gives `-0.12`, `2.675` gives `2.68` and
`1.005` gives `1`. -/
theorem round_half_up (n : ℚ) :
    round n 2 = cent (mathRound (fmul n 100)) ∧
    ((mathRound (fmul n 100) : ℚ) - 1 / 2 ≤ fmul n 100 ∧
      fmul n 100 < (mathRound (fmul n 100) : ℚ) + 1 / 2) ∧
    |fmul n 100 - fl n * 100| ≤ |fl n * 100| * pow2 (-53) + pow2 (-1075) ∧
    ((∀ k : ℤ, |fl n * 100| * pow2 (-53) + pow2 (-1075) < |fl n * 100 - (k + 1 / 2)|) →
      round n 2 = fl (roundHalfAwayFromZero (fl n) 2)) ∧
    round (1 / 8) 2 = cent 13 ∧ round (-1 / 8) 2 = cent (-12) ∧
    round (2675 / 1000) 2 = cent 268 ∧ round (1005 / 1000) 2 = cent 100 := by
  have herr : |fmul n 100 - fl n * 100| ≤ |fl n * 100| * pow2 (-53) + pow2 (-1075) := by
    rw [fmul_hundred]
    exact abs_fl_sub_le_rel _
  refine ⟨round_two_eq n, mathRound_bounds _, herr, ?_, by decide!, by decide!, by decide!,
    by decide!⟩
  intro hfar
  have hm := mathRound_eq_of_near herr hfar
  have hnt : ∀ k : ℤ, fl n * 100 ≠ k + 1 / 2 := by
    intro k hk
    have h1 := hfar k
    rw [hk, sub_self, abs_zero] at h1
    have h2 : (0 : ℚ) ≤ |(k : ℚ) + 1 / 2| * pow2 (-53) + pow2 (-1075) :=
      add_nonneg (mul_nonneg (abs_nonneg _) (le_of_lt (pow2_pos _))) (le_of_lt (pow2_pos _))
    linarith
  rw [round_two_eq, hm, ← mathRound_div_eq_halfAway _ hnt]
  rfl

theorem round_eq_num {r : JsNum} {d : ℕ} {q : ℚ} (h : r.round d = .num q) :
    ∃ v, r = .num v ∧ q = round v d := by
  cases r with
  | num v =>
    simp only [JsNum.round, JsNum.num.injEq] at h
    exact ⟨v, rfl, h.symm⟩
  | nan => simp [JsNum.round] at h
  | posInf => simp [JsNum.round] at h
  | negInf => simp [JsNum.round] at h

theorem calcEMA_isTwoDecimal (lib : IndicatorLib) (closes : List ℚ) (period : ℕ) (v : ℚ)
    (h : calcEMA lib closes period = .ok v) : IsTwoDecimal v := by
  simp only [calcEMA] at h
  split at h
  · simp only [Except.ok.injEq] at h
    subst h
    exact round_isTwoDecimal _
  · simp at h

theorem calcRSI_isTwoDecimal (lib : IndicatorLib) (closes : List ℚ) (period : ℕ)
    (r : RSIResult) (h : calcRSI lib closes period = .ok r) : IsTwoDecimal r.value := by
  simp only [calcRSI] at h
  split at h
  · simp only [Except.ok.injEq] at h
    subst h
    exact round_isTwoDecimal _
  · simp at h

theorem calcMACD_isTwoDecimal (lib : IndicatorLib) (closes : List ℚ) (m : MACDResult)
    (h : calcMACD lib closes = .ok m) :
    IsTwoDecimal m.macd ∧ (∀ q, m.signal = .num q → IsTwoDecimal q) ∧
      IsTwoDecimal m.histogram := by
  simp only [calcMACD] at h
  split at h
  · simp at h
  · rename_i last _
    split at h
    · simp at h
    · simp only [Except.ok.injEq] at h
      subst h
      refine ⟨round_isTwoDecimal _, ?_, round_isTwoDecimal _⟩
      intro q hq
      cases hl : last.signal with
      | none => simp [hl] at hq
      | some v =>
        simp only [hl, JsNum.num.injEq] at hq
        subst hq
        exact round_isTwoDecimal _

theorem analyzeVolume_isTwoDecimal (vols : List ℚ) (v : VolumeResult)
    (h : analyzeVolume vols = .ok v) :
    IsTwoDecimal v.current ∧ IsTwoDecimal v.avg20 ∧
      (∀ q, v.ratio = .num q → IsTwoDecimal q) := by
  simp only [analyzeVolume] at h
  split at h
  · simp at h
  · simp only [Except.ok.injEq] at h
    subst h
    refine ⟨round_isTwoDecimal _, round_isTwoDecimal _, ?_⟩
    intro q hq
    obtain ⟨r, -, rfl⟩ := round_eq_num hq
    exact round_isTwoDecimal _

theorem levelsAt_isTwoDecimal (hs ls : List ℚ) (i : ℕ) (l : Level) (h : l ∈ levelsAt hs ls i) :
    IsTwoDecimal l.price := by
  simp only [levelsAt, List.mem_append] at h
  rcases h with h | h
  · split at h
    · split_ifs at h
      · simp only [List.mem_singleton] at h
        subst h
        exact round_isTwoDecimal _
      · simp at h
    · simp at h
  · split at h
    · split_ifs at h
      · simp only [List.mem_singleton] at h
        subst h
        exact round_isTwoDecimal _
      · simp at h
    · simp at h

theorem foldl_levels_isTwoDecimal (hs ls : List ℚ) (is : List ℕ) (acc : List Level)
    (hacc : ∀ l ∈ acc, IsTwoDecimal l.price) :
    ∀ l ∈ is.foldl (fun levels i => levels ++ levelsAt hs ls i) acc, IsTwoDecimal l.price := by
  induction is generalizing acc with
  | nil => simpa using hacc
  | cons i is ih =>
    simp only [List.foldl_cons]
    apply ih
    intro l hl
    rcases List.mem_append.1 hl with h | h
    · exact hacc l h
    · exact levelsAt_isTwoDecimal hs ls i l h

theorem pivotLevels_isTwoDecimal (hs ls : List ℚ) :
    ∀ l ∈ pivotLevels hs ls, IsTwoDecimal l.price :=
  foldl_levels_isTwoDecimal hs ls _ [] (by simp)

theorem detectSupportResistance_isTwoDecimal (highs lows closes : List ℚ) :
    (∀ l ∈ (detectSupportResistance highs lows closes).allLevels, IsTwoDecimal l.price) ∧
    (∀ s, (detectSupportResistance highs lows closes).nearestSupport = some s →
      IsTwoDecimal s) ∧
    (∀ r, (detectSupportResistance highs lows closes).nearestResistance = some r →
      IsTwoDecimal r) := by
  refine ⟨?_, ?_, ?_⟩
  · intro l hl
    simp only [detectSupportResistance] at hl
    exact pivotLevels_isTwoDecimal _ _ l (List.mem_of_mem_take hl)
  · intro s h
    simp only [detectSupportResistance] at h
    obtain ⟨h1, -⟩ := orNull_eq_some h
    rw [Option.map_eq_some'] at h1
    obtain ⟨lv, hlv, rfl⟩ := h1
    have hmem := head_insertionSort_mem _ _ _ hlv
    exact pivotLevels_isTwoDecimal _ _ lv (List.mem_filter.1 hmem).1
  · intro r h
    simp only [detectSupportResistance] at h
    obtain ⟨h1, -⟩ := orNull_eq_some h
    rw [Option.map_eq_some'] at h1
    obtain ⟨lv, hlv, rfl⟩ := h1
    have hmem := head_insertionSort_mem _ _ _ hlv
    exact pivotLevels_isTwoDecimal _ _ lv (List.mem_filter.1 hmem).1

theorem calcMACD_signal_nan_iff (lib : IndicatorLib) (closes : List ℚ) (m : MACDResult)
    (h : calcMACD lib closes = .ok m) :
    m.signal = .nan ↔
      ((lib.MACD 12 26 9 closes).getLast?.bind (fun row => row.signal)) = none := by
  simp only [calcMACD] at h
  split at h
  · simp at h
  · rename_i last hlast
    split at h
    · simp at h
    · simp only [Except.ok.injEq] at h
      subst h
      rw [hlast]
      cases hl : last.signal <;> simp [hl]

theorem analyzeVolume_ratio_num_iff (vols : List ℚ) (v : VolumeResult)
    (h : analyzeVolume vols = .ok v) :
    (∃ q, v.ratio = .num q) ↔ fdiv ((sliceLast 20 vols).foldl fadd 0) 20 ≠ 0 := by
  simp only [analyzeVolume] at h
  split at h
  · simp at h
  · simp only [Except.ok.injEq] at h
    subst h
    have e : fl (fdiv ((sliceLast 20 vols).foldl fadd 0) 20) =
        fdiv ((sliceLast 20 vols).foldl fadd 0) 20 := fl_idem _
    simp only [jsDiv, e]
    by_cases h0 : fdiv ((sliceLast 20 vols).foldl fadd 0) 20 = 0
    · simp only [h0, if_true, ne_eq, not_true_eq_false, iff_false, not_exists]
      intro q
      split_ifs <;> simp [JsNum.round]
    · simp [h0, JsNum.round]

theorem not_isTwoDecimal_eighth : ¬ IsTwoDecimal (825 / 8) := by
  rintro ⟨k, hk⟩
  have h1 : cent 10312 < 825 / 8 := by decide!
  have h2 : (825 / 8 : ℚ) < cent 10313 := by decide!
  rcases le_or_lt k 10312 with h | h
  · have := cent_mono h
    linarith
  · have := cent_mono (show (10313 : ℤ) ≤ k by omega)
    linarith

/-- C10 (as the specification states it) fails: on a 200-candle series whose
last close is 103.125 the report's `currentPrice` is 103.125, which is not a
number rounded to two decimals. -/
theorem analyze_currentPrice_not_rounded :
    200 ≤ (waveCandles (1 / 8)).length ∧
    ∃ rep, analyze sampleLib (some (waveCandles (1 / 8))) "1H" = .ok rep ∧
      rep.currentPrice = 825 / 8 ∧ ¬ IsTwoDecimal rep.currentPrice := by
  refine ⟨by simp [waveCandles], ?_⟩
  have hok : (analyze sampleLib (some (waveCandles (1 / 8))) "1H").toOption.isSome = true := by
    decide!
  have hlast : ((waveCandles (1 / 8)).map (fun c => c.close)).getLast? = some (825 / 8) := by
    decide!
  cases h : analyze sampleLib (some (waveCandles (1 / 8))) "1H" with
  | error e =>
    rw [h] at hok
    simp [Except.toOption] at hok
  | ok rep =>
    obtain ⟨cs, hcs, -, hcp, -⟩ := analyze_ok_fields _ _ _ _ h
    simp only [Option.some.injEq] at hcs
    subst hcs
    rw [hlast] at hcp
    simp only [Option.some.injEq] at hcp
    refine ⟨rep, rfl, hcp.symm, ?_⟩
    rw [← hcp]
    exact not_isTwoDecimal_eighth

/-- C10 (amended): in every report of `analyze` the four EMAs, `rsi.value`,
`macd.macd`, `macd.histogram`, the volume `current` and `avg20`, every level
price, and `nearestSupport` and `nearestResistance` when present are rounded to
two decimals: each is the binary64 number nearest to an integer multiple of
0.01.  So are `macd.signal` and `volume.ratio` when they are finite numbers;
`macd.signal` is `NaN` when the last row of the library has no signal, and
`volume.ratio` is `NaN` or `±Infinity` when the mean of the last 20 volumes is
zero (twenty zero volumes give `NaN`).  `currentPrice` is the close of the last
candle as given, not rounded. -/
theorem analyze_fields_rounded (lib : IndicatorLib) (cs : List Candle)
    (timeframe : String) (rep : TAReport) (h : analyze lib (some cs) timeframe = .ok rep) :
    IsTwoDecimal rep.indicators.ema.ema9 ∧ IsTwoDecimal rep.indicators.ema.ema21 ∧
    IsTwoDecimal rep.indicators.ema.ema50 ∧ IsTwoDecimal rep.indicators.ema.ema200 ∧
    IsTwoDecimal rep.indicators.rsi.value ∧
    IsTwoDecimal rep.indicators.macd.macd ∧
    (∀ q, rep.indicators.macd.signal = .num q → IsTwoDecimal q) ∧
    (rep.indicators.macd.signal = .nan ↔
      ((lib.MACD 12 26 9 (cs.map (fun c => c.close))).getLast?.bind
        (fun row => row.signal)) = none) ∧
    IsTwoDecimal rep.indicators.macd.histogram ∧
    IsTwoDecimal rep.indicators.volume.current ∧ IsTwoDecimal rep.indicators.volume.avg20 ∧
    (∀ q, rep.indicators.volume.ratio = .num q → IsTwoDecimal q) ∧
    ((∃ q, rep.indicators.volume.ratio = .num q) ↔
      fdiv ((sliceLast 20 (cs.map (fun c => c.volume))).foldl fadd 0) 20 ≠ 0) ∧
    (∀ l ∈ rep.struct.supportResistance.allLevels, IsTwoDecimal l.price) ∧
    (∀ s, rep.struct.supportResistance.nearestSupport = some s → IsTwoDecimal s) ∧
    (∀ r, rep.struct.supportResistance.nearestResistance = some r → IsTwoDecimal r) ∧
    cs.getLast?.map (fun c => c.close) = some rep.currentPrice ∧
    analyzeVolume (List.replicate 20 0) =
      .ok { current := 0, avg20 := 0, ratio := .nan, signal := "average" } := by
  obtain ⟨cs', hcs, -, hcp, h9, h21, h50, h200, hr, hm, hv, hsr, -, -⟩ :=
    analyze_ok_fields _ _ _ _ h
  simp only [Option.some.injEq] at hcs
  subst hcs
  obtain ⟨hm1, hm2, hm3⟩ := calcMACD_isTwoDecimal _ _ _ hm
  obtain ⟨hv1, hv2, hv3⟩ := analyzeVolume_isTwoDecimal _ _ hv
  have hd := detectSupportResistance_isTwoDecimal (cs.map (fun c => c.high))
    (cs.map (fun c => c.low)) (cs.map (fun c => c.close))
  rw [← hsr] at hd
  refine ⟨calcEMA_isTwoDecimal _ _ _ _ h9, calcEMA_isTwoDecimal _ _ _ _ h21,
    calcEMA_isTwoDecimal _ _ _ _ h50, calcEMA_isTwoDecimal _ _ _ _ h200,
    calcRSI_isTwoDecimal _ _ _ _ hr, hm1, hm2, calcMACD_signal_nan_iff _ _ _ hm, hm3, hv1, hv2,
    hv3, analyzeVolume_ratio_num_iff _ _ hv, hd.1, hd.2.1, hd.2.2, ?_, by decide!⟩
  rw [← hcp, List.getLast?_map]

/-- Witness for C10 (amended) on the sample report. -/
theorem analyze_fields_rounded_witness :
    analyze sampleLib (some (waveCandles 0)) "1H" = .ok sampleReport ∧
    IsTwoDecimal sampleReport.indicators.ema.ema9 ∧
    IsTwoDecimal sampleReport.indicators.ema.ema200 ∧
    IsTwoDecimal sampleReport.indicators.macd.histogram :=
  ⟨sampleReport_eq,
    (analyze_fields_rounded sampleLib (waveCandles 0) "1H" sampleReport sampleReport_eq).1,
    (analyze_fields_rounded sampleLib (waveCandles 0) "1H" sampleReport
      sampleReport_eq).2.2.2.1,
    (analyze_fields_rounded sampleLib (waveCandles 0) "1H" sampleReport
      sampleReport_eq).2.2.2.2.2.2.2.2.1⟩

theorem jsMax_foldl_eq (xs : List ℚ) (acc : WithBot ℚ) :
    xs.foldl (fun (a : WithBot ℚ) (x : ℚ) => max a (x : WithBot ℚ)) acc =
      max acc xs.maximum := by
  induction xs generalizing acc with
  | nil => simp
  | cons x xs ih =>
    rw [List.foldl_cons, ih, List.maximum_cons, max_assoc]

theorem jsMax_eq_maximum (xs : List ℚ) : jsMax xs = xs.maximum := by
  rw [jsMax, jsMax_foldl_eq]
  simp

theorem jsMin_foldl_eq (xs : List ℚ) (acc : WithTop ℚ) :
    xs.foldl (fun (a : WithTop ℚ) (x : ℚ) => min a (x : WithTop ℚ)) acc =
      min acc xs.minimum := by
  induction xs generalizing acc with
  | nil => simp
  | cons x xs ih =>
    rw [List.foldl_cons, ih, List.minimum_cons, min_assoc]

theorem jsMin_eq_minimum (xs : List ℚ) : jsMin xs = xs.minimum := by
  rw [jsMin, jsMin_foldl_eq]
  simp

/-- C14: `detectTrendStructure` splits the trailing 20 highs and lows into an
earlier and a later half of 10 and returns `uptrend (HH + HL)` iff the later
half's maximum high and minimum low both strictly exceed the earlier half's,
`downtrend (LH + LL)` iff both are strictly lower, `volatile / expanding` iff
the later maximum high is strictly higher and the later minimum low strictly
lower, and `ranging / consolidation` in every other case. -/
theorem detectTrendStructure_spec (highs lows : List ℚ)
    (hh : 20 ≤ highs.length) (hl : 20 ≤ lows.length) :
    ((sliceLast 20 highs).take 10).length = 10 ∧ ((sliceLast 20 highs).drop 10).length = 10 ∧
    ((sliceLast 20 lows).take 10).length = 10 ∧ ((sliceLast 20 lows).drop 10).length = 10 ∧
    (detectTrendStructure highs lows = "uptrend (HH + HL)" ↔
      ((sliceLast 20 highs).take 10).maximum < ((sliceLast 20 highs).drop 10).maximum ∧
      ((sliceLast 20 lows).take 10).minimum < ((sliceLast 20 lows).drop 10).minimum) ∧
    (detectTrendStructure highs lows = "downtrend (LH + LL)" ↔
      ((sliceLast 20 highs).drop 10).maximum < ((sliceLast 20 highs).take 10).maximum ∧
      ((sliceLast 20 lows).drop 10).minimum < ((sliceLast 20 lows).take 10).minimum) ∧
    (detectTrendStructure highs lows = "volatile / expanding" ↔
      ((sliceLast 20 highs).take 10).maximum < ((sliceLast 20 highs).drop 10).maximum ∧
      ((sliceLast 20 lows).drop 10).minimum < ((sliceLast 20 lows).take 10).minimum) ∧
    (detectTrendStructure highs lows = "ranging / consolidation" ↔
      ¬ (((sliceLast 20 highs).take 10).maximum < ((sliceLast 20 highs).drop 10).maximum ∧
        ((sliceLast 20 lows).take 10).minimum < ((sliceLast 20 lows).drop 10).minimum) ∧
      ¬ (((sliceLast 20 highs).drop 10).maximum < ((sliceLast 20 highs).take 10).maximum ∧
        ((sliceLast 20 lows).drop 10).minimum < ((sliceLast 20 lows).take 10).minimum) ∧
      ¬ (((sliceLast 20 highs).take 10).maximum < ((sliceLast 20 highs).drop 10).maximum ∧
        ((sliceLast 20 lows).drop 10).minimum < ((sliceLast 20 lows).take 10).minimum)) := by
  have e1 : ((sliceLast 20 highs).take 10).length = 10 := by
    simp only [sliceLast, List.length_take, List.length_drop]; omega
  have e2 : ((sliceLast 20 highs).drop 10).length = 10 := by
    simp only [sliceLast, List.length_drop]; omega
  have e3 : ((sliceLast 20 lows).take 10).length = 10 := by
    simp only [sliceLast, List.length_take, List.length_drop]; omega
  have e4 : ((sliceLast 20 lows).drop 10).length = 10 := by
    simp only [sliceLast, List.length_drop]; omega
  refine ⟨e1, e2, e3, e4, ?_⟩
  simp only [detectTrendStructure, jsMax_eq_maximum, jsMin_eq_minimum, Nat.reduceDiv, gt_iff_lt,
    Bool.and_eq_true, decide_eq_true_eq]
  generalize ((sliceLast 20 highs).take 10).maximum = a
  generalize ((sliceLast 20 highs).drop 10).maximum = b
  generalize ((sliceLast 20 lows).take 10).minimum = c
  generalize ((sliceLast 20 lows).drop 10).minimum = d
  by_cases h1 : a < b <;> by_cases h2 : c < d <;> by_cases h3 : b < a <;> by_cases h4 : d < c <;>
    simp [h1, h2, h3, h4] <;>
    first
      | exact absurd h3 (not_lt_of_lt h1)
      | exact absurd h4 (not_lt_of_lt h2)

set_option maxRecDepth 100000 in
/-- Witness for C14: on the ramp the later half is above the earlier half. -/
theorem detectTrendStructure_spec_witness :
    20 ≤ (rampCandles.map (fun c => c.high)).length ∧
    20 ≤ (rampCandles.map (fun c => c.low)).length ∧
    ((sliceLast 20 (rampCandles.map (fun c => c.high))).take 10).length = 10 ∧
    detectTrendStructure (rampCandles.map (fun c => c.high)) (rampCandles.map (fun c => c.low)) =
      "uptrend (HH + HL)" :=
  ⟨by simp [rampCandles], by simp [rampCandles],
    (detectTrendStructure_spec (rampCandles.map (fun c => c.high))
      (rampCandles.map (fun c => c.low)) (by simp [rampCandles]) (by simp [rampCandles])).1,
    by decide!⟩

/-- A binary64 number of magnitude `2 ^ e` or more is an integer multiple of
`2 ^ (e - 52)`. -/
theorem grid_of_double (y : ℚ) (hy : fl y = y) (e : ℤ) (h : pow2 e ≤ |y|) :
    ∃ n : ℤ, y = (n : ℚ) * pow2 (e - 52) := by
  have hy0 : y ≠ 0 := by
    intro h0
    rw [h0, abs_zero] at h
    exact absurd h (not_le.2 (pow2_pos e))
  obtain ⟨-, h2⟩ := binade_spec |y| (abs_pos.2 hy0)
  have hb : e < binade |y| + 1 := (pow2_lt_iff _ _).1 (lt_of_le_of_lt h h2)
  have hE' : binade |y| ≤ max (binade |y|) (-1022) := le_max_left _ _
  obtain ⟨j, hj⟩ : ∃ j : ℕ, max (binade |y|) (-1022) - 52 = (j : ℤ) + (e - 52) :=
    ⟨(max (binade |y|) (-1022) - e).toNat, by omega⟩
  have hu : ulp y = (2 : ℚ) ^ j * pow2 (e - 52) := by
    unfold ulp
    rw [hj, pow2_add, pow2_natCast]
  refine ⟨roundHalfEven (y / ulp y) * 2 ^ j, ?_⟩
  have e1 := fl_of_ne_zero hy0
  rw [hy] at e1
  push_cast
  rw [mul_assoc, ← hu]
  exact e1

/-- Between a binary64 number `n * 2 ^ (e - 52)` of magnitude `2 ^ e` or more
and its successor there is no binary64 number. -/
theorem le_pred_of_lt (y : ℚ) (hy : fl y = y) (e N : ℤ) (hN : pow2 e ≤ ((N : ℚ) - 1) * pow2 (e - 52))
    (hlt : y < (N : ℚ) * pow2 (e - 52)) : y ≤ ((N : ℚ) - 1) * pow2 (e - 52) := by
  have hp := pow2_pos (e - 52)
  by_cases hs : y < pow2 e
  · linarith
  · push_neg at hs
    have habs : pow2 e ≤ |y| := le_trans hs (le_abs_self y)
    obtain ⟨n, hn⟩ := grid_of_double y hy e habs
    rw [hn] at hlt ⊢
    have h1 : (n : ℚ) < N := lt_of_mul_lt_mul_right hlt (le_of_lt hp)
    have h2 : n < N := by exact_mod_cast h1
    have h3 : (n : ℚ) ≤ (N : ℚ) - 1 := by
      have : n ≤ N - 1 := by omega
      exact_mod_cast this
    exact mul_le_mul_of_nonneg_right h3 (le_of_lt hp)

theorem fl_three_halves : fl (3 / 2) = 3 / 2 := by
  decide!

/-- The rounded ratio is above 1.5 exactly when the ratio is at least the
binary64 number 1.505. -/
theorem round_gt_iff (x : ℚ) (hx : fl x = x) : 3 / 2 < round x 2 ↔ fl (301 / 200) ≤ x := by
  have hhi : round (fl (301 / 200)) 2 = cent 151 := by decide!
  have hlo : round (6777917439192595 * pow2 (-52)) 2 = 3 / 2 := by decide!
  have h151 : (3 / 2 : ℚ) < cent 151 := by decide!
  have e1 : fl (301 / 200) = ((6777917439192596 : ℤ) : ℚ) * pow2 (0 - 52) := by decide!
  have e2 : pow2 0 ≤ (((6777917439192596 : ℤ) : ℚ) - 1) * pow2 (0 - 52) := by decide!
  have e3 : (((6777917439192596 : ℤ) : ℚ) - 1) * pow2 (0 - 52) =
      6777917439192595 * pow2 (-52) := by decide!
  constructor
  · intro h
    by_contra hlt
    push_neg at hlt
    rw [e1] at hlt
    have hle := le_pred_of_lt x hx 0 6777917439192596 e2 hlt
    rw [e3] at hle
    have := round_mono hle
    rw [hlo] at this
    linarith
  · intro h
    have := round_mono h
    rw [hhi] at this
    linarith

/-- The rounded ratio is below 0.6 exactly when the ratio is below the binary64
number 0.595. -/
theorem round_lt_iff (x : ℚ) (hx : fl x = x) : round x 2 < fl (3 / 5) ↔ x < fl (119 / 200) := by
  have hhi : round (fl (119 / 200)) 2 = fl (3 / 5) := by decide!
  have hlo : round (5359283556570889 * pow2 (-53)) 2 = cent 59 := by decide!
  have h59 : cent 59 < fl (3 / 5) := by decide!
  have e1 : fl (119 / 200) = ((5359283556570890 : ℤ) : ℚ) * pow2 (-1 - 52) := by decide!
  have e2 : pow2 (-1) ≤ (((5359283556570890 : ℤ) : ℚ) - 1) * pow2 (-1 - 52) := by decide!
  have e3 : (((5359283556570890 : ℤ) : ℚ) - 1) * pow2 (-1 - 52) =
      5359283556570889 * pow2 (-53) := by decide!
  constructor
  · intro h
    by_contra hge
    push_neg at hge
    have := round_mono hge
    rw [hhi] at this
    linarith
  · intro hlt
    rw [e1] at hlt
    have hle := le_pred_of_lt x hx (-1) 5359283556570890 e2 hlt
    rw [e3] at hle
    have := round_mono hle
    rw [hlo] at this
    linarith

/-- C17 (as the specification states it) fails: with a latest volume of 1504
and a trailing mean of 1000 the ratio is 1.504, above 1.5, yet the signal is
`average`, because the ratio is rounded to 1.5 before it is compared. -/
theorem analyzeVolume_raw_ratio_counterexample :
    fdiv ((sliceLast 20 ((496 : ℚ) :: List.replicate 18 1000 ++ [1504])).foldl fadd 0) 20 =
      1000 ∧
    fdiv 1504 1000 > 3 / 2 ∧
    (analyzeVolume ((496 : ℚ) :: List.replicate 18 1000 ++ [1504])).toOption.map
      (fun v => (v.ratio, v.signal)) = some (.num (3 / 2), "average") := by
  decide!

/-- C17 (amended): for a volume series of length at least 20 with a positive
trailing mean, `analyzeVolume` reports the ratio of the latest volume to the
mean of the last 20 volumes (sum, mean and quotient being binary64 operations)
rounded to 2 decimals, and classifies the rounded ratio: high conviction iff it
is above 1.5, which is the case iff the ratio is at least the binary64 number
1.505; low conviction iff it is below 0.6, which is the case iff the ratio is
below the binary64 number 0.595; `average` otherwise. -/
theorem analyzeVolume_spec (vols : List ℚ) (current : ℚ) (hlen : 20 ≤ vols.length)
    (hcur : vols.getLast? = some current)
    (hpos : 0 < fdiv ((sliceLast 20 vols).foldl fadd 0) 20) :
    (sliceLast 20 vols).length = 20 ∧
    ∃ v, analyzeVolume vols = .ok v ∧
      v.ratio = .num (round (fdiv current (fdiv ((sliceLast 20 vols).foldl fadd 0) 20)) 2) ∧
      (v.signal = "high — strong conviction" ↔
        round (fdiv current (fdiv ((sliceLast 20 vols).foldl fadd 0) 20)) 2 > 3 / 2) ∧
      (v.signal = "low — weak conviction" ↔
        round (fdiv current (fdiv ((sliceLast 20 vols).foldl fadd 0) 20)) 2 < fl (3 / 5)) ∧
      (v.signal = "average" ↔
        fl (3 / 5) ≤ round (fdiv current (fdiv ((sliceLast 20 vols).foldl fadd 0) 20)) 2 ∧
        round (fdiv current (fdiv ((sliceLast 20 vols).foldl fadd 0) 20)) 2 ≤ 3 / 2) ∧
      (round (fdiv current (fdiv ((sliceLast 20 vols).foldl fadd 0) 20)) 2 > 3 / 2 ↔
        fl (301 / 200) ≤ fdiv current (fdiv ((sliceLast 20 vols).foldl fadd 0) 20)) ∧
      (round (fdiv current (fdiv ((sliceLast 20 vols).foldl fadd 0) 20)) 2 < fl (3 / 5) ↔
        fdiv current (fdiv ((sliceLast 20 vols).foldl fadd 0) 20) < fl (119 / 200)) := by
  have hidem : fl (fdiv ((sliceLast 20 vols).foldl fadd 0) 20) =
      fdiv ((sliceLast 20 vols).foldl fadd 0) 20 := fl_idem _
  have hne : ¬ (fl (fdiv ((sliceLast 20 vols).foldl fadd 0) 20) = 0) := by
    rw [hidem]
    exact ne_of_gt hpos
  have h35 : fl (3 / 5) < 3 / 2 := by decide!
  refine ⟨by simp only [sliceLast, List.length_drop]; omega, ?_⟩
  refine ⟨VolumeResult.mk (round current 2)
      (round (fdiv ((sliceLast 20 vols).foldl fadd 0) 20) 2)
      (.num (round (fdiv current (fdiv ((sliceLast 20 vols).foldl fadd 0) 20)) 2))
      (volumeSignal (.num (round (fdiv current (fdiv ((sliceLast 20 vols).foldl fadd 0) 20)) 2))),
    by simp only [analyzeVolume, hcur, jsDiv, hne, if_false, JsNum.round], rfl, ?_, ?_, ?_,
    round_gt_iff _ (fl_idem _), round_lt_iff _ (fl_idem _)⟩
  · simp only [volumeSignal, JsNum.gt, JsNum.lt, fl_three_halves, decide_eq_true_eq]
    split_ifs with h1 h2 <;> simp [h1]
  · simp only [volumeSignal, JsNum.gt, JsNum.lt, fl_three_halves, decide_eq_true_eq]
    split_ifs with h1 h2
    · simp
      linarith
    · simp [h2]
    · simp [h2]
  · simp only [volumeSignal, JsNum.gt, JsNum.lt, fl_three_halves, decide_eq_true_eq]
    split_ifs with h1 h2
    · simp
      intro _
      linarith
    · simp
      intro h
      linarith
    · simp
      constructor <;> linarith

/-- Witness for C17 (amended): latest volume 1505 against a trailing mean of
1000 is classified as high conviction. -/
theorem analyzeVolume_spec_witness :
    20 ≤ ((495 : ℚ) :: List.replicate 18 1000 ++ [1505]).length ∧
    ((495 : ℚ) :: List.replicate 18 1000 ++ [1505]).getLast? = some 1505 ∧
    0 < fdiv ((sliceLast 20 ((495 : ℚ) :: List.replicate 18 1000 ++ [1505])).foldl fadd 0) 20 ∧
    ∃ v, analyzeVolume ((495 : ℚ) :: List.replicate 18 1000 ++ [1505]) = .ok v ∧
      v.ratio = .num (round (fdiv 1505 (fdiv ((sliceLast 20 ((495 : ℚ) ::
        List.replicate 18 1000 ++ [1505])).foldl fadd 0) 20)) 2) ∧
      v.signal = "high — strong conviction" := by
  have h := analyzeVolume_spec ((495 : ℚ) :: List.replicate 18 1000 ++ [1505]) 1505
    (by decide) (by decide!) (by decide!)
  obtain ⟨-, v, hv, hr, hhigh, -, -, hiff, -⟩ := h
  refine ⟨by decide, by decide!, by decide!, v, hv, hr, ?_⟩
  rw [hhigh, hiff]
  decide!

/-- C18: `calcMACD` classifies the crossover from the histogram of the last
row and of the row before it: `bullish_crossover` iff last > 0 and prev ≤ 0,
`bearish_crossover` iff last < 0 and prev ≥ 0, otherwise `bullish` if
last > 0 and `bearish` if not; exactly one of the four labels is returned. -/
theorem calcMACD_crossover_spec (lib : IndicatorLib) (closes : List ℚ) (rows : List MACDRow)
    (prev last : MACDRow) (hrows : lib.MACD 12 26 9 closes = rows ++ [prev, last]) :
    ∃ m, calcMACD lib closes = .ok m ∧
      (m.crossover = "bullish_crossover" ↔ last.histogram > 0 ∧ prev.histogram ≤ 0) ∧
      (m.crossover = "bearish_crossover" ↔ last.histogram < 0 ∧ prev.histogram ≥ 0) ∧
      (m.crossover = "bullish" ↔ last.histogram > 0 ∧ ¬ prev.histogram ≤ 0) ∧
      (m.crossover = "bearish" ↔
        ¬ last.histogram > 0 ∧ ¬ (last.histogram < 0 ∧ prev.histogram ≥ 0)) ∧
      (last.histogram = 0 → m.crossover = "bearish") ∧
      (m.crossover = "bullish_crossover" ∨ m.crossover = "bearish_crossover" ∨
        m.crossover = "bullish" ∨ m.crossover = "bearish") := by
  have hlast : (lib.MACD 12 26 9 closes).getLast? = some last := by
    rw [hrows, show rows ++ [prev, last] = (rows ++ [prev]) ++ [last] by simp,
      List.getLast?_append]
    simp
  have hprev : (lib.MACD 12 26 9 closes).dropLast.getLast? = some prev := by
    rw [hrows, show rows ++ [prev, last] = (rows ++ [prev]) ++ [last] by simp,
      List.dropLast_concat, List.getLast?_append]
    simp
  simp only [calcMACD, hlast, hprev, macdCrossover]
  by_cases h1 : last.histogram > 0
  · have h1' : ¬ last.histogram < 0 := not_lt.2 (le_of_lt h1)
    have h1'' : last.histogram ≠ 0 := ne_of_gt h1
    by_cases h2 : prev.histogram ≤ 0
    · refine ⟨MACDResult.mk (round last.MACD 2) (match last.signal with
          | some s => .num (round s 2)
          | none => .nan) (round last.histogram 2)
        "bullish_crossover", by simp only [h1, h2, if_true], ?_⟩
      simp [h1, h2, h1', h1'']
    · refine ⟨MACDResult.mk (round last.MACD 2) (match last.signal with
          | some s => .num (round s 2)
          | none => .nan) (round last.histogram 2)
        "bullish", by simp only [h1, h2, if_true, if_false], ?_⟩
      simp [h1, h2, h1', h1'']
  · by_cases h3 : last.histogram < 0
    · have h3' : last.histogram ≠ 0 := ne_of_lt h3
      by_cases h4 : prev.histogram ≥ 0
      · refine ⟨MACDResult.mk (round last.MACD 2) (match last.signal with
          | some s => .num (round s 2)
          | none => .nan)
          (round last.histogram 2) "bearish_crossover",
          by simp only [h1, h3, h4, if_true, if_false], ?_⟩
        simp [h1, h3, h4, h3']
      · refine ⟨MACDResult.mk (round last.MACD 2) (match last.signal with
          | some s => .num (round s 2)
          | none => .nan)
          (round last.histogram 2) "bearish", by simp only [h1, h3, h4, if_true, if_false], ?_⟩
        simp [h1, h3, h4, h3']
    · refine ⟨MACDResult.mk (round last.MACD 2) (match last.signal with
          | some s => .num (round s 2)
          | none => .nan)
        (round last.histogram 2) "bearish", by simp only [h1, h3, if_false], ?_⟩
      simp [h1, h3]

/-- Witness for C18 on the two rows of the sample library: the histogram goes
from 0 to 0.5, a bullish crossover. -/
theorem calcMACD_crossover_spec_witness :
    sampleLib.MACD 12 26 9 [1, 2, 3] = [] ++ [⟨0, some 0, 0⟩, ⟨1, some (1 / 2), 1 / 2⟩] ∧
    ∃ m, calcMACD sampleLib [1, 2, 3] = .ok m ∧
      (m.crossover = "bullish_crossover" ↔ (1 / 2 : ℚ) > 0 ∧ (0 : ℚ) ≤ 0) := by
  obtain ⟨m, hm, h1, -⟩ :=
    calcMACD_crossover_spec sampleLib [1, 2, 3] [] ⟨0, some 0, 0⟩ ⟨1, some (1 / 2), 1 / 2⟩ rfl
  exact ⟨rfl, m, hm, h1⟩

theorem calcRSI_ok_eq (lib : IndicatorLib) (closes : List ℚ) (period : ℕ) (r : RSIResult)
    (h : calcRSI lib closes period = .ok r) :
    ∃ v, (lib.RSI period closes).getLast? = some v ∧ r.value = round v 2 ∧
      r.signal = rsiSignal r.value := by
  simp only [calcRSI] at h
  split at h
  · rename_i v hv
    simp only [Except.ok.injEq] at h
    subst h
    exact ⟨v, hv, rfl, rfl⟩
  · simp at h

theorem rsiSignal_overbought_iff (v : ℚ) : rsiSignal v = "overbought" ↔ v > 70 := by
  unfold rsiSignal
  split_ifs with h1 h2 <;> simp [h1]

theorem rsiSignal_oversold_iff (v : ℚ) : rsiSignal v = "oversold" ↔ v < 30 := by
  unfold rsiSignal
  split_ifs with h1 h2
  · simp
    linarith
  · simp [h2]
  · simp [h2]

theorem rsiSignal_neutral_iff (v : ℚ) : rsiSignal v = "neutral" ↔ 30 ≤ v ∧ v ≤ 70 := by
  unfold rsiSignal
  split_ifs with h1 h2
  · simp
    intro _
    linarith
  · simp
    intro h
    linarith
  · simp
    constructor <;> linarith

/-- C19: for every result of `calcRSI` the signal is `overbought` iff the value
is above 70, `oversold` iff it is below 30 and `neutral` otherwise; in
`classifyBias` such a result adds one bull vote exactly when
`50 < value ≤ 70`, one bear vote exactly when `30 ≤ value < 50`, and nothing
otherwise (the counters are compared with those of the same input carrying a
voteless momentum of 50). -/
theorem calcRSI_signal_and_vote (lib : IndicatorLib) (closes : List ℚ) (period : ℕ)
    (r : RSIResult) (h : calcRSI lib closes period = .ok r) :
    (r.signal = "overbought" ↔ r.value > 70) ∧
    (r.signal = "oversold" ↔ r.value < 30) ∧
    (r.signal = "neutral" ↔ 30 ≤ r.value ∧ r.value ≤ 70) ∧
    ∀ a : BiasInput, a.rsi = r →
      biasScores a =
        ((biasScores { a with rsi := { value := 50, signal := "neutral" } }).1 +
            (if 50 < r.value ∧ r.value ≤ 70 then 1 else 0),
          (biasScores { a with rsi := { value := 50, signal := "neutral" } }).2 +
            (if 30 ≤ r.value ∧ r.value < 50 then 1 else 0)) := by
  obtain ⟨v, -, -, hsig⟩ := calcRSI_ok_eq lib closes period r h
  refine ⟨?_, ?_, ?_, ?_⟩
  · rw [hsig]; exact rsiSignal_overbought_iff _
  · rw [hsig]; exact rsiSignal_oversold_iff _
  · rw [hsig]; exact rsiSignal_neutral_iff _
  · intro a ha
    have hbull : (a.rsi.value > 50 ∧ a.rsi.signal ≠ "overbought") ↔
        (50 < r.value ∧ r.value ≤ 70) := by
      rw [ha, hsig, Ne, rsiSignal_overbought_iff]
      constructor
      · rintro ⟨h1, h2⟩; exact ⟨h1, not_lt.1 h2⟩
      · rintro ⟨h1, h2⟩; exact ⟨h1, not_lt.2 h2⟩
    have hbear : (a.rsi.value < 50 ∧ a.rsi.signal ≠ "oversold") ↔
        (30 ≤ r.value ∧ r.value < 50) := by
      rw [ha, hsig, Ne, rsiSignal_oversold_iff]
      constructor
      · rintro ⟨h1, h2⟩; exact ⟨not_lt.1 h2, h1⟩
      · rintro ⟨h1, h2⟩; exact ⟨h2, not_lt.2 h1⟩
    have h50a : ¬ ((50 : ℚ) > 50 ∧ ("neutral" : String) ≠ "overbought") := by
      rintro ⟨h1, -⟩; exact lt_irrefl _ h1
    have h50b : ¬ ((50 : ℚ) < 50 ∧ ("neutral" : String) ≠ "oversold") := by
      rintro ⟨h1, -⟩; exact lt_irrefl _ h1
    rw [biasScores_eq, biasScores_eq]
    simp only [bullVotes, bearVotes, if_neg h50a, if_neg h50b, hbull, hbear, Prod.mk.injEq]
    constructor <;> omega

/-- Witness for C19: the sample library reports 55, a neutral value that casts
a bull vote. -/
theorem calcRSI_signal_and_vote_witness :
    calcRSI sampleLib [1, 2, 3] 14 = .ok { value := 55, signal := "neutral" } ∧
    (("neutral" : String) = "neutral" ↔ (30 : ℚ) ≤ 55 ∧ (55 : ℚ) ≤ 70) :=
  ⟨by decide!,
    (calcRSI_signal_and_vote sampleLib [1, 2, 3] 14 { value := 55, signal := "neutral" }
      (by decide!)).2.2.1⟩

/-- C20: the entry zone is computed from the price alone (a Long and a Short
signal built at the same ticker price get the same zone):
`low = round2 (price - 0.003 * price)`, `mid = round2 price`,
`high = round2 (price + 0.003 * price)`, the product, the difference, the sum
and `round2` being the binary64 operations of the program, so
`low ≤ mid ≤ high` for every price that is not negative.  At price 5 the zone
is 4.99, 5, 5.01 and at price 35 it is 34.9, 35, 35.1. -/
theorem calcEntryZone_spec (price : ℚ) (ta ta' : TAReport) :
    calcEntryZone price ta =
      { low := round (fsub price (fmul price (3 / 1000))) 2, mid := round price 2,
        high := round (fadd price (fmul price (3 / 1000))) 2 } ∧
    calcEntryZone price ta = calcEntryZone price ta' ∧
    (0 ≤ price → (calcEntryZone price ta).low ≤ (calcEntryZone price ta).mid ∧
      (calcEntryZone price ta).mid ≤ (calcEntryZone price ta).high) ∧
    (∀ (symbol timeframe : String) (ticker : Ticker) (now disclaimer : String)
        (sig sig' : Signal), ticker.price = price →
      buildSignal symbol timeframe ticker ta now disclaimer = .ok (some sig) →
      buildSignal symbol timeframe ticker ta' now disclaimer = .ok (some sig') →
      sig.entryLow = round (fsub price (fmul price (3 / 1000))) 2 ∧
      sig.entryHigh = round (fadd price (fmul price (3 / 1000))) 2 ∧
      sig'.entryLow = sig.entryLow ∧ sig'.entryHigh = sig.entryHigh) ∧
    calcEntryZone 5 ta = { low := cent 499, mid := 5, high := cent 501 } ∧
    calcEntryZone 35 ta = { low := cent 3490, mid := 35, high := cent 3510 } := by
  have hz : ∀ t : TAReport, calcEntryZone price t =
      { low := round (fsub price (fmul price (3 / 1000))) 2, mid := round price 2,
        high := round (fadd price (fmul price (3 / 1000))) 2 } := by
    intro t
    simp only [calcEntryZone]
  have hsig : ∀ (t : TAReport) (symbol timeframe : String) (ticker : Ticker)
      (now disclaimer : String) (sig : Signal), ticker.price = price →
      buildSignal symbol timeframe ticker t now disclaimer = .ok (some sig) →
      sig.entryLow = round (fsub price (fmul price (3 / 1000))) 2 ∧
      sig.entryHigh = round (fadd price (fmul price (3 / 1000))) 2 := by
    intro t symbol timeframe ticker now disclaimer sig hp hs
    by_cases hb : t.bias = "Neutral / Wait"
    · simp [buildSignal, hb] at hs
    · obtain ⟨rr, hrr⟩ := buildSignal_eq symbol timeframe ticker t now disclaimer hb
      rw [hrr] at hs
      simp only [Except.ok.injEq, Option.some.injEq] at hs
      subst hs
      simp only [hp, hz, and_self]
  refine ⟨hz ta, by rw [hz ta, hz ta'], ?_, ?_, by simp only [calcEntryZone]; decide!,
    by simp only [calcEntryZone]; decide!⟩
  · intro h0
    rw [hz ta]
    have hp : 0 ≤ fl price := fl_nonneg h0
    have hb : 0 ≤ fl (fmul price (3 / 1000)) := by
      apply fl_nonneg
      unfold fmul
      exact fl_nonneg (mul_nonneg hp (fl_nonneg (by norm_num)))
    constructor
    · apply round_mono_fl
      unfold fsub
      rw [fl_idem]
      calc fl (fl price - fl (fmul price (3 / 1000))) ≤ fl (fl price) :=
            fl_mono (by linarith)
        _ = fl price := fl_idem _
    · apply round_mono_fl
      unfold fadd
      rw [fl_idem]
      calc fl price = fl (fl price) := (fl_idem _).symm
        _ ≤ fl (fl price + fl (fmul price (3 / 1000))) := fl_mono (by linarith)
  · intro symbol timeframe ticker now disclaimer sig sig' hp hs hs'
    obtain ⟨h1, h2⟩ := hsig ta symbol timeframe ticker now disclaimer sig hp hs
    obtain ⟨h3, h4⟩ := hsig ta' symbol timeframe ticker now disclaimer sig' hp hs'
    exact ⟨h1, h2, by rw [h3, h1], by rw [h4, h2]⟩

/-- Witness for C20 at price 100: the zone is 99.7, 100, 100.3. -/
theorem calcEntryZone_spec_witness :
    (0 : ℚ) ≤ 100 ∧
    (calcEntryZone 100 scenarioReport).low ≤ (calcEntryZone 100 scenarioReport).mid ∧
    (calcEntryZone 100 scenarioReport).mid ≤ (calcEntryZone 100 scenarioReport).high ∧
    calcEntryZone 100 scenarioReport =
      { low := cent 9970, mid := 100, high := cent 10030 } :=
  ⟨by norm_num,
    ((calcEntryZone_spec 100 scenarioReport scenarioReport).2.2.1 (by norm_num)).1,
    ((calcEntryZone_spec 100 scenarioReport scenarioReport).2.2.1 (by norm_num)).2,
    by decide!⟩

/-- The bias of a report of `analyze` is `classifyBias` on the report's own
price, indicators and trend. -/
theorem analyze_ok_bias (lib : IndicatorLib) (candles : Option (List Candle))
    (timeframe : String) (rep : TAReport) (h : analyze lib candles timeframe = .ok rep) :
    rep.bias = classifyBias (biasInputOf rep) := by
  cases candles with
  | none => simp [analyze] at h
  | some cs =>
    by_cases hlen : cs.length < 200
    · simp [analyze, hlen] at h
    · simp only [analyze, hlen, if_false] at h
      cases h9 : calcEMA lib (cs.map (fun c => c.close)) 9 with
      | error e => simp [h9, bind, Except.bind] at h
      | ok e9 =>
      cases h21 : calcEMA lib (cs.map (fun c => c.close)) 21 with
      | error e => simp [h9, h21, bind, Except.bind] at h
      | ok e21 =>
      cases h50 : calcEMA lib (cs.map (fun c => c.close)) 50 with
      | error e => simp [h9, h21, h50, bind, Except.bind] at h
      | ok e50 =>
      cases h200 : calcEMA lib (cs.map (fun c => c.close)) 200 with
      | error e => simp [h9, h21, h50, h200, bind, Except.bind] at h
      | ok e200 =>
      cases hr : calcRSI lib (cs.map (fun c => c.close)) 14 with
      | error e => simp [h9, h21, h50, h200, hr, bind, Except.bind] at h
      | ok rsi =>
      cases hm : calcMACD lib (cs.map (fun c => c.close)) with
      | error e => simp [h9, h21, h50, h200, hr, hm, bind, Except.bind] at h
      | ok macd =>
      cases hv : analyzeVolume (cs.map (fun c => c.volume)) with
      | error e => simp [h9, h21, h50, h200, hr, hm, hv, bind, Except.bind] at h
      | ok vol =>
      cases hc : (cs.map (fun c => c.close)).getLast? with
      | none => simp [h9, h21, h50, h200, hr, hm, hv, hc, bind, Except.bind] at h
      | some cp =>
        simp only [h9, h21, h50, h200, hr, hm, hv, hc, bind, Except.bind, pure, Except.pure,
          Except.ok.injEq] at h
        subst h
        rfl

theorem classifyBias_congr (a b : BiasInput) (hp : a.price = b.price) (h50 : a.ema50 = b.ema50)
    (h200 : a.ema200 = b.ema200) (hr : a.rsi = b.rsi) (hm : a.macd.histogram = b.macd.histogram)
    (ht : a.trend = b.trend) : classifyBias a = classifyBias b := by
  simp only [classifyBias, biasScores, hp, h50, h200, hr, hm, ht]

theorem ok_of_toOption_map {α β : Type} (x : Except Failure α) (f : α → β) (b : β)
    (h : x.toOption.map f = some b) : ∃ a, x = .ok a ∧ f a = b := by
  cases x with
  | error e => simp [Except.toOption] at h
  | ok a => exact ⟨a, rfl, by simpa [Except.toOption] using h⟩

/-- C11 (as the specification states it) fails: two 200-candle series that
differ in the last close only (100.001 against 99.999) give reports with the
same indicator set and the same structure set, yet the first is
`Neutral / Wait` and the second `Bearish`. -/
theorem bias_not_function_of_indicators_and_structure :
    ∃ repA repB,
      analyze tiLib (some (driftCandles (100001 / 1000))) "1H" = .ok repA ∧
      analyze tiLib (some (driftCandles (99999 / 1000))) "1H" = .ok repB ∧
      repA.indicators = repB.indicators ∧ repA.struct = repB.struct ∧
      repA.bias = "Neutral / Wait" ∧ repB.bias = "Bearish" := by
  have hA : (analyze tiLib (some (driftCandles (100001 / 1000))) "1H").toOption.map
      (fun r => (r.indicators, r.struct, r.bias)) =
      some (⟨⟨100, 100, 100, 100⟩, ⟨100, "overbought"⟩, ⟨0, .num 0, 0, "bullish_crossover"⟩,
        ⟨10, 10, .num 1, "average"⟩⟩, ⟨"downtrend (LH + LL)", ⟨none, none, []⟩⟩,
        "Neutral / Wait") := by
    decide!
  have hB : (analyze tiLib (some (driftCandles (99999 / 1000))) "1H").toOption.map
      (fun r => (r.indicators, r.struct, r.bias)) =
      some (⟨⟨100, 100, 100, 100⟩, ⟨100, "overbought"⟩, ⟨0, .num 0, 0, "bullish_crossover"⟩,
        ⟨10, 10, .num 1, "average"⟩⟩, ⟨"downtrend (LH + LL)", ⟨none, none, []⟩⟩,
        "Bearish") := by
    decide!
  obtain ⟨repA, hrA, hfA⟩ := ok_of_toOption_map _ _ _ hA
  obtain ⟨repB, hrB, hfB⟩ := ok_of_toOption_map _ _ _ hB
  simp only [Prod.mk.injEq] at hfA hfB
  exact ⟨repA, repB, hrA, hrB, by rw [hfA.1, hfB.1], by rw [hfA.2.1, hfB.2.1], hfA.2.2, hfB.2.2⟩

/-- C11 (amended): the bias of a report is a function of the report's current
price together with its indicator set and structure set: it is `classifyBias`
on the report's own price, EMAs, rsi, macd and trend, so any two reports of
`analyze` with equal price, indicators and structure carry the same bias. -/
theorem bias_function_of_price_indicators_structure (lib lib' : IndicatorLib)
    (candles candles' : Option (List Candle)) (timeframe timeframe' : String)
    (rep rep' : TAReport) (h : analyze lib candles timeframe = .ok rep)
    (h' : analyze lib' candles' timeframe' = .ok rep')
    (hp : rep.currentPrice = rep'.currentPrice) (hi : rep.indicators = rep'.indicators)
    (hs : rep.struct = rep'.struct) :
    rep.bias = classifyBias (biasInputOf rep) ∧ rep.bias = rep'.bias := by
  have hb := analyze_ok_bias _ _ _ _ h
  have hb' := analyze_ok_bias _ _ _ _ h'
  refine ⟨hb, ?_⟩
  rw [hb, hb']
  apply classifyBias_congr <;> simp only [biasInputOf, hp, hi, hs]

/-- Witness for C11 (amended): the sample series analysed under two timeframe
labels gives the same bias. -/
theorem bias_function_of_price_indicators_structure_witness :
    analyze sampleLib (some (waveCandles 0)) "1H" = .ok sampleReport ∧
    analyze sampleLib (some (waveCandles 0)) "4H" = .ok { sampleReport with timeframe := "4H" } ∧
    sampleReport.bias = ({ sampleReport with timeframe := "4H" } : TAReport).bias := by
  have h4 : analyze sampleLib (some (waveCandles 0)) "4H" =
      .ok { sampleReport with timeframe := "4H" } := by decide!
  exact ⟨sampleReport_eq, h4,
    (bias_function_of_price_indicators_structure sampleLib sampleLib (some (waveCandles 0))
      (some (waveCandles 0)) "1H" "4H" sampleReport { sampleReport with timeframe := "4H" }
      sampleReport_eq h4 rfl rfl rfl).2⟩

theorem foldl_append_eq_flatMap {α β : Type} (f : α → List β) (l : List α) (init : List β) :
    l.foldl (fun acc i => acc ++ f i) init = init ++ l.flatMap f := by
  induction l generalizing init with
  | nil => simp
  | cons x xs ih => simp [ih, List.append_assoc]

theorem getElem?_eq_some_getD (xs : List ℚ) (i : ℕ) (h : i < xs.length) :
    xs[i]? = some (xs.getD i 0) := by
  rw [List.getD_eq_getElem?_getD, List.getElem?_eq_getElem h]
  rfl

theorem levelsAt_eq_spec (highs lows : List ℚ) (i : ℕ) (h2 : 2 ≤ i)
    (hh : i + 2 < highs.length) (hl : i + 2 < lows.length) :
    levelsAt highs lows i = specLevelsAt highs lows i := by
  have a0 := getElem?_eq_some_getD highs i (by omega)
  have a1 := getElem?_eq_some_getD highs (i - 1) (by omega)
  have a2 := getElem?_eq_some_getD highs (i - 2) (by omega)
  have a3 := getElem?_eq_some_getD highs (i + 1) (by omega)
  have a4 := getElem?_eq_some_getD highs (i + 2) (by omega)
  have b0 := getElem?_eq_some_getD lows i (by omega)
  have b1 := getElem?_eq_some_getD lows (i - 1) (by omega)
  have b2 := getElem?_eq_some_getD lows (i - 2) (by omega)
  have b3 := getElem?_eq_some_getD lows (i + 1) (by omega)
  have b4 := getElem?_eq_some_getD lows (i + 2) (by omega)
  simp only [levelsAt, specLevelsAt, isPivotHigh, isPivotLow, a0, a1, a2, a3, a4, b0, b1, b2,
    b3, b4, jsGt, jsLt, gt_iff_lt, Bool.and_eq_true, decide_eq_true_eq]
  congr 1
  · exact if_congr (by tauto) rfl rfl
  · exact if_congr (by tauto) rfl rfl

theorem pivotLevels_eq_spec (H L : List ℚ) (hH : H.length = 50) (hL : L.length = 50) :
    pivotLevels H L = specLevels H L := by
  have hr : (List.range (50 - 2)).drop 2 = List.range' 2 46 := by decide
  rw [pivotLevels, hH, hr, foldl_append_eq_flatMap, List.nil_append, specLevels]
  apply List.flatMap_congr
  intro i hi
  rw [List.mem_range'] at hi
  obtain ⟨k, hk, rfl⟩ := hi
  exact levelsAt_eq_spec H L _ (by omega) (by omega) (by omega)

/-- C15: with at least 50 highs and lows, the detected levels are exactly the
pivots of the trailing 50 candles, scanned in increasing index order over the
indices 2 to 47 (index `i` gives a resistance at `round2 (high i)` iff the high
is strictly above its four neighbours, and a support at `round2 (low i)` iff
the low is strictly below its four neighbours); `allLevels` is the first 10
entries of that list and never has more than 10 elements. -/
theorem detectSupportResistance_levels_spec (highs lows closes : List ℚ)
    (hh : 50 ≤ highs.length) (hl : 50 ≤ lows.length) :
    (sliceLast 50 highs).length = 50 ∧ (sliceLast 50 lows).length = 50 ∧
    pivotLevels (sliceLast 50 highs) (sliceLast 50 lows) =
      specLevels (sliceLast 50 highs) (sliceLast 50 lows) ∧
    (detectSupportResistance highs lows closes).allLevels =
      (specLevels (sliceLast 50 highs) (sliceLast 50 lows)).take 10 ∧
    (detectSupportResistance highs lows closes).allLevels.length ≤ 10 := by
  have e1 : (sliceLast 50 highs).length = 50 := by
    simp only [sliceLast, List.length_drop]; omega
  have e2 : (sliceLast 50 lows).length = 50 := by
    simp only [sliceLast, List.length_drop]; omega
  have e3 := pivotLevels_eq_spec _ _ e1 e2
  refine ⟨e1, e2, e3, ?_, ?_⟩
  · simp only [detectSupportResistance, e3]
  · simp only [detectSupportResistance, List.length_take]
    exact Nat.min_le_left _ _

/-- Witness for C15 on the sample series. -/
theorem detectSupportResistance_levels_spec_witness :
    50 ≤ ((waveCandles 0).map (fun c => c.high)).length ∧
    50 ≤ ((waveCandles 0).map (fun c => c.low)).length ∧
    (detectSupportResistance ((waveCandles 0).map (fun c => c.high))
        ((waveCandles 0).map (fun c => c.low)) ((waveCandles 0).map (fun c => c.close))).allLevels =
      (specLevels (sliceLast 50 ((waveCandles 0).map (fun c => c.high)))
        (sliceLast 50 ((waveCandles 0).map (fun c => c.low)))).take 10 := by
  have h1 : 50 ≤ ((waveCandles 0).map (fun c => c.high)).length := by simp [waveCandles]
  have h2 : 50 ≤ ((waveCandles 0).map (fun c => c.low)).length := by simp [waveCandles]
  have h := detectSupportResistance_levels_spec _ _ ((waveCandles 0).map (fun c => c.close)) h1 h2
  exact ⟨h1, h2, h.2.2.2.1⟩

theorem head?_insertionSort_desc_eq_maximum (l : List Level) :
    ((l.insertionSort (fun a b => b.price ≤ a.price)).head?.map (fun x => x.price) : Option ℚ) =
      ((l.map (fun x => x.price)).maximum : WithBot ℚ) := by
  haveI : IsTotal Level (fun a b => b.price ≤ a.price) := ⟨fun a b => le_total _ _⟩
  haveI : IsTrans Level (fun a b => b.price ≤ a.price) := ⟨fun a b c h1 h2 => le_trans h2 h1⟩
  have hs := List.sorted_insertionSort (fun a b : Level => b.price ≤ a.price) l
  have hp := List.perm_insertionSort (fun a b : Level => b.price ≤ a.price) l
  cases hsl : l.insertionSort (fun a b => b.price ≤ a.price) with
  | nil =>
    have : l = [] := by
      have := hp.length_eq
      rw [hsl] at this
      exact List.length_eq_zero.1 this.symm
    subst this
    rfl
  | cons x t =>
    rw [hsl] at hs hp
    simp only [List.head?_cons, Option.map_some']
    symm
    refine (List.maximum_eq_coe_iff (m := x.price)).2 ?_
    constructor
    · exact List.mem_map.2 ⟨x, hp.subset (List.mem_cons_self _ _), rfl⟩
    · intro a ha
      obtain ⟨y, hy, rfl⟩ := List.mem_map.1 ha
      have hy' : y ∈ x :: t := hp.symm.subset hy
      rcases List.mem_cons.1 hy' with h | h
      · rw [h]
      · exact List.rel_of_sorted_cons hs y h

theorem head?_insertionSort_asc_eq_minimum (l : List Level) :
    ((l.insertionSort (fun a b => a.price ≤ b.price)).head?.map (fun x => x.price) : Option ℚ) =
      ((l.map (fun x => x.price)).minimum : WithTop ℚ) := by
  haveI : IsTotal Level (fun a b => a.price ≤ b.price) := ⟨fun a b => le_total _ _⟩
  haveI : IsTrans Level (fun a b => a.price ≤ b.price) := ⟨fun a b c h1 h2 => le_trans h1 h2⟩
  have hs := List.sorted_insertionSort (fun a b : Level => a.price ≤ b.price) l
  have hp := List.perm_insertionSort (fun a b : Level => a.price ≤ b.price) l
  cases hsl : l.insertionSort (fun a b => a.price ≤ b.price) with
  | nil =>
    have : l = [] := by
      have := hp.length_eq
      rw [hsl] at this
      exact List.length_eq_zero.1 this.symm
    subst this
    rfl
  | cons x t =>
    rw [hsl] at hs hp
    simp only [List.head?_cons, Option.map_some']
    symm
    refine (List.minimum_eq_coe_iff (m := x.price)).2 ?_
    constructor
    · exact List.mem_map.2 ⟨x, hp.subset (List.mem_cons_self _ _), rfl⟩
    · intro a ha
      obtain ⟨y, hy, rfl⟩ := List.mem_map.1 ha
      have hy' : y ∈ x :: t := hp.symm.subset hy
      rcases List.mem_cons.1 hy' with h | h
      · rw [h]
      · exact List.rel_of_sorted_cons hs y h

/-- What `detectSupportResistance` returns as nearest levels: the maximum of the
support prices below the current price and the minimum of the resistance
prices above it, each passed through `|| null`, which turns a price of 0 into
`null`. -/
theorem nearest_levels_eq (highs lows closes : List ℚ) (cp : ℚ)
    (hcp : closes.getLast? = some cp) :
    (detectSupportResistance highs lows closes).nearestSupport =
      orNull ((supportPricesBelow
        (pivotLevels (sliceLast 50 highs) (sliceLast 50 lows)) cp).maximum : WithBot ℚ) ∧
    (detectSupportResistance highs lows closes).nearestResistance =
      orNull ((resistancePricesAbove
        (pivotLevels (sliceLast 50 highs) (sliceLast 50 lows)) cp).minimum : WithTop ℚ) := by
  have f1 : (fun l : Level => l.type == "support" && jsLt (some l.price) (some cp)) =
      (fun l : Level => decide (l.type = "support" ∧ l.price < cp)) := by
    funext l
    by_cases h : l.type = "support" <;> simp [jsLt, h]
  have f2 : (fun l : Level => l.type == "resistance" && jsGt (some l.price) (some cp)) =
      (fun l : Level => decide (l.type = "resistance" ∧ cp < l.price)) := by
    funext l
    by_cases h : l.type = "resistance" <;> simp [jsGt, h]
  simp only [detectSupportResistance, hcp, f1, f2, head?_insertionSort_desc_eq_maximum,
    head?_insertionSort_asc_eq_minimum, supportPricesBelow, resistancePricesAbove, and_self]

/-- C16 evaluated at a failing input: on the sub-cent series the support pivots
have the rounded price 0, which is strictly below the current price 0.0041, so
the maximum of the qualifying support prices is 0; yet `nearestSupport` is
absent, in `detectSupportResistance` and in the report of `analyze`. -/
theorem nearestSupport_zero_price_absent :
    (subCentCandles.map (fun c => c.close)).getLast? = some (41 / 10000) ∧
    ((supportPricesBelow
      (pivotLevels (sliceLast 50 (subCentCandles.map (fun c => c.high)))
        (sliceLast 50 (subCentCandles.map (fun c => c.low)))) (41 / 10000)).maximum : WithBot ℚ) =
      ((0 : ℚ) : WithBot ℚ) ∧
    (detectSupportResistance (subCentCandles.map (fun c => c.high))
      (subCentCandles.map (fun c => c.low))
      (subCentCandles.map (fun c => c.close))).nearestSupport = none ∧
    (analyze tiLib (some subCentCandles) "1H").toOption.map
      (fun r => r.struct.supportResistance.nearestSupport) = some none := by
  refine ⟨by decide!, by decide!, by decide!, by decide!⟩

theorem length_emaFrom (k prev : ℚ) (vs : List ℚ) : (emaFrom k prev vs).length = vs.length := by
  induction vs generalizing prev with
  | nil => rfl
  | cons v vs ih => simp [emaFrom, ih]

theorem length_tiEMA (period : ℕ) (values : List ℚ) (hp : 0 < period)
    (hlen : period ≤ values.length) :
    (tiEMA period values).length = values.length - period + 1 := by
  have h : ¬ (period = 0 ∨ values.length < period) := by omega
  simp only [tiEMA, h, if_false, List.length_cons, length_emaFrom, List.length_drop]

theorem length_changes (xs : List ℚ) : (changes xs).length = xs.length - 1 := by
  induction xs with
  | nil => rfl
  | cons a rest ih =>
    cases rest with
    | nil => rfl
    | cons b rest =>
      simp only [changes, List.length_cons] at ih ⊢
      omega

theorem length_wilderFrom (period : ℕ) (prev : ℚ) (xs : List ℚ) :
    (wilderFrom period prev xs).length = xs.length := by
  induction xs generalizing prev with
  | nil => rfl
  | cons x xs ih => simp [wilderFrom, ih]

theorem length_wilder (period : ℕ) (xs : List ℚ) (hp : 0 < period) (hlen : period ≤ xs.length) :
    (wilder period xs).length = xs.length - period + 1 := by
  have h : ¬ (period = 0 ∨ xs.length < period) := by omega
  simp only [wilder, h, if_false, List.length_cons, length_wilderFrom, List.length_drop]

theorem length_tiRSI (period : ℕ) (values : List ℚ) (hp : 0 < period)
    (hlen : period < values.length) :
    (tiRSI period values).length = values.length - period := by
  have hc := length_changes values
  simp only [tiRSI, List.length_zipWith]
  rw [length_wilder _ _ hp (by simp only [List.length_map]; omega),
    length_wilder _ _ hp (by simp only [List.length_map]; omega)]
  simp only [List.length_map, hc]
  omega

theorem length_tiMACD (values : List ℚ) (hlen : 34 ≤ values.length) :
    (tiMACD 12 26 9 values).length = values.length - 33 := by
  have h12 := length_tiEMA 12 values (by norm_num) (by omega)
  have h26 := length_tiEMA 26 values (by norm_num) (by omega)
  have hm : (List.zipWith (fun f s => f - s) ((tiEMA 12 values).drop (26 - 12))
      (tiEMA 26 values)).length = values.length - 25 := by
    simp only [List.length_zipWith, List.length_drop, h12, h26]
    omega
  have hs := length_tiEMA 9 (List.zipWith (fun f s => f - s) ((tiEMA 12 values).drop (26 - 12))
      (tiEMA 26 values)) (by norm_num) (by omega)
  simp only [tiMACD, List.length_zipWith, List.length_drop, hs, hm]
  omega

theorem ne_nil_of_length_pos' {α : Type} (l : List α) (h : 0 < l.length) : l ≠ [] := by
  intro h0
  rw [h0] at h
  simp at h

/-- On at least 200 closes the library of the specification returns all the
series that `analyze` reads. -/
theorem analyze_tiLib_ok (cs : List Candle) (timeframe : String) (hlen : 200 ≤ cs.length) :
    ∃ rep, analyze tiLib (some cs) timeframe = .ok rep := by
  have hl : (cs.map (fun c => c.close)).length = cs.length := List.length_map _ _
  apply analyze_ok_of_series tiLib cs timeframe hlen
  · exact ne_nil_of_length_pos' _ (by
      rw [show tiLib.EMA = tiEMA from rfl, length_tiEMA 9 _ (by norm_num) (by omega)]; omega)
  · exact ne_nil_of_length_pos' _ (by
      rw [show tiLib.EMA = tiEMA from rfl, length_tiEMA 21 _ (by norm_num) (by omega)]; omega)
  · exact ne_nil_of_length_pos' _ (by
      rw [show tiLib.EMA = tiEMA from rfl, length_tiEMA 50 _ (by norm_num) (by omega)]; omega)
  · exact ne_nil_of_length_pos' _ (by
      rw [show tiLib.EMA = tiEMA from rfl, length_tiEMA 200 _ (by norm_num) (by omega)]; omega)
  · exact ne_nil_of_length_pos' _ (by
      rw [show tiLib.RSI = tiRSI from rfl, length_tiRSI 14 _ (by norm_num) (by omega)]; omega)
  · rw [show tiLib.MACD = tiMACD from rfl, length_tiMACD _ (by omega)]
    omega

theorem changes_pos_of_chain (xs : List ℚ) (h : List.Chain' (fun a b => a < b) xs) :
    ∀ d ∈ changes xs, 0 < d := by
  induction xs with
  | nil => intro d hd; simp [changes] at hd
  | cons a rest ih =>
    cases rest with
    | nil => intro d hd; simp [changes] at hd
    | cons b rest =>
      intro d hd
      simp only [changes, List.mem_cons] at hd
      rw [List.chain'_cons] at h
      rcases hd with hd | hd
      · rw [hd]
        linarith [h.1]
      · exact ih h.2 d hd

theorem sum_eq_zero_of_all_zero (xs : List ℚ) (h : ∀ x ∈ xs, x = 0) : xs.sum = 0 := by
  induction xs with
  | nil => rfl
  | cons x xs ih =>
    rw [List.sum_cons, h x (List.mem_cons_self _ _),
      ih (fun y hy => h y (List.mem_cons_of_mem _ hy)), add_zero]

theorem wilderFrom_zero (period : ℕ) (xs : List ℚ) (h : ∀ x ∈ xs, x = 0) :
    ∀ y ∈ wilderFrom period 0 xs, y = 0 := by
  induction xs with
  | nil => intro y hy; simp [wilderFrom] at hy
  | cons x xs ih =>
    have hx : x = 0 := h x (List.mem_cons_self _ _)
    have hstep : ((0 : ℚ) * ((period : ℚ) - 1) + x) / period = 0 := by
      rw [hx]; simp
    intro y hy
    simp only [wilderFrom, hstep, List.mem_cons] at hy
    rcases hy with hy | hy
    · exact hy
    · exact ih (fun z hz => h z (List.mem_cons_of_mem _ hz)) y hy

theorem wilder_zero (period : ℕ) (xs : List ℚ) (h : ∀ x ∈ xs, x = 0) :
    ∀ y ∈ wilder period xs, y = 0 := by
  intro y hy
  unfold wilder at hy
  split_ifs at hy with hc
  · simp at hy
  · have hseed : (xs.take period).sum / (period : ℚ) = 0 := by
      rw [sum_eq_zero_of_all_zero _ (fun z hz => h z (List.mem_of_mem_take hz))]
      simp
    simp only [hseed, List.mem_cons] at hy
    rcases hy with hy | hy
    · exact hy
    · exact wilderFrom_zero period _ (fun z hz => h z (List.mem_of_mem_drop hz)) y hy

theorem zipWith_rsiValue_no_loss (gains losses : List ℚ) (h : ∀ z ∈ losses, z = 0) :
    ∀ v ∈ List.zipWith rsiValue gains losses, v = 100 := by
  induction gains generalizing losses with
  | nil => intro v hv; simp at hv
  | cons g gs ih =>
    cases losses with
    | nil => intro v hv; simp at hv
    | cons z zs =>
      intro v hv
      simp only [List.zipWith_cons_cons, List.mem_cons] at hv
      rcases hv with hv | hv
      · rw [hv, h z (List.mem_cons_self _ _)]
        simp [rsiValue]
      · exact ih zs (fun w hw => h w (List.mem_cons_of_mem _ hw)) v hv

/-- With no falling close the oscillator of the specification is 100 throughout. -/
theorem tiRSI_no_loss (period : ℕ) (values : List ℚ) (h : ∀ d ∈ changes values, 0 ≤ d) :
    ∀ v ∈ tiRSI period values, v = 100 := by
  apply zipWith_rsiValue_no_loss
  apply wilder_zero
  intro x hx
  obtain ⟨d, hd, rfl⟩ := List.mem_map.1 hx
  exact max_eq_right (by linarith [h d hd])

theorem round_hundred : round 100 2 = 100 := by
  decide!

theorem calcRSI_tiLib_no_loss (closes : List ℚ) (r : RSIResult)
    (h : ∀ d ∈ changes closes, 0 ≤ d) (hr : calcRSI tiLib closes 14 = .ok r) :
    r = { value := 100, signal := "overbought" } := by
  simp only [calcRSI] at hr
  split at hr
  · rename_i v hv
    have hv100 : v = 100 := tiRSI_no_loss 14 closes h v (List.mem_of_getLast?_eq_some hv)
    simp only [Except.ok.injEq] at hr
    subst hr
    rw [hv100, round_hundred]
    simp [rsiSignal]
    norm_num
  · simp at hr

theorem maximum_lt_maximum (A B : List ℚ) (hA : A ≠ []) (hB : B ≠ [])
    (h : ∀ a ∈ A, ∀ b ∈ B, a < b) : A.maximum < B.maximum := by
  obtain ⟨a, ha⟩ := WithBot.ne_bot_iff_exists.1 (List.maximum_ne_bot_of_ne_nil hA)
  obtain ⟨b, hb⟩ := WithBot.ne_bot_iff_exists.1 (List.maximum_ne_bot_of_ne_nil hB)
  rw [← ha, ← hb, WithBot.coe_lt_coe]
  exact h a (List.maximum_mem ha.symm) b (List.maximum_mem hb.symm)

theorem minimum_lt_minimum (A B : List ℚ) (hA : A ≠ []) (hB : B ≠ [])
    (h : ∀ a ∈ A, ∀ b ∈ B, a < b) : A.minimum < B.minimum := by
  obtain ⟨a, ha⟩ := WithTop.ne_top_iff_exists.1 (List.minimum_ne_top_of_ne_nil hA)
  obtain ⟨b, hb⟩ := WithTop.ne_top_iff_exists.1 (List.minimum_ne_top_of_ne_nil hB)
  rw [← ha, ← hb, WithTop.coe_lt_coe]
  exact h a (List.minimum_mem ha.symm) b (List.minimum_mem hb.symm)

theorem halves_increasing (xs : List ℚ) (hlen : 20 ≤ xs.length)
    (hc : List.Chain' (fun a b : ℚ => a < b) xs) :
    (sliceLast 20 xs).take 10 ≠ [] ∧ (sliceLast 20 xs).drop 10 ≠ [] ∧
    ∀ a ∈ (sliceLast 20 xs).take 10, ∀ b ∈ (sliceLast 20 xs).drop 10, a < b := by
  have hp : List.Pairwise (fun a b : ℚ => a < b) xs := List.chain'_iff_pairwise.1 hc
  have hs : List.Pairwise (fun a b : ℚ => a < b) (sliceLast 20 xs) :=
    List.Pairwise.sublist (List.drop_sublist _ _) hp
  rw [← List.take_append_drop 10 (sliceLast 20 xs), List.pairwise_append] at hs
  refine ⟨?_, ?_, hs.2.2⟩
  · apply ne_nil_of_length_pos'
    simp only [sliceLast, List.length_take, List.length_drop]
    omega
  · apply ne_nil_of_length_pos'
    simp only [sliceLast, List.length_drop]
    omega

/-- Strictly rising highs and lows are an uptrend. -/
theorem detectTrendStructure_increasing (highs lows : List ℚ)
    (hh : 20 ≤ highs.length) (hl : 20 ≤ lows.length)
    (ch : List.Chain' (fun a b : ℚ => a < b) highs)
    (cl : List.Chain' (fun a b : ℚ => a < b) lows) :
    detectTrendStructure highs lows = "uptrend (HH + HL)" := by
  obtain ⟨h1, h2, h3⟩ := halves_increasing highs hh ch
  obtain ⟨l1, l2, l3⟩ := halves_increasing lows hl cl
  have hmax := maximum_lt_maximum _ _ h1 h2 h3
  have hmin := minimum_lt_minimum _ _ l1 l2 l3
  simp only [detectTrendStructure, jsMax_eq_maximum, jsMin_eq_minimum, Nat.reduceDiv, gt_iff_lt,
    hmax, hmin, decide_True, Bool.and_self, if_true]

theorem classifyBias_uptrend_overbought (a : BiasInput) (ht : a.trend = "uptrend (HH + HL)")
    (hr : a.rsi = { value := 100, signal := "overbought" }) :
    (classifyBias a = "Bullish" ↔
      a.price > a.ema50 ∧ a.price > a.ema200 ∧ a.macd.histogram > 0) ∧
    (classifyBias a = "Bullish" ∨ classifyBias a = "Neutral / Wait") := by
  have hu : includes "uptrend (HH + HL)" "uptrend" = true := by decide
  have hd : includes "uptrend (HH + HL)" "downtrend" = false := by decide
  have hm1 : ¬ ((100 : ℚ) > 50 ∧ ("overbought" : String) ≠ "overbought") := by
    rintro ⟨-, h⟩; exact h rfl
  have hm2 : ¬ ((100 : ℚ) < 50 ∧ ("overbought" : String) ≠ "oversold") := by
    rintro ⟨h, -⟩; norm_num at h
  simp only [classifyBias, biasScores_eq, bullVotes, bearVotes, ht, hr, hu, hd, if_neg hm1,
    if_neg hm2, if_true, Bool.false_eq_true, if_false]
  by_cases h1 : a.price > a.ema50 <;> by_cases h2 : a.price > a.ema200 <;>
    by_cases h3 : a.macd.histogram > 0 <;> simp [h1, h2, h3]

theorem strictlyIncreasing_iff_chain (xs : List ℚ) :
    strictlyIncreasing xs = true ↔ List.Chain' (fun a b : ℚ => a < b) xs := by
  induction xs with
  | nil => simp [strictlyIncreasing]
  | cons a rest ih =>
    cases rest with
    | nil => simp [strictlyIncreasing]
    | cons b rest =>
      rw [List.chain'_cons, ← ih]
      simp [strictlyIncreasing]

theorem strictlyIncreasing_map_range' (f : ℕ → ℚ) (hf : ∀ i, f i < f (i + 1)) (s n : ℕ) :
    strictlyIncreasing ((List.range' s n).map f) = true := by
  induction n generalizing s with
  | zero => rfl
  | succ n ih =>
    cases n with
    | zero => rfl
    | succ n =>
      have h2 := ih (s + 1)
      simp only [List.range'_succ, List.map_cons, strictlyIncreasing, Bool.and_eq_true,
        decide_eq_true_eq] at h2 ⊢
      exact ⟨hf s, h2⟩

theorem strictlyIncreasing_map_range (f : ℕ → ℚ) (hf : ∀ i, f i < f (i + 1)) (n : ℕ) :
    strictlyIncreasing ((List.range n).map f) = true := by
  rw [List.range_eq_range']
  exact strictlyIncreasing_map_range' f hf 0 n

theorem rampCandles_increasing :
    strictlyIncreasing (rampCandles.map (fun c => c.close)) = true ∧
    strictlyIncreasing (rampCandles.map (fun c => c.high)) = true ∧
    strictlyIncreasing (rampCandles.map (fun c => c.low)) = true := by
  simp only [rampCandles, List.map_map, Function.comp_def]
  refine ⟨?_, ?_, ?_⟩ <;>
    exact strictlyIncreasing_map_range _ (fun i => by push_cast; linarith) 220

theorem slowRampCandles_increasing :
    strictlyIncreasing (slowRampCandles.map (fun c => c.close)) = true ∧
    strictlyIncreasing (slowRampCandles.map (fun c => c.high)) = true ∧
    strictlyIncreasing (slowRampCandles.map (fun c => c.low)) = true := by
  simp only [slowRampCandles, List.map_map, Function.comp_def]
  refine ⟨?_, ?_, ?_⟩ <;>
    exact strictlyIncreasing_map_range _ (fun i => by push_cast; linarith) 220

theorem accelCandles_increasing :
    strictlyIncreasing (accelCandles.map (fun c => c.close)) = true ∧
    strictlyIncreasing (accelCandles.map (fun c => c.high)) = true ∧
    strictlyIncreasing (accelCandles.map (fun c => c.low)) = true := by
  simp only [accelCandles, List.map_map, Function.comp_def]
  refine ⟨?_, ?_, ?_⟩ <;>
    exact strictlyIncreasing_map_range _ (fun i => by
      have : (0 : ℚ) ≤ (i : ℚ) := Nat.cast_nonneg i
      push_cast
      nlinarith) 220

set_option maxRecDepth 100000 in
/-- C12 (as the specification states it) fails.  On the ramp 100, 101, ..., 319
(closes, highs and lows strictly increasing) the trend is an uptrend, but the
momentum oscillator is 100, hence `overbought` and not a bull vote, the
histogram is 0, hence not a bull vote, and the bias is `Neutral / Wait`.  On
the slow ramp the price 100.005119 is below the reported averages 100.01, so
the two price votes are not bull votes either. -/
theorem increasing_series_not_bullish :
    rampCandles.length = 220 ∧
    strictlyIncreasing (rampCandles.map (fun c => c.close)) = true ∧
    strictlyIncreasing (rampCandles.map (fun c => c.high)) = true ∧
    strictlyIncreasing (rampCandles.map (fun c => c.low)) = true ∧
    (analyze tiLib (some rampCandles) "1H").toOption.map
      (fun r => (r.struct.trend, r.indicators.rsi, r.indicators.macd.histogram, r.bias)) =
      some ("uptrend (HH + HL)", ⟨100, "overbought"⟩, 0, "Neutral / Wait") ∧
    slowRampCandles.length = 220 ∧
    strictlyIncreasing (slowRampCandles.map (fun c => c.close)) = true ∧
    strictlyIncreasing (slowRampCandles.map (fun c => c.high)) = true ∧
    strictlyIncreasing (slowRampCandles.map (fun c => c.low)) = true ∧
    (analyze tiLib (some slowRampCandles) "1H").toOption.map
      (fun r => (r.currentPrice, r.indicators.ema.ema50, r.indicators.ema.ema200, r.bias)) =
      some (100005119 / 1000000, cent 10001, cent 10001, "Neutral / Wait") := by
  refine ⟨by simp [rampCandles], rampCandles_increasing.1, rampCandles_increasing.2.1,
    rampCandles_increasing.2.2, by decide!, by simp [slowRampCandles],
    slowRampCandles_increasing.1, slowRampCandles_increasing.2.1,
    slowRampCandles_increasing.2.2, by decide!⟩

/-- C12 (amended): for every 220-candle series whose closes, highs and lows are
strictly increasing, `analyze` over the library of the specification returns a
report and classifies the trend as `uptrend (HH + HL)`;
the momentum oscillator is 100, so its signal is `overbought` and it casts no
bull vote; the bias is `Bullish` exactly when the price is above the reported
`ema50` and `ema200` and the reported histogram is positive, and
`Neutral / Wait` otherwise. -/
theorem analyze_increasing_series (cs : List Candle) (timeframe : String)
    (hlen : cs.length = 220)
    (hc : strictlyIncreasing (cs.map (fun c => c.close)) = true)
    (hh : strictlyIncreasing (cs.map (fun c => c.high)) = true)
    (hl : strictlyIncreasing (cs.map (fun c => c.low)) = true) :
    ∃ rep, analyze tiLib (some cs) timeframe = .ok rep ∧
      rep.struct.trend = "uptrend (HH + HL)" ∧
      rep.indicators.rsi = { value := 100, signal := "overbought" } ∧
      (rep.bias = "Bullish" ↔
        rep.currentPrice > rep.indicators.ema.ema50 ∧
        rep.currentPrice > rep.indicators.ema.ema200 ∧
        rep.indicators.macd.histogram > 0) ∧
      (rep.bias = "Bullish" ∨ rep.bias = "Neutral / Wait") := by
  obtain ⟨rep, hrep⟩ := analyze_tiLib_ok cs timeframe (by omega)
  obtain ⟨cs', hcs, -, -, -, -, -, -, hrsi, -, -, -, htrend, -⟩ := analyze_ok_fields _ _ _ _ hrep
  simp only [Option.some.injEq] at hcs
  subst hcs
  have ht : rep.struct.trend = "uptrend (HH + HL)" := by
    rw [htrend]
    exact detectTrendStructure_increasing _ _ (by simp only [List.length_map]; omega)
      (by simp only [List.length_map]; omega) ((strictlyIncreasing_iff_chain _).1 hh)
      ((strictlyIncreasing_iff_chain _).1 hl)
  have hr : rep.indicators.rsi = { value := 100, signal := "overbought" } :=
    calcRSI_tiLib_no_loss _ _
      (fun d hd => le_of_lt (changes_pos_of_chain _ ((strictlyIncreasing_iff_chain _).1 hc)
        d hd)) hrsi
  have hb := analyze_ok_bias _ _ _ _ hrep
  have hcl := classifyBias_uptrend_overbought (biasInputOf rep) ht hr
  rw [← hb] at hcl
  exact ⟨rep, hrep, ht, hr, hcl.1, hcl.2⟩

set_option maxRecDepth 100000 in
/-- Witness for C12 (amended): the accelerating series is strictly increasing
and its report is `Bullish` with an `overbought` momentum of 100. -/
theorem analyze_increasing_series_witness :
    accelCandles.length = 220 ∧
    (∃ rep, analyze tiLib (some accelCandles) "1H" = .ok rep ∧
      rep.struct.trend = "uptrend (HH + HL)" ∧
      rep.indicators.rsi = { value := 100, signal := "overbought" }) ∧
    (analyze tiLib (some accelCandles) "1H").toOption.map (fun r => r.bias) =
      some "Bullish" := by
  obtain ⟨rep, h1, h2, h3, -⟩ := analyze_increasing_series accelCandles "1H"
    (by simp [accelCandles]) accelCandles_increasing.1 accelCandles_increasing.2.1
    accelCandles_increasing.2.2
  exact ⟨by simp [accelCandles], ⟨rep, h1, h2, h3⟩, by decide!⟩

theorem sum_of_all_eq (xs : List ℚ) (c : ℚ) (h : ∀ x ∈ xs, x = c) :
    xs.sum = (xs.length : ℚ) * c := by
  induction xs with
  | nil => simp
  | cons x xs ih =>
    rw [List.sum_cons, h x (List.mem_cons_self _ _),
      ih (fun y hy => h y (List.mem_cons_of_mem _ hy)), List.length_cons]
    push_cast
    ring

theorem emaFrom_const (k c : ℚ) (vs : List ℚ) (h : ∀ v ∈ vs, v = c) :
    ∀ y ∈ emaFrom k c vs, y = c := by
  induction vs with
  | nil => intro y hy; simp [emaFrom] at hy
  | cons v vs ih =>
    have hv : v = c := h v (List.mem_cons_self _ _)
    have hstep : (v - c) * k + c = c := by rw [hv]; ring
    intro y hy
    simp only [emaFrom, hstep, List.mem_cons] at hy
    rcases hy with hy | hy
    · exact hy
    · exact ih (fun z hz => h z (List.mem_cons_of_mem _ hz)) y hy

/-- The exponential average of a constant series is that constant. -/
theorem tiEMA_const (period : ℕ) (c : ℚ) (xs : List ℚ) (h : ∀ x ∈ xs, x = c) :
    ∀ y ∈ tiEMA period xs, y = c := by
  intro y hy
  unfold tiEMA at hy
  split_ifs at hy with hc
  · simp at hy
  · have hp : period ≠ 0 := fun h0 => hc (Or.inl h0)
    have hlen : (xs.take period).length = period := by
      rw [List.length_take]
      omega
    have hseed : (xs.take period).sum / (period : ℚ) = c := by
      rw [sum_of_all_eq _ c (fun z hz => h z (List.mem_of_mem_take hz)), hlen]
      field_simp
    simp only [hseed, List.mem_cons] at hy
    rcases hy with hy | hy
    · exact hy
    · exact emaFrom_const _ c _ (fun z hz => h z (List.mem_of_mem_drop hz)) y hy

theorem zipWith_sub_const (A B : List ℚ) (c : ℚ) (hA : ∀ a ∈ A, a = c) (hB : ∀ b ∈ B, b = c) :
    ∀ m ∈ List.zipWith (fun f s => f - s) A B, m = 0 := by
  induction A generalizing B with
  | nil => intro m hm; simp at hm
  | cons a A ih =>
    cases B with
    | nil => intro m hm; simp at hm
    | cons b B =>
      intro m hm
      simp only [List.zipWith_cons_cons, List.mem_cons] at hm
      rcases hm with hm | hm
      · rw [hm, hA a (List.mem_cons_self _ _), hB b (List.mem_cons_self _ _), sub_self]
      · exact ih B (fun x hx => hA x (List.mem_cons_of_mem _ hx))
          (fun x hx => hB x (List.mem_cons_of_mem _ hx)) m hm

theorem zipWith_rows_zero (M S : List ℚ) (hM : ∀ m ∈ M, m = 0) (hS : ∀ s ∈ S, s = 0) :
    ∀ r ∈ List.zipWith (fun m s =>
        ({ MACD := m, signal := if s = 0 then none else some s, histogram := m - s } : MACDRow))
      M S, r = { MACD := 0, signal := none, histogram := 0 } := by
  induction M generalizing S with
  | nil => intro r hr; simp at hr
  | cons m M ih =>
    cases S with
    | nil => intro r hr; simp at hr
    | cons s S =>
      intro r hr
      simp only [List.zipWith_cons_cons, List.mem_cons] at hr
      rcases hr with hr | hr
      · rw [hr, hM m (List.mem_cons_self _ _), hS s (List.mem_cons_self _ _), sub_self, if_pos rfl]
      · exact ih S (fun x hx => hM x (List.mem_cons_of_mem _ hx))
          (fun x hx => hS x (List.mem_cons_of_mem _ hx)) r hr

/-- On a constant series every row of the oscillator is zero, and carries no
signal. -/
theorem tiMACD_const (fast slow signal : ℕ) (c : ℚ) (xs : List ℚ) (h : ∀ x ∈ xs, x = c) :
    ∀ r ∈ tiMACD fast slow signal xs, r = { MACD := 0, signal := none, histogram := 0 } := by
  have hline : ∀ m ∈ List.zipWith (fun f s => f - s) ((tiEMA fast xs).drop (slow - fast))
      (tiEMA slow xs), m = 0 :=
    zipWith_sub_const _ _ c
      (fun a ha => tiEMA_const fast c xs h a (List.mem_of_mem_drop ha))
      (tiEMA_const slow c xs h)
  unfold tiMACD
  exact zipWith_rows_zero _ _ (fun m hm => hline m (List.mem_of_mem_drop hm))
    (tiEMA_const signal 0 _ hline)

theorem changes_const (xs : List ℚ) (c : ℚ) (h : ∀ x ∈ xs, x = c) :
    ∀ d ∈ changes xs, d = 0 := by
  induction xs with
  | nil => intro d hd; simp [changes] at hd
  | cons a rest ih =>
    cases rest with
    | nil => intro d hd; simp [changes] at hd
    | cons b rest =>
      intro d hd
      simp only [changes, List.mem_cons] at hd
      rcases hd with hd | hd
      · rw [hd, h a (List.mem_cons_self _ _), h b (List.mem_cons_of_mem _ (List.mem_cons_self _ _)),
          sub_self]
      · exact ih (fun x hx => h x (List.mem_cons_of_mem _ hx)) d hd

theorem maximum_const (l : List ℚ) (c : ℚ) (hne : l ≠ []) (h : ∀ x ∈ l, x = c) :
    l.maximum = (c : WithBot ℚ) := by
  rw [List.maximum_eq_coe_iff]
  obtain ⟨x, hx⟩ := List.exists_mem_of_ne_nil l hne
  exact ⟨by rw [← h x hx]; exact hx, fun a ha => le_of_eq (h a ha)⟩

theorem minimum_const (l : List ℚ) (c : ℚ) (hne : l ≠ []) (h : ∀ x ∈ l, x = c) :
    l.minimum = (c : WithTop ℚ) := by
  rw [List.minimum_eq_coe_iff]
  obtain ⟨x, hx⟩ := List.exists_mem_of_ne_nil l hne
  exact ⟨by rw [← h x hx]; exact hx, fun a ha => le_of_eq (h a ha).symm⟩

/-- Constant highs and lows are a range. -/
theorem detectTrendStructure_const (highs lows : List ℚ) (c : ℚ)
    (hh : 20 ≤ highs.length) (hl : 20 ≤ lows.length)
    (ch : ∀ x ∈ highs, x = c) (cl : ∀ x ∈ lows, x = c) :
    detectTrendStructure highs lows = "ranging / consolidation" := by
  have n1 : (sliceLast 20 highs).take 10 ≠ [] := by
    apply ne_nil_of_length_pos'
    simp only [sliceLast, List.length_take, List.length_drop]; omega
  have n2 : (sliceLast 20 highs).drop 10 ≠ [] := by
    apply ne_nil_of_length_pos'
    simp only [sliceLast, List.length_drop]; omega
  have n3 : (sliceLast 20 lows).take 10 ≠ [] := by
    apply ne_nil_of_length_pos'
    simp only [sliceLast, List.length_take, List.length_drop]; omega
  have n4 : (sliceLast 20 lows).drop 10 ≠ [] := by
    apply ne_nil_of_length_pos'
    simp only [sliceLast, List.length_drop]; omega
  have m1 := maximum_const _ c n1
    (fun x hx => ch x (List.mem_of_mem_drop (List.mem_of_mem_take hx)))
  have m2 := maximum_const _ c n2
    (fun x hx => ch x (List.mem_of_mem_drop (List.mem_of_mem_drop hx)))
  have m3 := minimum_const _ c n3
    (fun x hx => cl x (List.mem_of_mem_drop (List.mem_of_mem_take hx)))
  have m4 := minimum_const _ c n4
    (fun x hx => cl x (List.mem_of_mem_drop (List.mem_of_mem_drop hx)))
  have e1 : (sliceLast 20 highs).take (20 / 2) = (sliceLast 20 highs).take 10 := rfl
  have e2 : (sliceLast 20 highs).drop (20 / 2) = (sliceLast 20 highs).drop 10 := rfl
  have e3 : (sliceLast 20 lows).take (20 / 2) = (sliceLast 20 lows).take 10 := rfl
  have e4 : (sliceLast 20 lows).drop (20 / 2) = (sliceLast 20 lows).drop 10 := rfl
  simp only [detectTrendStructure, jsMax_eq_maximum, jsMin_eq_minimum, e1, e2, e3, e4, m1, m2,
    m3, m4, gt_iff_lt, lt_self_iff_false, decide_False, Bool.and_self, Bool.false_eq_true,
    if_false]

theorem round_zero : round 0 2 = 0 := by
  decide!

theorem calcMACD_tiLib_const (closes : List ℚ) (c : ℚ) (m : MACDResult)
    (h : ∀ x ∈ closes, x = c) (hm : calcMACD tiLib closes = .ok m) :
    m = { macd := 0, signal := .nan, histogram := 0, crossover := "bearish" } := by
  simp only [calcMACD] at hm
  split at hm
  · simp at hm
  · rename_i last hlast
    have hl : last = { MACD := 0, signal := none, histogram := 0 } :=
      tiMACD_const 12 26 9 c closes h last (List.mem_of_getLast?_eq_some hlast)
    subst hl
    have hcross : ∀ prev, macdCrossover 0 prev = .ok "bearish" := by
      intro prev
      simp [macdCrossover]
    simp only [hcross, round_zero, Except.ok.injEq] at hm
    exact hm.symm

theorem classifyBias_flat (a : BiasInput) (ht : a.trend = "ranging / consolidation")
    (hr : a.rsi = { value := 100, signal := "overbought" }) (hh : a.macd.histogram = 0) :
    classifyBias a = "Neutral / Wait" := by
  have hu : includes "ranging / consolidation" "uptrend" = false := by decide
  have hd : includes "ranging / consolidation" "downtrend" = false := by decide
  have hm1 : ¬ ((100 : ℚ) > 50 ∧ ("overbought" : String) ≠ "overbought") := by
    rintro ⟨-, h⟩; exact h rfl
  have hm2 : ¬ ((100 : ℚ) < 50 ∧ ("overbought" : String) ≠ "oversold") := by
    rintro ⟨h, -⟩; norm_num at h
  have h0 : ¬ ((0 : ℚ) > 0) := lt_irrefl 0
  simp only [classifyBias, biasScores_eq, bullVotes, bearVotes, ht, hr, hh, hu, hd, if_neg hm1,
    if_neg hm2, if_neg h0, Bool.false_eq_true, if_false]
  by_cases h1 : a.price > a.ema50 <;> by_cases h2 : a.price > a.ema200 <;> simp [h1, h2]

set_option maxRecDepth 100000 in
/-- C13 (as the specification states it) fails: on the flat series at price 100
no close falls, so the momentum oscillator is 100 and `rsi.signal` is
`overbought`, not `neutral` (the histogram is 0 and the bias `Neutral / Wait`). -/
theorem flat_series_rsi_not_neutral :
    flatCandles 100 =
      (List.range 220).map (fun (i : ℕ) =>
        { time := (i : ℤ), open_ := 100, high := 100, low := 100, close := 100, volume := 10 }) ∧
    (analyze tiLib (some (flatCandles 100)) "1H").toOption.map
      (fun r => (r.indicators.rsi, r.indicators.macd.histogram, r.bias)) =
      some (⟨100, "overbought"⟩, 0, "Neutral / Wait") ∧
    ("overbought" : String) ≠ "neutral" := by
  refine ⟨rfl, by decide!, by decide⟩

/-- C13 (amended): for every 220-candle series with a constant price
(open = high = low = close), `analyze` over the library of the specification
returns a report with a momentum value of 100 and `rsi.signal = 'overbought'`
(no close falls), `macd.histogram = 0`, `macd.macd = 0`, `macd.signal = NaN`
(the signal line is 0 and the library row carries no signal) and
`bias = 'Neutral / Wait'`. -/
theorem analyze_flat_series (cs : List Candle) (timeframe : String) (p : ℚ)
    (hlen : cs.length = 220)
    (hflat : ∀ c ∈ cs, c.open_ = p ∧ c.high = p ∧ c.low = p ∧ c.close = p) :
    ∃ rep, analyze tiLib (some cs) timeframe = .ok rep ∧
      rep.indicators.rsi = { value := 100, signal := "overbought" } ∧
      rep.indicators.macd.histogram = 0 ∧
      rep.indicators.macd.macd = 0 ∧ rep.indicators.macd.signal = .nan ∧
      rep.bias = "Neutral / Wait" := by
  obtain ⟨rep, hrep⟩ := analyze_tiLib_ok cs timeframe (by omega)
  obtain ⟨cs', hcs, -, -, -, -, -, -, hrsi, hmacd, -, -, htrend, -⟩ :=
    analyze_ok_fields _ _ _ _ hrep
  simp only [Option.some.injEq] at hcs
  subst hcs
  have hclose : ∀ x ∈ cs.map (fun c => c.close), x = p := by
    intro x hx
    obtain ⟨c, hc, rfl⟩ := List.mem_map.1 hx
    exact (hflat c hc).2.2.2
  have hhigh : ∀ x ∈ cs.map (fun c => c.high), x = p := by
    intro x hx
    obtain ⟨c, hc, rfl⟩ := List.mem_map.1 hx
    exact (hflat c hc).2.1
  have hlow : ∀ x ∈ cs.map (fun c => c.low), x = p := by
    intro x hx
    obtain ⟨c, hc, rfl⟩ := List.mem_map.1 hx
    exact (hflat c hc).2.2.1
  have hr : rep.indicators.rsi = { value := 100, signal := "overbought" } :=
    calcRSI_tiLib_no_loss _ _
      (fun d hd => le_of_eq (changes_const _ p hclose d hd).symm) hrsi
  have hm := calcMACD_tiLib_const _ p _ hclose hmacd
  have hh : rep.indicators.macd.histogram = 0 := by rw [hm]
  have ht : rep.struct.trend = "ranging / consolidation" := by
    rw [htrend]
    exact detectTrendStructure_const _ _ p (by simp only [List.length_map]; omega)
      (by simp only [List.length_map]; omega) hhigh hlow
  have hb := analyze_ok_bias _ _ _ _ hrep
  exact ⟨rep, hrep, hr, hh, by rw [hm], by rw [hm],
    by rw [hb]; exact classifyBias_flat _ ht hr hh⟩

set_option maxRecDepth 100000 in
/-- Witness for C13 (amended) on the flat series at price 100. -/
theorem analyze_flat_series_witness :
    (flatCandles 100).length = 220 ∧
    (∀ c ∈ flatCandles 100, c.open_ = 100 ∧ c.high = 100 ∧ c.low = 100 ∧ c.close = 100) ∧
    ∃ rep, analyze tiLib (some (flatCandles 100)) "1H" = .ok rep ∧
      rep.indicators.rsi = { value := 100, signal := "overbought" } ∧
      rep.indicators.macd.histogram = 0 ∧
      rep.indicators.macd.macd = 0 ∧ rep.indicators.macd.signal = .nan ∧
      rep.bias = "Neutral / Wait" := by
  have hflat : ∀ c ∈ flatCandles 100,
      c.open_ = 100 ∧ c.high = 100 ∧ c.low = 100 ∧ c.close = 100 := by
    intro c hc
    simp only [flatCandles, List.mem_map] at hc
    obtain ⟨i, -, rfl⟩ := hc
    exact ⟨rfl, rfl, rfl, rfl⟩
  exact ⟨by simp [flatCandles], hflat,
    analyze_flat_series (flatCandles 100) "1H" 100 (by simp [flatCandles]) hflat⟩

theorem detectTrendStructure_label (highs lows : List ℚ) :
    detectTrendStructure highs lows = "uptrend (HH + HL)" ∨
    detectTrendStructure highs lows = "downtrend (LH + LL)" ∨
    detectTrendStructure highs lows = "volatile / expanding" ∨
    detectTrendStructure highs lows = "ranging / consolidation" := by
  simp only [detectTrendStructure]
  split_ifs <;> simp

theorem trend_votes_exclusive (highs lows : List ℚ) :
    ¬ (includes (detectTrendStructure highs lows) "uptrend" = true ∧
      includes (detectTrendStructure highs lows) "downtrend" = true) := by
  rcases detectTrendStructure_label highs lows with h | h | h | h <;> rw [h] <;> decide

/-- C24: for every input that `analyze` can pass to `classifyBias` (the trend
is a label of `detectTrendStructure`) the two counters satisfy
`3 ≤ bullScore + bearScore ≤ 5`; they never reach 4 together, so testing the
Bearish threshold before the Bullish one gives the same verdict, and a
`Bullish` verdict means that at most one of the five votes is not a bull vote. -/
theorem biasScores_sum_bounds (a : BiasInput) (highs lows : List ℚ)
    (ht : a.trend = detectTrendStructure highs lows) :
    3 ≤ (biasScores a).1 + (biasScores a).2 ∧
    (biasScores a).1 + (biasScores a).2 ≤ 5 ∧
    ¬ ((biasScores a).1 ≥ 4 ∧ (biasScores a).2 ≥ 4) ∧
    classifyBias a = classifyBiasSwapped a ∧
    (classifyBias a = "Bullish" → (biasScores a).1 = bullVotes a ∧ 5 - bullVotes a ≤ 1) := by
  have hx := trend_votes_exclusive highs lows
  rw [← ht] at hx
  have hm : ¬ ((a.rsi.value > 50 ∧ a.rsi.signal ≠ "overbought") ∧
      (a.rsi.value < 50 ∧ a.rsi.signal ≠ "oversold")) := by
    rintro ⟨h1, h2⟩
    linarith [h1.1, h2.1]
  have hsum : 3 ≤ bullVotes a + bearVotes a ∧ bullVotes a + bearVotes a ≤ 5 := by
    unfold bullVotes bearVotes
    split_ifs <;>
      first
        | omega
        | (exfalso; exact hm ⟨by assumption, by assumption⟩)
        | (exfalso; exact hx ⟨by assumption, by assumption⟩)
  have hnb := votes_not_both a
  rw [biasScores_eq]
  refine ⟨hsum.1, hsum.2, hnb, ?_, ?_⟩
  · simp only [classifyBias, classifyBiasSwapped, biasScores_eq]
    by_cases hb : bullVotes a ≥ 4
    · have hb' : ¬ bearVotes a ≥ 4 := fun h => hnb ⟨hb, h⟩
      simp only [hb, hb', if_true, if_false]
    · simp only [hb, if_false]
  · intro hB
    have hb : bullVotes a ≥ 4 := by
      by_contra hb
      simp only [classifyBias, biasScores_eq, hb, if_false] at hB
      split_ifs at hB <;> simp at hB
    exact ⟨rfl, by omega⟩

/-- Witness for C24 on the arguments of the sample report: trend
`ranging / consolidation`, three bull votes and two bear votes. -/
theorem biasScores_sum_bounds_witness :
    (biasInputOf sampleReport).trend =
      detectTrendStructure ((waveCandles 0).map (fun c => c.high))
        ((waveCandles 0).map (fun c => c.low)) ∧
    3 ≤ (biasScores (biasInputOf sampleReport)).1 + (biasScores (biasInputOf sampleReport)).2 ∧
    (biasScores (biasInputOf sampleReport)).1 + (biasScores (biasInputOf sampleReport)).2 ≤ 5 := by
  have ht : (biasInputOf sampleReport).trend =
      detectTrendStructure ((waveCandles 0).map (fun c => c.high))
        ((waveCandles 0).map (fun c => c.low)) := by decide!
  have h := biasScores_sum_bounds (biasInputOf sampleReport) _ _ ht
  exact ⟨ht, h.1, h.2.1⟩

/-- C25: when the price equals `ema50` and `ema200` and the histogram is 0, the
three votes are bear votes: the verdict is never `Bullish`; it is `Bearish`
exactly when the momentum vote is a bear vote (`rsi.value < 50` and not
oversold) or the trend label contains `downtrend`, and `Neutral / Wait`
otherwise. -/
theorem classifyBias_equality_is_bear (a : BiasInput) (h50 : a.price = a.ema50)
    (h200 : a.price = a.ema200) (hh : a.macd.histogram = 0) :
    classifyBias a ≠ "Bullish" ∧
    (classifyBias a = "Bearish" ↔
      (a.rsi.value < 50 ∧ a.rsi.signal ≠ "oversold") ∨ includes a.trend "downtrend" = true) ∧
    (classifyBias a = "Neutral / Wait" ↔
      ¬ ((a.rsi.value < 50 ∧ a.rsi.signal ≠ "oversold") ∨
        includes a.trend "downtrend" = true)) := by
  have e1 : ¬ a.price > a.ema50 := by rw [h50]; exact lt_irrefl _
  have e2 : ¬ a.price > a.ema200 := by rw [h200]; exact lt_irrefl _
  have e3 : ¬ a.macd.histogram > 0 := by rw [hh]; exact lt_irrefl _
  have hbull : bullVotes a ≤ 2 := by
    unfold bullVotes
    rw [if_neg e1, if_neg e2, if_neg e3]
    split_ifs <;> omega
  have hbear : bearVotes a ≥ 4 ↔
      ((a.rsi.value < 50 ∧ a.rsi.signal ≠ "oversold") ∨ includes a.trend "downtrend" = true) := by
    unfold bearVotes
    rw [if_neg e1, if_neg e2, if_neg e3]
    by_cases h5 : (a.rsi.value < 50 ∧ a.rsi.signal ≠ "oversold") <;>
      by_cases h7 : includes a.trend "downtrend" = true
    · rw [if_pos h5, if_pos h7]; simp [h5, h7]
    · rw [if_pos h5, if_neg h7]; simp [h5, h7]
    · rw [if_neg h5, if_pos h7]; simp [h5, h7]
    · rw [if_neg h5, if_neg h7]; simp [h5, h7]
  have hb : ¬ bullVotes a ≥ 4 := by omega
  simp only [classifyBias, biasScores_eq, hb, if_false]
  by_cases h4 : bearVotes a ≥ 4
  · have := hbear.1 h4
    simp [h4, this]
  · have : ¬ ((a.rsi.value < 50 ∧ a.rsi.signal ≠ "oversold") ∨
        includes a.trend "downtrend" = true) := fun h => h4 (hbear.2 h)
    simp only [h4, if_false]
    refine ⟨by decide, ?_, ?_⟩
    · constructor
      · intro h; exact absurd h (by decide)
      · intro h; exact absurd h this
    · constructor
      · intro _; exact this
      · intro _; trivial

/-- Witness for C25: price, averages and histogram in balance with a momentum
of 40 give `Bearish`. -/
theorem classifyBias_equality_is_bear_witness :
    classifyBias
      { price := 100, ema9 := 100, ema21 := 100, ema50 := 100, ema200 := 100,
        rsi := { value := 40, signal := "neutral" },
        macd := { macd := 0, signal := .num 0, histogram := 0, crossover := "bearish" },
        trend := "ranging / consolidation",
        volume := { current := 10, avg20 := 10, ratio := .num 1, signal := "average" } } ≠
      "Bullish" :=
  (classifyBias_equality_is_bear
    { price := 100, ema9 := 100, ema21 := 100, ema50 := 100, ema200 := 100,
      rsi := { value := 40, signal := "neutral" },
      macd := { macd := 0, signal := .num 0, histogram := 0, crossover := "bearish" },
      trend := "ranging / consolidation",
      volume := { current := 10, avg20 := 10, ratio := .num 1, signal := "average" } }
    rfl rfl rfl).1

theorem drop_two_range (n : ℕ) : (List.range n).drop 2 = List.range' 2 (n - 2) := by
  rw [List.range_eq_range']
  cases n with
  | zero => rfl
  | succ n =>
    cases n with
    | zero => rfl
    | succ n =>
      rw [show n + 1 + 1 - 2 = n by omega]
      simp only [List.range'_succ, List.drop_succ_cons, List.drop_zero, Nat.zero_add,
        Nat.reduceAdd]

/-- A predicate that never holds at two indices less than three apart holds at
most once in every block of three consecutive indices. -/
theorem countP_spaced (P : ℕ → Bool)
    (hP : ∀ i, P i = true → P (i + 1) = false ∧ P (i + 2) = false) :
    ∀ n s, (List.range' s n).countP P ≤ (n + 2) / 3 := by
  intro n
  induction n using Nat.strong_induction_on with
  | _ n ih =>
    intro s
    match n, ih with
    | 0, _ => simp
    | 1, _ =>
      simp only [List.range'_succ, List.range'_zero, List.countP_cons, List.countP_nil]
      split_ifs <;> omega
    | 2, _ =>
      simp only [List.range'_succ, List.range'_zero, List.countP_cons, List.countP_nil]
      split_ifs <;>
        first
          | omega
          | (exfalso
             have := (hP s (by assumption)).1
             simp_all)
    | n + 3, ih =>
      by_cases h : P s = true
      · have h1 := (hP s h).1
        have h2 := (hP s h).2
        have := ih n (by omega) (s + 1 + 1 + 1)
        simp only [List.range'_succ, List.countP_cons, h, h1, h2, if_true, Bool.false_eq_true,
          if_false, add_zero]
        omega
      · have := ih (n + 2) (by omega) (s + 1)
        rw [List.range'_succ, List.countP_cons, if_neg h, add_zero]
        omega

theorem jsGt_asymm (a b : Option ℚ) (h : jsGt a b = true) : jsGt b a = false := by
  cases a <;> cases b <;> simp [jsGt] at h ⊢
  exact le_of_lt h

theorem jsLt_asymm (a b : Option ℚ) (h : jsLt a b = true) : jsLt b a = false := by
  cases a <;> cases b <;> simp [jsLt] at h ⊢
  exact le_of_lt h

theorem isPivotHigh_spaced (xs : List ℚ) (i : ℕ) (h : isPivotHigh xs i = true) :
    isPivotHigh xs (i + 1) = false ∧ isPivotHigh xs (i + 2) = false := by
  simp only [isPivotHigh, Bool.and_eq_true] at h
  obtain ⟨⟨⟨-, -⟩, h1⟩, h2⟩ := h
  have a1 := jsGt_asymm _ _ h1
  have a2 := jsGt_asymm _ _ h2
  constructor
  · simp only [isPivotHigh, Nat.add_sub_cancel, a1, Bool.false_and]
  · have e : i + 2 - 2 = i := by omega
    simp only [isPivotHigh, e, a2, Bool.and_false, Bool.false_and]

theorem isPivotLow_spaced (xs : List ℚ) (i : ℕ) (h : isPivotLow xs i = true) :
    isPivotLow xs (i + 1) = false ∧ isPivotLow xs (i + 2) = false := by
  simp only [isPivotLow, Bool.and_eq_true] at h
  obtain ⟨⟨⟨-, -⟩, h1⟩, h2⟩ := h
  have a1 := jsLt_asymm _ _ h1
  have a2 := jsLt_asymm _ _ h2
  constructor
  · simp only [isPivotLow, Nat.add_sub_cancel, a1, Bool.false_and]
  · have e : i + 2 - 2 = i := by omega
    simp only [isPivotLow, e, a2, Bool.and_false, Bool.false_and]

theorem isPivotHigh_none (xs : List ℚ) (i : ℕ) (h : xs[i]? = none) : isPivotHigh xs i = false := by
  simp [isPivotHigh, jsGt, h]

theorem isPivotLow_none (xs : List ℚ) (i : ℕ) (h : xs[i]? = none) : isPivotLow xs i = false := by
  simp [isPivotLow, jsLt, h]

theorem levelsAt_counts (H L : List ℚ) (i : ℕ) :
    (levelsAt H L i).countP (fun l => l.type == "resistance") = (if isPivotHigh H i then 1 else 0) ∧
    (levelsAt H L i).countP (fun l => l.type == "support") = (if isPivotLow L i then 1 else 0) ∧
    (levelsAt H L i).length = (if isPivotHigh H i then 1 else 0) + (if isPivotLow L i then 1 else 0) := by
  unfold levelsAt
  cases hh : H[i]? with
  | none =>
    have e1 := isPivotHigh_none H i hh
    cases hl : L[i]? with
    | none =>
      have e2 := isPivotLow_none L i hl
      simp [e1, e2]
    | some l =>
      by_cases e2 : isPivotLow L i = true
      · simp [e1, e2]
      · simp [e1, e2]
  | some h =>
    by_cases e1 : isPivotHigh H i = true
    · cases hl : L[i]? with
      | none =>
        have e2 := isPivotLow_none L i hl
        simp [e1, e2]
      | some l =>
        by_cases e2 : isPivotLow L i = true
        · simp [e1, e2]
        · simp [e1, e2]
    · cases hl : L[i]? with
      | none =>
        have e2 := isPivotLow_none L i hl
        simp [e1, e2]
      | some l =>
        by_cases e2 : isPivotLow L i = true
        · simp [e1, e2]
        · simp [e1, e2]

theorem flatMap_levelsAt_counts (H L : List ℚ) (l : List ℕ) :
    (l.flatMap (levelsAt H L)).countP (fun l => l.type == "resistance") = l.countP (isPivotHigh H) ∧
    (l.flatMap (levelsAt H L)).countP (fun l => l.type == "support") = l.countP (isPivotLow L) ∧
    (l.flatMap (levelsAt H L)).length = l.countP (isPivotHigh H) + l.countP (isPivotLow L) := by
  induction l with
  | nil => simp
  | cons x xs ih =>
    obtain ⟨a, b, c⟩ := levelsAt_counts H L x
    obtain ⟨ia, ib, ic⟩ := ih
    simp only [List.flatMap_cons, List.countP_append, List.length_append, List.countP_cons, a, b, c,
      ia, ib, ic]
    refine ⟨by omega, by omega, ?_⟩
    split_ifs <;> omega

theorem pivotLevels_counts (H L : List ℚ) :
    (pivotLevels H L).countP (fun l => l.type == "resistance")
      = (List.range' 2 (H.length - 2 - 2)).countP (isPivotHigh H) ∧
    (pivotLevels H L).countP (fun l => l.type == "support")
      = (List.range' 2 (H.length - 2 - 2)).countP (isPivotLow L) ∧
    (pivotLevels H L).length
      = (List.range' 2 (H.length - 2 - 2)).countP (isPivotHigh H)
        + (List.range' 2 (H.length - 2 - 2)).countP (isPivotLow L) := by
  rw [pivotLevels, foldl_append_eq_flatMap, List.nil_append, drop_two_range]
  exact flatMap_levelsAt_counts H L _

theorem length_sliceLast_le {α : Type} (n : ℕ) (xs : List α) : (sliceLast n xs).length ≤ n := by
  simp only [sliceLast, List.length_drop]
  omega

/-- C26: a resistance pivot at index `i` of the scanned window excludes a
resistance pivot at `i + 1` and at `i + 2` (same for support pivots); hence the
level array built by `detectSupportResistance` from the trailing 50 highs and
lows holds at most 16 resistance levels, at most 16 support levels and at most
32 levels in all, and some input attains 16 resistances and 16 supports (32
levels, of which `allLevels` keeps 10). -/
theorem pivotLevels_at_most_sixteen :
    (∀ (xs : List ℚ) (i : ℕ), isPivotHigh xs i = true →
      isPivotHigh xs (i + 1) = false ∧ isPivotHigh xs (i + 2) = false) ∧
    (∀ (xs : List ℚ) (i : ℕ), isPivotLow xs i = true →
      isPivotLow xs (i + 1) = false ∧ isPivotLow xs (i + 2) = false) ∧
    (∀ highs lows : List ℚ,
      (pivotLevels (sliceLast 50 highs) (sliceLast 50 lows)).countP
          (fun l => l.type == "resistance") ≤ 16 ∧
      (pivotLevels (sliceLast 50 highs) (sliceLast 50 lows)).countP
          (fun l => l.type == "support") ≤ 16 ∧
      (pivotLevels (sliceLast 50 highs) (sliceLast 50 lows)).length ≤ 32) ∧
    (pivotLevels (sliceLast 50 zigzagHighs) (sliceLast 50 zigzagLows)).countP
        (fun l => l.type == "resistance") = 16 ∧
    (pivotLevels (sliceLast 50 zigzagHighs) (sliceLast 50 zigzagLows)).countP
        (fun l => l.type == "support") = 16 ∧
    (pivotLevels (sliceLast 50 zigzagHighs) (sliceLast 50 zigzagLows)).length = 32 ∧
    (detectSupportResistance zigzagHighs zigzagLows zigzagHighs).allLevels.length = 10 := by
  refine ⟨isPivotHigh_spaced, isPivotLow_spaced, ?_, ?_⟩
  · intro highs lows
    obtain ⟨a, b, c⟩ := pivotLevels_counts (sliceLast 50 highs) (sliceLast 50 lows)
    have hlen := length_sliceLast_le 50 highs
    have h1 := countP_spaced (isPivotHigh (sliceLast 50 highs)) (isPivotHigh_spaced _)
      ((sliceLast 50 highs).length - 2 - 2) 2
    have h2 := countP_spaced (isPivotLow (sliceLast 50 lows)) (isPivotLow_spaced _)
      ((sliceLast 50 highs).length - 2 - 2) 2
    rw [a, b, c]
    omega
  · obtain ⟨a, b, c⟩ := pivotLevels_counts (sliceLast 50 zigzagHighs) (sliceLast 50 zigzagLows)
    have hlen : (sliceLast 50 zigzagHighs).length - 2 - 2 = 46 := by
      simp [sliceLast, zigzagHighs]
    rw [hlen] at a b c
    have eh : (List.range' 2 46).countP (isPivotHigh (sliceLast 50 zigzagHighs)) = 16 := by
      decide!
    have el : (List.range' 2 46).countP (isPivotLow (sliceLast 50 zigzagLows)) = 16 := by
      decide!
    have hall : (detectSupportResistance zigzagHighs zigzagLows zigzagHighs).allLevels.length
        = min 10 (pivotLevels (sliceLast 50 zigzagHighs) (sliceLast 50 zigzagLows)).length := by
      simp only [detectSupportResistance, List.length_take]
    rw [hall, a, b, c, eh, el]
    exact ⟨rfl, rfl, rfl, rfl⟩

theorem dailyIteration_run {W : Type} (generate : String → String → Job W (Option Signal))
    (saveSignal : Signal → Job W Unit) (signals : List Signal) (entry : String × String) (w : W) :
    (dailyIteration generate saveSignal signals entry).run.run w
      = (.ok (signals ++ (entryOutcome generate saveSignal entry w).1.toList),
          (entryOutcome generate saveSignal entry w).2) := by
  simp only [dailyIteration, entryOutcome, tryCatch, tryCatchThe, MonadExcept.tryCatch,
    MonadExceptOf.tryCatch,
    ExceptT.tryCatch, ExceptT.run_mk, ExceptT.run_bind, StateT.run_bind, ExceptT.run, ExceptT.mk,
    bind, ExceptT.bind, ExceptT.bindCont, StateT.bind, StateT.run, pure, ExceptT.pure, StateT.pure]
  rcases h : generate entry.1 entry.2 w with ⟨(e | (_ | s)), w1⟩
  · simp [StateT.pure, pure]
  · simp [StateT.pure, pure]
  · simp only []
    rcases h2 : saveSignal s w1 with ⟨(e | u), w2⟩
    · simp [StateT.pure, StateT.bind, ExceptT.bindCont, pure, h2]
    · simp [StateT.pure, StateT.bind, ExceptT.bindCont, pure, h2]

theorem generateSignalsOver_run {W : Type} (generate : String → String → Job W (Option Signal))
    (saveSignal : Signal → Job W Unit) (entries : List (String × String)) :
    ∀ (signals : List Signal) (w : W),
      (entries.foldlM (dailyIteration generate saveSignal) signals).run.run w
        = (.ok (signals ++ (keptSignals generate saveSignal entries w).1),
            (keptSignals generate saveSignal entries w).2) := by
  induction entries with
  | nil =>
    intro signals w
    simp [keptSignals, ExceptT.run, StateT.run, pure, ExceptT.pure, ExceptT.mk, StateT.pure]
  | cons entry rest ih =>
    intro signals w
    have h := dailyIteration_run generate saveSignal signals entry w
    simp only [List.foldlM_cons, keptSignals, ExceptT.run_bind, StateT.run_bind, h]
    simp only [bind, pure, ih, List.append_assoc]

theorem entryOutcome_settled {W : Type} (gen : String → String → Except Failure (Option Signal))
    (sv : Signal → Except Failure Unit) (entry : String × String) (w : W) :
    entryOutcome (fun s t => settled (gen s t)) (fun s => settled (sv s)) entry w
      = (keptOf gen sv entry, w) := by
  simp only [entryOutcome, keptOf, settled, ExceptT.run_mk, StateT.run_pure]
  rcases h : gen entry.1 entry.2 with (e | (_ | s))
  · rfl
  · rfl
  · simp only [pure]
    rcases h2 : sv s with (e | u)
    · rfl
    · rfl

theorem keptSignals_settled {W : Type} (gen : String → String → Except Failure (Option Signal))
    (sv : Signal → Except Failure Unit) (entries : List (String × String)) (w : W) :
    keptSignals (fun s t => settled (gen s t)) (fun s => settled (sv s)) entries w
      = (entries.filterMap (keptOf gen sv), w) := by
  induction entries with
  | nil => rfl
  | cons entry rest ih =>
    simp only [keptSignals, entryOutcome_settled, ih, List.filterMap_cons]
    cases keptOf gen sv entry <;> rfl

/-- C21: `generateDailySignals` always returns normally, for every behaviour of
the awaited generation and save steps and from every world: its result is the
list of the signals of those watchlist entries whose generation returned a
non-null signal and whose save succeeded, in watchlist order, each entry being
processed after its predecessor whatever the predecessor's outcome (null,
thrown failure or saved signal). In particular, when the outcomes of
`generateSignalForAsset` and of the save are given per entry, the result is the
watchlist filtered by "generated non-null and saved". -/
theorem generateDailySignals_never_fails :
    (∀ (W : Type) (generate : String → String → Job W (Option Signal))
        (saveSignal : Signal → Job W Unit) (w : W),
      (generateDailySignals generate saveSignal).run.run w
        = (.ok (keptSignals generate saveSignal WATCHLIST w).1,
            (keptSignals generate saveSignal WATCHLIST w).2)) ∧
    (∀ (W : Type) (env : Env) (sv : Signal → Except Failure Unit) (w : W),
      (generateDailySignals (fun s t => settled (generateSignalForAsset env s t))
          (fun s => settled (sv s))).run.run w
        = (.ok (WATCHLIST.filterMap (keptOf (generateSignalForAsset env) sv)), w)) ∧
    WATCHLIST.map Prod.fst = ["BTCUSDT", "ETHUSDT", "SOLUSDT", "BNBUSDT"] := by
  refine ⟨?_, ?_, rfl⟩
  · intro W generate saveSignal w
    have h := generateSignalsOver_run generate saveSignal WATCHLIST [] w
    rw [List.nil_append] at h
    exact h
  · intro W env sv w
    have h := generateSignalsOver_run (fun s t => settled (generateSignalForAsset env s t))
      (fun s => settled (sv s)) WATCHLIST [] w
    rw [List.nil_append, keptSignals_settled] at h
    exact h

/-- C22: the code lets a status regress. On a table holding the open signal 7,
the calls `updateSignalStatus(7, "SL Hit", -2)` and then
`updateSignalStatus(7, "Open")` are both accepted, and the signal that had
reached "SL Hit" (rank 3, closed) is back at "Open" (rank 0) with its closing
time erased; more generally every allowed status is accepted whatever the
current status of the row. -/
theorem updateSignalStatus_status_regresses :
    updateSignalStatus "2024-01-01T00:00:00.000Z" [⟨7, "Open", none, none⟩] 7 "SL Hit" (some (-2))
      = .ok (some ⟨7, "SL Hit", some (-2), some "2024-01-01T00:00:00.000Z"⟩,
          [⟨7, "SL Hit", some (-2), some "2024-01-01T00:00:00.000Z"⟩]) ∧
    updateSignalStatus "2024-01-02T00:00:00.000Z"
        [⟨7, "SL Hit", some (-2), some "2024-01-01T00:00:00.000Z"⟩] 7 "Open" none
      = .ok (some ⟨7, "Open", none, none⟩, [⟨7, "Open", none, none⟩]) ∧
    statusRank "Open" < statusRank "SL Hit" ∧
    statusAfter [⟨7, "Open", none, none⟩] 7 [("SL Hit", some (-2)), ("Open", none)]
      = (some "Open", 2) ∧
    (∀ (now : String) (signals : List SignalRow) (id : ℕ) (status : String) (resultPct : Option ℚ),
      status ∈ allowedStatuses →
      ∃ r table, updateSignalStatus now signals id status resultPct = .ok (r, table) ∧
        table.map (fun row => row.id) = signals.map (fun row => row.id) ∧
        ∀ row ∈ table, row.id = id → row.status = status) := by
  refine ⟨by decide, by decide, by decide, by decide, ?_⟩
  intro now signals id status resultPct hs
  have hc : allowedStatuses.contains status = true := by
    simpa using hs
  refine ⟨_, _, by simp only [updateSignalStatus, hc, not_true_eq_false, if_false]; rfl, ?_, ?_⟩
  · rw [List.map_map]
    apply List.map_congr_left
    intro row _
    simp only [Function.comp]
    split_ifs <;> rfl
  · intro row hrow hid
    rw [List.mem_map] at hrow
    obtain ⟨r0, -, rfl⟩ := hrow
    by_cases h : r0.id = id
    · simp only [h, if_true]
    · rw [if_neg h] at hid
      exact absurd hid h

set_option maxRecDepth 100000 in
/-- The engine run on the pull-back series, checked by evaluation. -/
theorem pullbackCandles_facts :
    (analyze tiLib (some pullbackCandles) "1H").toOption.map stopFacts
      = some ⟨"Bullish", 101, cent 11249, cent 8060, some 59, some "Long", some (cent 11137),
          101⟩ := by
  decide!

theorem stopFacts_signal (rep : TAReport) (d : String) (sl : ℚ)
    (hd : (stopFacts rep).direction = some d) (hs : (stopFacts rep).stopLoss = some sl) :
    ∃ sig, buildSignal "BTCUSDT" rep.timeframe ⟨"BTCUSDT", rep.currentPrice, 0, 0⟩ rep "" ""
        = .ok (some sig) ∧ sig.direction = d ∧ sig.stopLoss = sl := by
  simp only [stopFacts] at hd hs
  cases hb : buildSignal "BTCUSDT" rep.timeframe ⟨"BTCUSDT", rep.currentPrice, 0, 0⟩ rep "" "" with
  | error e => simp [hb, Except.toOption] at hd
  | ok o =>
    cases o with
    | none => simp [hb, Except.toOption] at hd
    | some sig =>
      simp only [hb, Except.toOption, Option.join, Option.bind, Option.map, id,
        Option.some.injEq] at hd hs
      exact ⟨sig, rfl, hd, hs⟩

theorem stopFacts_unpack (lib : IndicatorLib) (cs : List Candle) (timeframe : String)
    (f : StopFacts) (d : String) (sl : ℚ)
    (h : (analyze lib (some cs) timeframe).toOption.map stopFacts = some f)
    (hd : f.direction = some d) (hs : f.stopLoss = some sl) :
    ∃ rep sig, analyze lib (some cs) timeframe = .ok rep ∧
      buildSignal "BTCUSDT" timeframe ⟨"BTCUSDT", rep.currentPrice, 0, 0⟩ rep "" ""
        = .ok (some sig) ∧
      rep.bias = f.bias ∧ rep.currentPrice = f.price ∧ rep.indicators.ema.ema50 = f.ema50 ∧
      rep.indicators.ema.ema200 = f.ema200 ∧
      rep.struct.supportResistance.nearestSupport = f.nearestSupport ∧
      sig.direction = d ∧ sig.stopLoss = sl ∧
      (calcEntryZone rep.currentPrice rep).mid = f.entryMid := by
  obtain ⟨rep, hrep, hf⟩ := ok_of_toOption_map _ _ _ h
  obtain ⟨cs', -, -, -, -, -, -, -, -, -, -, -, -, htf⟩ := analyze_ok_fields _ _ _ _ hrep
  subst hf
  obtain ⟨sig, hsig, h1, h2⟩ := stopFacts_signal rep d sl hd hs
  rw [htf] at hsig
  exact ⟨rep, sig, hrep, hsig, rfl, rfl, rfl, rfl, rfl, h1, h2, rfl⟩

/-- C23: the stop-loss of a Long signal need not be below the entry.  On the
pull-back series the report is `Bullish` with four votes, the price 101 being
above `ema200 = 80.6` and below `ema50 = 112.49`, and the nearest support is
59: the Long signal built at the report's price has its stop-loss at
`round2 (max 59 (112.49 * 0.99)) = 111.37`, above the entry mid 101, above the
support and above `ema200`, where the comment of `calcStopLoss` announces a
stop-loss below the nearest support or `ema200`. -/
theorem long_stop_not_below_entry :
    ∃ rep sig, analyze tiLib (some pullbackCandles) "1H" = .ok rep ∧
      buildSignal "BTCUSDT" "1H" ⟨"BTCUSDT", rep.currentPrice, 0, 0⟩ rep "" "" = .ok (some sig) ∧
      rep.bias = "Bullish" ∧ sig.direction = "Long" ∧ rep.currentPrice = 101 ∧
      rep.indicators.ema.ema50 = cent 11249 ∧ rep.indicators.ema.ema200 = cent 8060 ∧
      rep.struct.supportResistance.nearestSupport = some 59 ∧
      sig.stopLoss = cent 11137 ∧
      (calcEntryZone rep.currentPrice rep).mid = 101 ∧
      (calcEntryZone rep.currentPrice rep).mid < sig.stopLoss ∧
      (59 : ℚ) < sig.stopLoss ∧ rep.indicators.ema.ema200 < sig.stopLoss := by
  obtain ⟨rep, sig, h1, h2, h3, h4, h5, h6, h7, h8, h9, h10⟩ :=
    stopFacts_unpack _ _ _ _ "Long" (cent 11137) pullbackCandles_facts rfl rfl
  have e1 : (101 : ℚ) < cent 11137 := by decide!
  have e2 : (59 : ℚ) < cent 11137 := by decide!
  have e3 : cent 8060 < cent 11137 := by decide!
  refine ⟨rep, sig, h1, h2, h3, h8, h4, h5, h6, h7, h9, h10, ?_, ?_, ?_⟩
  · rw [h9, h10]
    exact e1
  · rw [h9]
    exact e2
  · rw [h9, h6]
    exact e3

end Clon
